import Mathlib

/-!
# Verification development for the QP assembler of Tasks (src/src/QPSolver.cpp)
# and for the low-level tasks (src/src/Tasks.cpp)

Shallow embedding of `tasks::qp::QPSolver` and of the classes `tasks::PositionTask`,
`tasks::PostureTask` and `tasks::OrientationTrackingTask`.

Conventions of the embedding
* `double` values are exact rationals; vectors that may hold an infinite bound
  (`XL_`, `XU_`, `Lower()`, `Upper()`) use `BoundVal`.
* `Eigen::VectorXd` is a list, `Eigen::MatrixXd` is a pair of dimensions with a
  coefficient function. Block and segment writes are only meaningful in range
  (Eigen asserts otherwise); the model leaves out-of-range cells untouched.
* `int` sizes and counters are natural numbers; body ids and the return value of
  `contactLambdaPosition` are integers.
* Tasks and constraints are client objects reached through virtual calls; a
  registered object is represented by the values its accessors report.
-/

namespace tasks

/-! ## Linear algebra containers -/

/-- Dense vector of doubles. -/
abbrev Vec := List ℚ

/-- Entry of a bound vector: a finite double or one of the two infinities. -/
inductive BoundVal where
  | negInf : BoundVal
  | val (x : ℚ) : BoundVal
  | posInf : BoundVal
deriving DecidableEq

/-- Eigen `v.head(n)`. -/
def Vec.head {α : Type} (v : List α) (n : Nat) : List α := v.take n

/-- Eigen `v.segment(start, n)`. -/
def Vec.segment {α : Type} (v : List α) (start n : Nat) : List α := (v.drop start).take n

/-- Eigen `v.tail(n)`. -/
def Vec.tail {α : Type} (v : List α) (n : Nat) : List α := v.drop (v.length - n)

/-- Eigen `v.segment(start, n) = w`: cells `start .. start+n-1` receive `w`. -/
def Vec.setSegment {α : Type} (v : List α) (start n : Nat) (w : List α) : List α :=
  List.zipWith (fun j x => if start ≤ j ∧ j < start + n then w.getD (j - start) x else x)
    (List.range v.length) v

/-- Eigen `v.segment(start, n) += k * w`. -/
def Vec.addSegment (v : Vec) (start n : Nat) (k : ℚ) (w : Vec) : Vec :=
  List.zipWith (fun j x => if start ≤ j ∧ j < start + n then x + k * w.getD (j - start) 0 else x)
    (List.range v.length) v

/-- Eigen `v.resize(n)`: a no-op when the size is unchanged; otherwise the
coefficients are reallocated (uninitialised in Eigen, zero in the model). -/
def Vec.resize {α : Type} (v : List α) (n : Nat) (fill : α) : List α :=
  if v.length = n then v else List.replicate n fill

/-- Eigen `v.setZero()` and `v.fill(x)`. -/
def Vec.fill {α : Type} (v : List α) (x : α) : List α := List.replicate v.length x

/-- Dense matrix of doubles. -/
structure Matrix where
  rows : Nat
  cols : Nat
  coeff : Nat → Nat → ℚ

/-- Default-constructed (empty) matrix. -/
def Matrix.empty : Matrix := ⟨0, 0, fun _ _ => 0⟩

/-- Eigen `m.resize(r, c)`: a no-op when the dimensions are unchanged; otherwise
the coefficients are reallocated (uninitialised in Eigen, zero in the model). -/
def Matrix.resize (m : Matrix) (r c : Nat) : Matrix :=
  if m.rows = r ∧ m.cols = c then m else ⟨r, c, fun _ _ => 0⟩

/-- Eigen `m.setZero()`. -/
def Matrix.setZero (m : Matrix) : Matrix := { m with coeff := fun _ _ => 0 }

/-- Eigen `dst.block(r0, c0, nr, nc) = src.block(0, 0, nr, nc)`. -/
def Matrix.setBlock (dst : Matrix) (r0 c0 nr nc : Nat) (src : Matrix) : Matrix :=
  { dst with coeff := fun i j =>
      if r0 ≤ i ∧ i < r0 + nr ∧ c0 ≤ j ∧ j < c0 + nc then src.coeff (i - r0) (j - c0)
      else dst.coeff i j }

/-- Eigen `dst.block(r0, c0, nr, nc) += k * src`. -/
def Matrix.addBlock (dst : Matrix) (r0 c0 nr nc : Nat) (k : ℚ) (src : Matrix) : Matrix :=
  { dst with coeff := fun i j =>
      if r0 ≤ i ∧ i < r0 + nr ∧ c0 ≤ j ∧ j < c0 + nc then
        dst.coeff i j + k * src.coeff (i - r0) (j - c0)
      else dst.coeff i j }

/-- Eigen `m(i, j) = x`. -/
def Matrix.set (m : Matrix) (i j : Nat) (x : ℚ) : Matrix :=
  { m with coeff := fun a b => if a = i ∧ b = j then x else m.coeff a b }

/-! ## Kinematics library (RBDyn), consumed through its interface -/

/-- Modelled from the spec: `rbd::Joint::Type` of the kinematics library, which is
not part of the repository sources. -/
inductive JointType where
  | RevX | RevY | RevZ | PrismX | PrismY | PrismZ | Spherical | Free | Fixed
deriving DecidableEq

/-- Modelled from the spec: `rbd::Joint`; only its type is needed. -/
structure Joint where
  type : JointType
deriving DecidableEq

/-- Modelled from the spec: `rbd::Joint::dof()`; the free-flyer is the 6-DoF joint,
a fixed joint has none. -/
def Joint.dof (j : Joint) : Nat :=
  match j.type with
  | .RevX | .RevY | .RevZ | .PrismX | .PrismY | .PrismZ => 1
  | .Spherical => 3
  | .Free => 6
  | .Fixed => 0

/-- Modelled from the spec: `rbd::MultiBody`, a root joint `joint(0)` followed by
the other joints. -/
structure MultiBody where
  root : Joint
  joints : List Joint

/-- Modelled from the spec: `rbd::MultiBody::joint(0)`. -/
def MultiBody.joint0 (mb : MultiBody) : Joint := mb.root

/-- Modelled from the spec: `rbd::MultiBody::nrDof()`, the sum of the joint DoF. -/
def MultiBody.nrDof (mb : MultiBody) : Nat :=
  mb.root.dof + (mb.joints.map Joint.dof).sum

/-- Modelled from the spec: the per-joint lists of `rbd::MultiBodyConfig` that the
solver reads or writes. -/
structure MultiBodyConfig where
  q : List (List ℚ)
  alpha : List (List ℚ)
  alphaD : List (List ℚ)
  jointTorque : List (List ℚ)
deriving DecidableEq

/-- Modelled from the spec: `rbd::vectorToParam(v, e)`, which fills the per-joint
lists of `e`, keeping their shape, with the consecutive entries of `v`. -/
def vectorToParam (v : Vec) : List (List ℚ) → Nat → List (List ℚ)
  | [], _ => []
  | p :: ps, pos =>
    (List.range p.length).map (fun j => v.getD (pos + j) 0) ::
      vectorToParam v ps (pos + p.length)

/-- Modelled from the spec: the kinematics oracle used to advance the manipulated body
(`rbd::eulerIntegration`, `rbd::forwardKinematics`, `rbd::forwardVelocity`). -/
structure Kinematics where
  eulerIntegration : MultiBody → MultiBodyConfig → ℚ → MultiBodyConfig
  forwardKinematics : MultiBody → MultiBodyConfig → MultiBodyConfig
  forwardVelocity : MultiBody → MultiBodyConfig → MultiBodyConfig

/-! ## Contacts and problem data (QPContacts.h, QPSolverData) -/

/-- Modelled from the spec: `UnilateralContact` of QPContacts.h (absent from the
sources): a body id, the contact points, and `nrLambda(i)`, the number of cone
generators of point `i`. -/
structure UnilateralContact where
  bodyId : Int
  points : List (ℚ × ℚ × ℚ)
  nrLambda : Nat → Nat

/-- Modelled from the spec: `BilateralContact` of QPContacts.h (absent from the
sources), same interface as the unilateral contact. -/
structure BilateralContact where
  bodyId : Int
  points : List (ℚ × ℚ × ℚ)
  nrLambda : Nat → Nat

/-- Modelled from the spec: `QPSolverData`, the problem-data registry (its class
declaration is absent from the sources). -/
structure QPSolverData where
  alphaD : Nat
  lambda : Nat
  lambdaUni : Nat
  lambdaBi : Nat
  lambdaManip : Nat
  torque : Nat
  nrVars : Nat
  uniCont : List UnilateralContact
  biCont : List BilateralContact
  robotToManipBodyContacts : List UnilateralContact
  manipBodyToRobotContacts : List UnilateralContact
  manipBody : MultiBody
  manipBodyConfig : MultiBodyConfig

/-- Default-constructed registry. -/
def QPSolverData.init : QPSolverData :=
  { alphaD := 0, lambda := 0, lambdaUni := 0, lambdaBi := 0, lambdaManip := 0,
    torque := 0, nrVars := 0, uniCont := [], biCont := [],
    robotToManipBodyContacts := [], manipBodyToRobotContacts := [],
    manipBody := ⟨⟨JointType.Fixed⟩, []⟩, manipBodyConfig := ⟨[], [], [], []⟩ }

/-- The four sizes of the decision-vector partition held by the registry. -/
def QPSolverData.sizes (d : QPSolverData) : Nat × Nat × Nat × Nat :=
  (d.alphaD, d.lambda, d.torque, d.nrVars)

/-! ## Registered client objects -/

/-- Values reported by a registered task: `Q()`, `C()`, `begin()`, `weight()`. -/
structure Task where
  Q : Matrix
  C : Vec
  begin : Nat × Nat
  weight : ℚ

/-- Values reported by a registered equality constraint. -/
structure Equality where
  maxEq : Nat
  nrEq : Nat
  AEq : Matrix
  BEq : Vec

/-- Values reported by a registered inequality constraint. -/
structure Inequality where
  maxInEq : Nat
  nrInEq : Nat
  AInEq : Matrix
  BInEq : Vec

/-- Values reported by a registered bound constraint. -/
structure Bound where
  Lower : List BoundVal
  Upper : List BoundVal
  beginVar : Nat

/-! ## The solver -/

/-- Value add to the diagonal to ensure positive matrix. -/
def DIAG_CONSTANT : ℚ := 1 / 100000

/-- State of `tasks::qp::QPSolver`. `solverSize` records the last dimensions given
to the back-end by `problem(nrVar, nrEq, nrIneq)`. -/
structure QPSolver where
  eqConstr : List Equality
  inEqConstr : List Inequality
  boundConstr : List Bound
  tasks : List Task
  nrEq : Nat
  A1 : Matrix
  B1 : Vec
  nrInEq : Nat
  A2 : Matrix
  B2 : Vec
  XL : List BoundVal
  XU : List BoundVal
  Q : Matrix
  C : Vec
  res : Vec
  torqueRes : Vec
  silent : Bool
  data : QPSolverData
  solverSize : Nat × Nat × Nat

namespace QPSolver

/-- Constructor `QPSolver::QPSolver(silent)`. -/
def new (silent : Bool) : QPSolver :=
  { eqConstr := [], inEqConstr := [], boundConstr := [], tasks := [],
    nrEq := 0, A1 := Matrix.empty, B1 := [], nrInEq := 0, A2 := Matrix.empty, B2 := [],
    XL := [], XU := [], Q := Matrix.empty, C := [], res := [], torqueRes := [],
    silent := silent, data := QPSolverData.init, solverSize := (0, 0, 0) }

/-- Back-end sizing `updateSolverSize(nrVar, nrEq, nrIneq)`. -/
def updateSolverSize (s : QPSolver) (nrVar nrEq nrIneq : Nat) : QPSolver :=
  { s with solverSize := (nrVar, nrEq, nrIneq) }

/-- Source `QPSolver::updateEqConstrSize`. -/
def updateEqConstrSize (s : QPSolver) : QPSolver :=
  let nbEq := s.eqConstr.foldl (fun acc e => acc + e.maxEq) 0
  let s1 := { s with nrEq := 0,
                     A1 := s.A1.resize nbEq s.data.nrVars,
                     B1 := Vec.resize s.B1 nbEq 0 }
  s1.updateSolverSize s1.data.nrVars nbEq s1.B2.length

/-- Source `QPSolver::updateInEqConstrSize`. -/
def updateInEqConstrSize (s : QPSolver) : QPSolver :=
  let nbInEq := s.inEqConstr.foldl (fun acc e => acc + e.maxInEq) 0
  let s1 := { s with nrInEq := 0,
                     A2 := s.A2.resize nbInEq s.data.nrVars,
                     B2 := Vec.resize s.B2 nbInEq 0 }
  s1.updateSolverSize s1.data.nrVars s1.B1.length nbInEq

/-- Inner counting loop `for i < c.points.size(): acc += c.nrLambda(i)`. -/
def countLambda (nrPoints : Nat) (nrLambda : Nat → Nat) (acc : Nat) : Nat :=
  (List.range nrPoints).foldl (fun a i => a + nrLambda i) acc

/-- Source `QPSolver::nrVars(mb, uni, bi, robToManip, manipToRob)`, the
problem-structure change. The calls `updateNrVars` on tasks and constraints only
touch the client objects. -/
def nrVars (s : QPSolver) (mb : MultiBody) (uni : List UnilateralContact)
    (bi : List BilateralContact) (robToManip manipToRob : List UnilateralContact) :
    QPSolver :=
  let alphaD0 := mb.nrDof
  let torque := mb.nrDof - mb.joint0.dof
  let lambdaUni := uni.foldl (fun acc c => countLambda c.points.length c.nrLambda acc) 0
  let lambdaBi := bi.foldl (fun acc c => countLambda c.points.length c.nrLambda acc) 0
  let lambdaManip :=
    robToManip.foldl (fun acc c => countLambda c.points.length c.nrLambda acc) 0
  let alphaD := if lambdaManip ≠ 0 then alphaD0 + 6 else alphaD0
  let lambda := lambdaUni + lambdaBi + lambdaManip
  let n := alphaD + lambda + torque
  let d : QPSolverData :=
    { s.data with alphaD := alphaD, lambda := lambda, lambdaUni := lambdaUni,
                  lambdaBi := lambdaBi, lambdaManip := lambdaManip, torque := torque,
                  nrVars := n, uniCont := uni, biCont := bi,
                  robotToManipBodyContacts := robToManip,
                  manipBodyToRobotContacts := manipToRob }
  let s1 : QPSolver := { s with data := d }
  let s2 : QPSolver :=
    if s1.XL.length ≠ n then
      let tr := Vec.resize s1.torqueRes mb.nrDof 0
      { s1 with XL := Vec.resize s1.XL n BoundVal.negInf,
                XU := Vec.resize s1.XU n BoundVal.posInf,
                Q := s1.Q.resize n n,
                C := Vec.resize s1.C n 0,
                res := Vec.resize s1.res n 0,
                torqueRes :=
                  if mb.joint0.type = JointType.Free then
                    Vec.setSegment tr 0 mb.joint0.dof (List.replicate mb.joint0.dof 0)
                  else tr }
    else s1
  s2.updateSolverSize n s2.B1.length s2.B2.length

/-- Source `QPSolver::nrVars() const`. -/
def nrVarsGet (s : QPSolver) : Nat := s.data.nrVars

/-- Source `QPSolver::addEqualityConstraint`. -/
def addEqualityConstraint (s : QPSolver) (co : Equality) : QPSolver :=
  { s with eqConstr := s.eqConstr ++ [co] }

/-- Source `QPSolver::addInequalityConstraint`. -/
def addInequalityConstraint (s : QPSolver) (co : Inequality) : QPSolver :=
  { s with inEqConstr := s.inEqConstr ++ [co] }

/-- Source `QPSolver::addBoundConstraint`. -/
def addBoundConstraint (s : QPSolver) (co : Bound) : QPSolver :=
  { s with boundConstr := s.boundConstr ++ [co] }

/-- Source `QPSolver::addTask` (the client passes a task not yet registered). -/
def addTask (s : QPSolver) (t : Task) : QPSolver :=
  { s with tasks := s.tasks ++ [t] }

/-- Source `QPSolver::result`. -/
def result (s : QPSolver) : Vec := s.res

/-- Source `QPSolver::alphaDVec`. -/
def alphaDVec (s : QPSolver) : Vec := Vec.head s.res s.data.alphaD

/-- Source `QPSolver::lambdaVec`. -/
def lambdaVec (s : QPSolver) : Vec := Vec.segment s.res s.data.alphaD s.data.lambda

/-- Source `QPSolver::torqueVec`. -/
def torqueVec (s : QPSolver) : Vec := Vec.tail s.res s.data.torque

/-- First loop of `contactLambdaPosition`, over the unilateral contacts: `Sum.inl pos`
is the early `return pos`, `Sum.inr pos` the counter when the loop runs to its end. -/
def uniLoop (bodyId : Int) : List UnilateralContact → Int → Int ⊕ Int
  | [], pos => Sum.inr pos
  | uc :: rest, pos =>
    if uc.bodyId = bodyId then Sum.inl pos
    else uniLoop bodyId rest
      ((List.range uc.points.length).foldl (fun a i => a + (uc.nrLambda i : Int)) pos)

/-- Second loop of `contactLambdaPosition`, over the bilateral contacts. -/
def biLoop (bodyId : Int) : List BilateralContact → Int → Int ⊕ Int
  | [], pos => Sum.inr pos
  | bc :: rest, pos =>
    if bc.bodyId = bodyId then Sum.inl pos
    else biLoop bodyId rest
      ((List.range bc.points.length).foldl (fun a i => a + (bc.nrLambda i : Int)) pos)

/-- Source `QPSolver::contactLambdaPosition`. -/
def contactLambdaPosition (s : QPSolver) (bodyId : Int) : Int :=
  match uniLoop bodyId s.data.uniCont 0 with
  | Sum.inl pos => pos
  | Sum.inr pos =>
    match biLoop bodyId s.data.biCont pos with
    | Sum.inl pos => pos
    | Sum.inr _ => -1

/-- Body of the equality loop of `preUpdate`. -/
def eqStep (s : QPSolver) (e : Equality) : QPSolver :=
  let nrConstr := e.nrEq
  { s with A1 := s.A1.setBlock s.nrEq 0 nrConstr s.data.nrVars e.AEq,
           B1 := Vec.setSegment s.B1 s.nrEq nrConstr (Vec.head e.BEq nrConstr),
           nrEq := s.nrEq + nrConstr }

/-- Body of the inequality loop of `preUpdate`. -/
def inEqStep (s : QPSolver) (e : Inequality) : QPSolver :=
  let nrConstr := e.nrInEq
  { s with A2 := s.A2.setBlock s.nrInEq 0 nrConstr s.data.nrVars e.AInEq,
           B2 := Vec.setSegment s.B2 s.nrInEq nrConstr (Vec.head e.BInEq nrConstr),
           nrInEq := s.nrInEq + nrConstr }

/-- Body of the bound loop of `preUpdate`. -/
def boundStep (s : QPSolver) (b : Bound) : QPSolver :=
  { s with XL := Vec.setSegment s.XL b.beginVar b.Lower.length b.Lower,
           XU := Vec.setSegment s.XU b.beginVar b.Upper.length b.Upper }

/-- Body of the task loop of `preUpdate`. -/
def taskStep (s : QPSolver) (t : Task) : QPSolver :=
  let r := t.Q.rows
  let c := t.Q.cols
  { s with Q := s.Q.addBlock t.begin.1 t.begin.2 r c t.weight t.Q,
           C := Vec.addSegment s.C t.begin.1 r t.weight t.C }

/-- Assembly part of `preUpdate` (source lines 437 to 509): everything before the
diagonal loop. The `update` calls on constraints and tasks only touch the client
objects. -/
def preUpdateFill (s : QPSolver) : QPSolver :=
  let s0 : QPSolver :=
    { s with A1 := s.A1.setZero, B1 := Vec.fill s.B1 0,
             A2 := s.A2.setZero, B2 := Vec.fill s.B2 0,
             XL := Vec.fill s.XL BoundVal.negInf,
             XU := Vec.fill s.XU BoundVal.posInf,
             Q := s.Q.setZero, C := Vec.fill s.C 0 }
  let s1 := s.eqConstr.foldl eqStep { s0 with nrEq := 0 }
  let s2 := s.inEqConstr.foldl inEqStep { s1 with nrInEq := 0 }
  let s3 := s.boundConstr.foldl boundStep s2
  s.tasks.foldl taskStep s3

/-- Body of the diagonal loop of `preUpdate`. -/
def diagStep (Q : Matrix) (i : Nat) : Matrix :=
  if |Q.coeff i i| < DIAG_CONSTANT then Q.set i i (Q.coeff i i + DIAG_CONSTANT) else Q

/-- Diagonal loop of `preUpdate` (source lines 518 to 524). -/
def regularize (s : QPSolver) : QPSolver :=
  { s with Q := (List.range s.data.nrVars).foldl diagStep s.Q }

/-- Source `QPSolver::preUpdate`. -/
def preUpdate (s : QPSolver) : QPSolver := regularize (preUpdateFill s)

/-- Source `QPSolver::postUpdate`. -/
def postUpdate (kin : Kinematics) (s : QPSolver) (mb : MultiBody) (mbc : MultiBodyConfig)
    (success : Bool) (result : Vec) (step : ℚ) : QPSolver × MultiBodyConfig :=
  if success then
    let dof0 := mb.joint0.dof
    let s1 : QPSolver :=
      { s with res := result,
               torqueRes := Vec.setSegment s.torqueRes dof0 (mb.nrDof - dof0)
                              (Vec.tail result s.data.torque) }
    let mbc1 : MultiBodyConfig :=
      { mbc with jointTorque := vectorToParam s1.torqueRes mbc.jointTorque 0 }
    if s1.data.robotToManipBodyContacts.length ≠ 0 then
      let mbc2 : MultiBodyConfig :=
        { mbc1 with alphaD := vectorToParam (Vec.head s1.res (s1.data.alphaD - 6)) mbc1.alphaD 0 }
      let mc1 : MultiBodyConfig :=
        { s1.data.manipBodyConfig with
            alphaD := vectorToParam (Vec.segment s1.res (s1.data.alphaD - 6) 6)
                        s1.data.manipBodyConfig.alphaD 0 }
      let mc2 := kin.eulerIntegration s1.data.manipBody mc1 step
      let mc3 := kin.forwardKinematics s1.data.manipBody mc2
      let mc4 := kin.forwardVelocity s1.data.manipBody mc3
      ({ s1 with data := { s1.data with manipBodyConfig := mc4 } }, mbc2)
    else
      (s1, { mbc1 with alphaD := vectorToParam (Vec.head s1.res s1.data.alphaD) mbc1.alphaD 0 })
  else (s, mbc)

/-- Source `QPSolver::updateLSSOL`. The back-end `lssol` sees the assembled problem
and answers with its success flag and its `result()`. -/
def updateLSSOL (kin : Kinematics) (lssol : QPSolver → Bool × Vec) (s : QPSolver)
    (mb : MultiBody) (mbc : MultiBodyConfig) (step : ℚ) :
    Bool × QPSolver × MultiBodyConfig :=
  let s1 := preUpdate s
  let r := lssol s1
  let p := postUpdate kin s1 mb mbc r.1 r.2 step
  (r.1, p.1, p.2)

/-- Source `QPSolver::update`. -/
def update (kin : Kinematics) (lssol : QPSolver → Bool × Vec) (s : QPSolver)
    (mb : MultiBody) (mbc : MultiBodyConfig) (step : ℚ) :
    Bool × QPSolver × MultiBodyConfig :=
  updateLSSOL kin lssol s mb mbc step

/-- The `while(!success && iter < 1e-3)` loop of `updateQLD`. `solve iter` is the
answer of `qld_.solve(..., iter)` with the back-end result it leaves behind. The list
records the tolerances passed to the back-end, in call order. The loop gives `none`
only when the fuel runs out before the loop condition turns false. -/
def qldLoop (solve : ℚ → Bool × Vec) :
    Nat → Bool → ℚ → List ℚ → Vec → Option (Bool × List ℚ × Vec)
  | fuel, success, iter, calls, res =>
    if !success && decide (iter < 1 / 1000) then
      match fuel with
      | 0 => none
      | fuel + 1 =>
        qldLoop solve fuel (solve iter).1 (iter * 10) (calls ++ [iter]) (solve iter).2
    else some (success, calls, res)

/-- Source `QPSolver::updateQLD`. `qld s1 tol` is the back-end called on the assembled
problem `s1` with tolerance `tol`; `qldRes` is the result the back-end holds before
the first call. The last component lists the tolerances of the calls made. -/
def updateQLD (kin : Kinematics) (qld : QPSolver → ℚ → Bool × Vec) (qldRes : Vec)
    (fuel : Nat) (s : QPSolver) (mb : MultiBody) (mbc : MultiBodyConfig) (step : ℚ) :
    Option (Bool × QPSolver × MultiBodyConfig × List ℚ) :=
  let s1 := preUpdate s
  match qldLoop (qld s1) fuel false (1 / 100000000) [] qldRes with
  | none => none
  | some (success, calls, res) =>
    let p := postUpdate kin s1 mb mbc success res step
    some (success, p.1, p.2, calls)

end QPSolver

/-- Source `QPSolver::manipBody(body, bodyConfig)`: installs the manipulated body and
its configuration in the registry. -/
def QPSolver.manipBody (s : QPSolver) (body : MultiBody) (bodyConfig : MultiBodyConfig) :
    QPSolver :=
  { s with data := { s.data with manipBody := body, manipBodyConfig := bodyConfig } }

/-- Source `QPSolver::manipBodyConfig()`. -/
def QPSolver.manipBodyConfig (s : QPSolver) : MultiBodyConfig := s.data.manipBodyConfig

/-! ## Task accumulation with the arithmetic of the machine

The loop over the tasks is the one place of `preUpdate` where values are added to
values already stored, so the order of the additions shows in the rounding. The
following definitions repeat the task loop with the addition and the product of
doubles as parameters `plus` and `times`; with the exact operations they are the
definitions above. Eigen evaluates `block += w * Q` coefficient by coefficient as
`dst = dst + w * q`; the product and the sum are taken as two separately rounded
operations (no fused multiply-add). -/

/-- Eigen `dst.block(r0, c0, nr, nc) += k * src` with the addition `plus` and the
product `times` of doubles. -/
def Matrix.addBlockWith (plus times : ℚ → ℚ → ℚ) (dst : Matrix) (r0 c0 nr nc : Nat) (k : ℚ)
    (src : Matrix) : Matrix :=
  { dst with coeff := fun i j =>
                if r0 ≤ i ∧ i < r0 + nr ∧ c0 ≤ j ∧ j < c0 + nc then
                  plus (dst.coeff i j) (times k (src.coeff (i - r0) (j - c0)))
                else dst.coeff i j }

/-- Eigen `v.segment(start, n) += k * w` with the addition `plus` and the product `times`
of doubles. -/
def Vec.addSegmentWith (plus times : ℚ → ℚ → ℚ) (v : Vec) (start n : Nat) (k : ℚ) (w : Vec) :
    Vec :=
  List.zipWith
    (fun j x => if start ≤ j ∧ j < start + n then plus x (times k (w.getD (j - start) 0)) else x)
    (List.range v.length) v

/-- Body of the task loop of `preUpdate` (source lines 498 to 509) with the addition
`add` and the product `times` of doubles. -/
def QPSolver.taskStepWith (plus times : ℚ → ℚ → ℚ) (s : QPSolver) (t : Task) : QPSolver :=
  let r := t.Q.rows
  let c := t.Q.cols
  { s with Q := s.Q.addBlockWith plus times t.begin.1 t.begin.2 r c t.weight t.Q,
           C := Vec.addSegmentWith plus times s.C t.begin.1 r t.weight t.C }

/-- Assembly part of `preUpdate` (source lines 437 to 509) with the addition `plus` and
the product `times` of doubles in the task loop. -/
def QPSolver.preUpdateFillWith (plus times : ℚ → ℚ → ℚ) (s : QPSolver) : QPSolver :=
  let s0 : QPSolver :=
    { s with A1 := s.A1.setZero, B1 := Vec.fill s.B1 0,
             A2 := s.A2.setZero, B2 := Vec.fill s.B2 0,
             XL := Vec.fill s.XL BoundVal.negInf,
             XU := Vec.fill s.XU BoundVal.posInf,
             Q := s.Q.setZero, C := Vec.fill s.C 0 }
  let s1 := s.eqConstr.foldl QPSolver.eqStep { s0 with nrEq := 0 }
  let s2 := s.inEqConstr.foldl QPSolver.inEqStep { s1 with nrInEq := 0 }
  let s3 := s.boundConstr.foldl QPSolver.boundStep s2
  s.tasks.foldl (QPSolver.taskStepWith plus times) s3

/-- Integer nearest to `n / d`, a tie going to the even one (`d` positive). -/
def roundNearestEven (n d : Nat) : Nat :=
  let q := n / d
  let r := n % d
  if 2 * r < d then q
  else if d < 2 * r then q + 1
  else if q % 2 = 0 then q else q + 1

/-- Halving count of `bitLog`: `fuel` bounds the number of halvings. -/
def bitLogLoop : Nat → Nat → Nat
  | 0, _ => 0
  | fuel + 1, n => if n < 2 then 0 else bitLogLoop fuel (n / 2) + 1

/-- Integer part of the base-2 logarithm of `n` (0 for `n = 0`). -/
def bitLog (n : Nat) : Nat := bitLogLoop n n

/-- Integer part of the base-2 logarithm of `n / d` (`n` and `d` positive). -/
def floorLog2 (n d : Nat) : Int :=
  let c : Int := (bitLog n : Int) - (bitLog d : Int)
  if d * 2 ^ c.toNat ≤ n * 2 ^ (-c).toNat then c else c - 1

/-- IEEE 754 binary64 rounding to nearest, ties to even: the double nearest to the
rational `x`. The significand has 53 bits and the least exponent of a unit in the last
place is -1074; overflow to infinity is left out (magnitudes stay below 2^1024). -/
def roundDouble (x : ℚ) : ℚ :=
  if x = 0 then 0
  else
    let n := x.num.natAbs
    let d := x.den
    let e : Int := max (floorLog2 n d - 52) (-1074)
    let m := roundNearestEven (n * 2 ^ (-e).toNat) (d * 2 ^ e.toNat)
    mkRat ((if x.num < 0 then -1 else 1) * ((m * 2 ^ e.toNat : Nat) : Int)) (2 ^ (-e).toNat)

/-- Addition of two doubles: the exact sum rounded to the nearest double. -/
def doubleAdd (a b : ℚ) : ℚ := roundDouble (a + b)

/-- Product of two doubles: the exact product rounded to the nearest double. -/
def doubleMul (a b : ℚ) : ℚ := roundDouble (a * b)

/-! ## Low-level tasks (src/src/Tasks.cpp) -/

/-- Modelled from the spec: `rbd::MultiBody::nrJoints()`. -/
def MultiBody.nrJoints (mb : MultiBody) : Nat := mb.joints.length + 1

/-- Modelled from the spec: `rbd::MultiBody::joint(i)`. -/
def MultiBody.joint (mb : MultiBody) (i : Nat) : Joint :=
  (mb.root :: mb.joints).getD i ⟨JointType.Fixed⟩

/-- Modelled from the spec: `rbd::MultiBody::jointPosInDof(i)`, the position of the
first DoF of joint `i` in the DoF vector: the sum of the DoF of the joints before it. -/
def MultiBody.jointPosInDof (mb : MultiBody) (i : Nat) : Nat :=
  (((mb.root :: mb.joints).take i).map Joint.dof).sum

/-- Eigen `m.setIdentity()`. -/
def Matrix.setIdentity (m : Matrix) : Matrix :=
  { m with coeff := fun i j => if i = j then 1 else 0 }

/-- State of `tasks::PostureTask`. -/
structure PostureTask where
  q : List (List ℚ)
  eval : Vec
  jacMat : Matrix
  jacDotMat : Matrix

/-- Constructor `PostureTask::PostureTask(mb, q)`. -/
def PostureTask.new (mb : MultiBody) (q : List (List ℚ)) : PostureTask :=
  let jac0 : Matrix := Matrix.setIdentity ⟨mb.nrDof, mb.nrDof, fun _ _ => 0⟩
  { q := q,
    eval := List.replicate mb.nrDof 0,
    jacMat :=
      if 0 < mb.nrDof ∧ mb.joint0.type = JointType.Free then
        (List.range 6).foldl (fun M i => M.set i i 0) jac0
      else jac0,
    jacDotMat := ⟨mb.nrDof, mb.nrDof, fun _ _ => 0⟩ }

/-- Source `PostureTask::posture(q)`. -/
def PostureTask.posture (t : PostureTask) (q : List (List ℚ)) : PostureTask :=
  { t with q := q }

/-- Loop of `PostureTask::update` over the joint indices still to visit, with the
running position `pos` and the residual vector. `rotErr i` stands for the value of
`sva::rotationError(mbc.jointConfig[i].rotation(), orid)` of joint `i`. -/
def PostureTask.updateLoop (mb : MultiBody) (qDes q : List (List ℚ)) (rotErr : Nat → Vec) :
    List Nat → Nat → Vec → Vec
  | [], _, ev => ev
  | i :: rest, pos, ev =>
    if (mb.joint i).dof = 1 then
      PostureTask.updateLoop mb qDes q rotErr rest (pos + 1)
        (ev.set pos ((qDes.getD i []).getD 0 0 - (q.getD i []).getD 0 0))
    else if (mb.joint i).dof = 4 then
      PostureTask.updateLoop mb qDes q rotErr rest (pos + 3)
        (Vec.setSegment ev pos 3 (rotErr i))
    else PostureTask.updateLoop mb qDes q rotErr rest pos ev

/-- Source `PostureTask::update(mb, mbc)`: the joints 1 .. nrJoints - 1 are visited
in order, starting at position `jointPosInDof(1)`. -/
def PostureTask.update (t : PostureTask) (mb : MultiBody) (mbc : MultiBodyConfig)
    (rotErr : Nat → Vec) : PostureTask :=
  let ev := PostureTask.updateLoop mb t.q mbc.q rotErr (List.range' 1 (mb.nrJoints - 1))
    (mb.jointPosInDof 1) t.eval
  { t with eval := ev }

/-- Eigen `m.block(r0, c0, nr, nc)` read as a matrix of its own. -/
def Matrix.block (m : Matrix) (r0 c0 nr nc : Nat) : Matrix :=
  ⟨nr, nc, fun i j => m.coeff (r0 + i) (c0 + j)⟩

/-- Eigen `m.col(c).setZero()`. -/
def Matrix.setColZero (m : Matrix) (c : Nat) : Matrix :=
  { m with coeff := fun i j => if j = c then 0 else m.coeff i j }

/-- Modelled from the spec: `rbd::Jacobian::fullJacobian(mb, jac, res)` of the
kinematics library, loop over the joints of the path: the columns of the compact
Jacobian `jac` that belong to a path joint are copied to the columns of that joint in
the full Jacobian `res`. -/
def fullJacobianLoop (mb : MultiBody) (jac : Matrix) : List Nat → Nat → Matrix → Matrix
  | [], _, res => res
  | i :: rest, jacPos, res =>
    fullJacobianLoop mb jac rest (jacPos + (mb.joint i).dof)
      (res.setBlock 0 (mb.jointPosInDof i) jac.rows (mb.joint i).dof
        (jac.block 0 jacPos jac.rows (mb.joint i).dof))

/-- Modelled from the spec: `rbd::Jacobian::fullJacobian(mb, jac, res)`. -/
def fullJacobian (mb : MultiBody) (jointsPath : List Nat) (jac res : Matrix) : Matrix :=
  fullJacobianLoop mb jac jointsPath 0 res

/-- State of `tasks::OrientationTrackingTask`. `jointsPath` is `jac_.jointsPath()`,
the joint indices from the root to the body, given by the kinematics library. -/
structure OrientationTrackingTask where
  bodyIndex : Nat
  zeroJacIndex : List Nat
  jointsPath : List Nat
  eval : Vec
  shortJacMat : Matrix
  jacMat : Matrix
  jacDotMat : Matrix

/-- Loop of the constructor of the orientation tracking task over the joints of the
path (source lines 616 to 629): the compact column indices of the joints that are not
tracked are appended to the list. -/
def OrientationTrackingTask.zeroIndexLoop (mb : MultiBody) (trackingJointsIndex : List Nat) :
    List Nat → Nat → List Nat → List Nat
  | [], _, acc => acc
  | i :: rest, jacPos, acc =>
    OrientationTrackingTask.zeroIndexLoop mb trackingJointsIndex rest
      (jacPos + (mb.joint i).dof)
      (if i ∈ trackingJointsIndex then acc
       else (List.range (mb.joint i).dof).foldl (fun a j => a ++ [jacPos + j]) acc)

/-- Constructor `OrientationTrackingTask::OrientationTrackingTask`. The maps
`bodyIndexById` and `jointIndexById` and the joint path of the body come from the
kinematics library. -/
def OrientationTrackingTask.new (mb : MultiBody) (bodyIndexById : Int → Nat)
    (jointIndexById : Int → Nat) (jointsPath : List Nat) (bodyId : Int)
    (trackingJointsId : List Int) : OrientationTrackingTask :=
  let trackingJointsIndex := trackingJointsId.map jointIndexById
  let jacDof := (jointsPath.map (fun i => (mb.joint i).dof)).sum
  { bodyIndex := bodyIndexById bodyId,
    zeroJacIndex :=
      OrientationTrackingTask.zeroIndexLoop mb trackingJointsIndex jointsPath 0 [],
    jointsPath := jointsPath,
    eval := List.replicate 3 0,
    shortJacMat := ⟨3, jacDof, fun _ _ => 0⟩,
    jacMat := ⟨3, mb.nrDof, fun _ _ => 0⟩,
    jacDotMat := ⟨3, mb.nrDof, fun _ _ => 0⟩ }

/-- Source `OrientationTrackingTask::zeroJacobian`. -/
def OrientationTrackingTask.zeroJacobian (t : OrientationTrackingTask) (jac : Matrix) :
    Matrix :=
  t.zeroJacIndex.foldl (fun m i => m.setColZero i) jac

/-- Source `OrientationTrackingTask::update`. `jacobian` is the value of
`jac_.jacobian(mb, mbc)` and `err` the value of the rotation error, both given by the
kinematics library. -/
def OrientationTrackingTask.update (t : OrientationTrackingTask) (mb : MultiBody)
    (jacobian : Matrix) (err : Vec) : OrientationTrackingTask :=
  let short := t.zeroJacobian (jacobian.block 0 0 3 t.shortJacMat.cols)
  { t with eval := err, shortJacMat := short,
           jacMat := fullJacobian mb t.jointsPath short t.jacMat }

/-- Source `OrientationTrackingTask::updateDot`. `jacobianDot` is the value of
`jac_.jacobianDot(mb, mbc)`. -/
def OrientationTrackingTask.updateDot (t : OrientationTrackingTask) (mb : MultiBody)
    (jacobianDot : Matrix) : OrientationTrackingTask :=
  let short := t.zeroJacobian (jacobianDot.block 0 0 3 t.shortJacMat.cols)
  { t with shortJacMat := short,
           jacDotMat := fullJacobian mb t.jointsPath short t.jacDotMat }

/-- Eigen `Vector3d`. -/
structure Vector3d where
  x : ℚ
  y : ℚ
  z : ℚ
deriving DecidableEq

/-- Sum of two 3-vectors. -/
def Vector3d.add (a b : Vector3d) : Vector3d := ⟨a.x + b.x, a.y + b.y, a.z + b.z⟩

/-- Difference of two 3-vectors. -/
def Vector3d.sub (a b : Vector3d) : Vector3d := ⟨a.x - b.x, a.y - b.y, a.z - b.z⟩

/-- The 3-vector as a dense vector of three entries. -/
def Vector3d.toVec (a : Vector3d) : Vec := [a.x, a.y, a.z]

/-- Eigen `Matrix3d`, given by its three rows. -/
structure Matrix3d where
  row0 : Vector3d
  row1 : Vector3d
  row2 : Vector3d
deriving DecidableEq

/-- The 3 x 3 identity. -/
def Matrix3d.identity : Matrix3d := ⟨⟨1, 0, 0⟩, ⟨0, 1, 0⟩, ⟨0, 0, 1⟩⟩

/-- Product of the transpose of a 3 x 3 matrix with a vector. -/
def Matrix3d.transposeMulVec (m : Matrix3d) (v : Vector3d) : Vector3d :=
  ⟨m.row0.x * v.x + m.row1.x * v.y + m.row2.x * v.z,
   m.row0.y * v.x + m.row1.y * v.y + m.row2.y * v.z,
   m.row0.z * v.x + m.row1.z * v.y + m.row2.z * v.z⟩

/-- Product of two 3 x 3 matrices. -/
def Matrix3d.mul (a b : Matrix3d) : Matrix3d :=
  ⟨⟨a.row0.x * b.row0.x + a.row0.y * b.row1.x + a.row0.z * b.row2.x,
    a.row0.x * b.row0.y + a.row0.y * b.row1.y + a.row0.z * b.row2.y,
    a.row0.x * b.row0.z + a.row0.y * b.row1.z + a.row0.z * b.row2.z⟩,
   ⟨a.row1.x * b.row0.x + a.row1.y * b.row1.x + a.row1.z * b.row2.x,
    a.row1.x * b.row0.y + a.row1.y * b.row1.y + a.row1.z * b.row2.y,
    a.row1.x * b.row0.z + a.row1.y * b.row1.z + a.row1.z * b.row2.z⟩,
   ⟨a.row2.x * b.row0.x + a.row2.y * b.row1.x + a.row2.z * b.row2.x,
    a.row2.x * b.row0.y + a.row2.y * b.row1.y + a.row2.z * b.row2.y,
    a.row2.x * b.row0.z + a.row2.y * b.row1.z + a.row2.z * b.row2.z⟩⟩

/-- Modelled from the spec: `sva::PTransformd` of the spatial-algebra library, a
rotation with a translation. -/
structure PTransformd where
  rotation : Matrix3d
  translation : Vector3d
deriving DecidableEq

/-- Modelled from the spec: `sva::PTransformd(const Vector3d&)`, the pure translation. -/
def PTransformd.ofTranslation (v : Vector3d) : PTransformd := ⟨Matrix3d.identity, v⟩

/-- Modelled from the spec: `sva::PTransformd::operator*`, the composition
`(E1, r1) * (E2, r2) = (E1 E2, r2 + E2^T r1)`. -/
def PTransformd.mul (a b : PTransformd) : PTransformd :=
  ⟨a.rotation.mul b.rotation, b.translation.add (b.rotation.transposeMulVec a.translation)⟩

/-- State of `tasks::PositionTask`. `jacPoint` is the point held by `jac_`. -/
structure PositionTask where
  pos : Vector3d
  point : PTransformd
  bodyIndex : Nat
  jacPoint : Vector3d
  jointsPath : List Nat
  eval : Vec
  shortJacMat : Matrix
  jacMat : Matrix
  jacDotMat : Matrix

/-- Constructor `PositionTask::PositionTask(mb, bodyId, pos, bodyPoint)`. -/
def PositionTask.new (mb : MultiBody) (bodyIndexById : Int → Nat) (jointsPath : List Nat)
    (bodyId : Int) (pos bodyPoint : Vector3d) : PositionTask :=
  { pos := pos,
    point := PTransformd.ofTranslation bodyPoint,
    bodyIndex := bodyIndexById bodyId,
    jacPoint := bodyPoint,
    jointsPath := jointsPath,
    eval := List.replicate 3 0,
    shortJacMat := ⟨3, (jointsPath.map (fun i => (mb.joint i).dof)).sum, fun _ _ => 0⟩,
    jacMat := ⟨3, mb.nrDof, fun _ _ => 0⟩,
    jacDotMat := ⟨3, mb.nrDof, fun _ _ => 0⟩ }

/-- Source `PositionTask::position(pos)`. -/
def PositionTask.position (t : PositionTask) (pos : Vector3d) : PositionTask :=
  { t with pos := pos }

/-- Source `PositionTask::bodyPoint(point)`, the setter: `jac_.point(point)`. -/
def PositionTask.bodyPoint (t : PositionTask) (point : Vector3d) : PositionTask :=
  { t with jacPoint := point }

/-- Source `PositionTask::bodyPoint() const`, the getter: `jac_.point()`. -/
def PositionTask.bodyPointGet (t : PositionTask) : Vector3d := t.jacPoint

/-- Source `PositionTask::update(mb, mbc)`. `bodyPosW` is `mbc.bodyPosW` and
`jacobian p` is the value of `jac_.jacobian(mb, mbc)` when `jac_` holds the point `p`. -/
def PositionTask.update (t : PositionTask) (mb : MultiBody) (bodyPosW : List PTransformd)
    (jacobian : Vector3d → Matrix) : PositionTask :=
  let bodyTf := bodyPosW.getD t.bodyIndex ⟨Matrix3d.identity, ⟨0, 0, 0⟩⟩
  let short := (jacobian t.jacPoint).block 3 0 3 t.shortJacMat.cols
  { t with eval := (t.pos.sub (t.point.mul bodyTf).translation).toVec,
           shortJacMat := short,
           jacMat := fullJacobian mb t.jointsPath short t.jacMat }

/-- Source `PositionTask::eval`. -/
def PositionTask.evalGet (t : PositionTask) : Vec := t.eval

/-! ## Specification-side notions -/

/-- Number of force parameters of a contact with the given points: the sum of
`nrLambda(i)` over its points. -/
def sumLambda (nrPoints : Nat) (nrLambda : Nat → Nat) : Nat :=
  ((List.range nrPoints).map nrLambda).sum

/-- Sum of `nrLambda(i)` over all points of all contacts of a unilateral list. -/
def uniTotal (l : List UnilateralContact) : Nat :=
  (l.map (fun c => sumLambda c.points.length c.nrLambda)).sum

/-- Sum of `nrLambda(i)` over all points of all contacts of a bilateral list. -/
def biTotal (l : List BilateralContact) : Nat :=
  (l.map (fun c => sumLambda c.points.length c.nrLambda)).sum

/-- The contacts in lookup order, all unilateral ones then all bilateral ones, each
as its body id with its number of force parameters. -/
def contactOrder (uni : List UnilateralContact) (bi : List BilateralContact) :
    List (Int × Nat) :=
  uni.map (fun c => (c.bodyId, sumLambda c.points.length c.nrLambda)) ++
    bi.map (fun c => (c.bodyId, sumLambda c.points.length c.nrLambda))

/-- Force parameters of the contacts that come before the first one carrying
`bodyId` in the lookup order. -/
def lambdaBefore (bodyId : Int) (l : List (Int × Nat)) : Nat :=
  ((l.takeWhile (fun p => decide (p.1 ≠ bodyId))).map Prod.snd).sum

/-- The feasibility tolerances 1e-8, 1e-7, 1e-6, 1e-5, 1e-4 of the ladder. -/
def toleranceLadder : List ℚ :=
  [1 / 100000000, 1 / 10000000, 1 / 1000000, 1 / 100000, 1 / 10000]

/-- Calls made when the tolerances of the list are tried in order until the back-end
answers true: the tolerances up to and including the first success. -/
def callsUntilSuccess (ok : ℚ → Bool) : List ℚ → List ℚ
  | [] => []
  | t :: ts => if ok t then [t] else t :: callsUntilSuccess ok ts

/-- Lower value at cell `j` given by the last-registered bound constraint whose range
`[beginVar, beginVar + len)` contains `j`, minus infinity when none does. -/
def lastLower (bounds : List Bound) (j : Nat) : BoundVal :=
  match bounds.reverse.find? (fun b => decide (b.beginVar ≤ j ∧ j < b.beginVar + b.Lower.length)) with
  | some b => b.Lower.getD (j - b.beginVar) BoundVal.negInf
  | none => BoundVal.negInf

/-- Upper value at cell `j` given by the last-registered bound constraint whose range
contains `j`, plus infinity when none does. -/
def lastUpper (bounds : List Bound) (j : Nat) : BoundVal :=
  match bounds.reverse.find? (fun b => decide (b.beginVar ≤ j ∧ j < b.beginVar + b.Upper.length)) with
  | some b => b.Upper.getD (j - b.beginVar) BoundVal.posInf
  | none => BoundVal.posInf

/-- Contribution of task `t` to the cell `(i, j)` of Q: its weighted coefficient when
the block placed at `begin()` covers the cell, 0 otherwise. -/
def taskQTerm (i j : Nat) (t : Task) : ℚ :=
  if t.begin.1 ≤ i ∧ i < t.begin.1 + t.Q.rows ∧ t.begin.2 ≤ j ∧ j < t.begin.2 + t.Q.cols then
    t.weight * t.Q.coeff (i - t.begin.1) (j - t.begin.2)
  else 0

/-- Sum over the tasks of their contributions to the cell `(i, j)` of Q. -/
def taskQSum (ts : List Task) (i j : Nat) : ℚ := (ts.map (taskQTerm i j)).sum

/-- Contribution of task `t` to the cell `i` of c: its weighted coefficient when the
row range of the block covers the cell, 0 otherwise. -/
def taskCTerm (i : Nat) (t : Task) : ℚ :=
  if t.begin.1 ≤ i ∧ i < t.begin.1 + t.Q.rows then t.weight * t.C.getD (i - t.begin.1) 0
  else 0

/-- Sum over the tasks of their contributions to the cell `i` of c. -/
def taskCSum (ts : List Task) (i : Nat) : ℚ := (ts.map (taskCTerm i)).sum

/-- Running value of the cell `(i, j)` of Q across task `t`: when the block placed at
`begin()` covers the cell, the weighted coefficient (product `times`) is added (addition
`plus`) to the value `acc` accumulated so far; otherwise the value is unchanged. -/
def taskQAcc (plus times : ℚ → ℚ → ℚ) (i j : Nat) (acc : ℚ) (t : Task) : ℚ :=
  if t.begin.1 ≤ i ∧ i < t.begin.1 + t.Q.rows ∧ t.begin.2 ≤ j ∧ j < t.begin.2 + t.Q.cols then
    plus acc (times t.weight (t.Q.coeff (i - t.begin.1) (j - t.begin.2)))
  else acc

/-- Sum for the cell `(i, j)` of Q accumulated from 0 in registration order over the
tasks whose block covers the cell, with the addition `plus` and the product `times`. -/
def orderedQSum (plus times : ℚ → ℚ → ℚ) (ts : List Task) (i j : Nat) : ℚ :=
  ts.foldl (taskQAcc plus times i j) 0

/-- Running value of the cell `i` of c across task `t`: when the row range of the block
covers the cell, the weighted coefficient is added to the value accumulated so far. -/
def taskCAcc (plus times : ℚ → ℚ → ℚ) (i : Nat) (acc : ℚ) (t : Task) : ℚ :=
  if t.begin.1 ≤ i ∧ i < t.begin.1 + t.Q.rows then
    plus acc (times t.weight (t.C.getD (i - t.begin.1) 0))
  else acc

/-- Sum for the cell `i` of c accumulated from 0 in registration order over the tasks
whose row range covers the cell, with the addition `plus` and the product `times`. -/
def orderedCSum (plus times : ℚ → ℚ → ℚ) (ts : List Task) (i : Nat) : ℚ :=
  ts.foldl (taskCAcc plus times i) 0

/-- Running row offset of the constraint at position `k`: the sum of the row counts
reported by the constraints registered before it. -/
def rowOffset (ns : List Nat) (k : Nat) : Nat := (ns.take k).sum

/-- Order on bound entries: minus infinity below and plus infinity above every value. -/
def BoundVal.le : BoundVal → BoundVal → Prop
  | BoundVal.negInf, _ => True
  | _, BoundVal.posInf => True
  | BoundVal.val a, BoundVal.val b => a ≤ b
  | _, _ => False

/-- Cost of the assembled problem at the point `x`: one half of x^T Q x, plus c^T x,
over the nrVars variables. -/
def qpObjective (s : QPSolver) (x : Vec) : ℚ :=
  1 / 2 * (∑ i ∈ Finset.range s.data.nrVars, ∑ j ∈ Finset.range s.data.nrVars,
      x.getD i 0 * s.Q.coeff i j * x.getD j 0)
    + ∑ i ∈ Finset.range s.data.nrVars, s.C.getD i 0 * x.getD i 0

/-- Feasible set of the assembled problem as handed to the back-end: vectors of nrVars
entries meeting the first nrEq rows of A1 x = b1, the first nrInEq rows of A2 x <= b2
and the bounds xl <= x <= xu. -/
def qpFeasible (s : QPSolver) (x : Vec) : Prop :=
  x.length = s.data.nrVars ∧
  (∀ r, r < s.nrEq →
    (∑ j ∈ Finset.range s.data.nrVars, s.A1.coeff r j * x.getD j 0) = s.B1.getD r 0) ∧
  (∀ r, r < s.nrInEq →
    (∑ j ∈ Finset.range s.data.nrVars, s.A2.coeff r j * x.getD j 0) ≤ s.B2.getD r 0) ∧
  (∀ j, j < s.data.nrVars →
    BoundVal.le (s.XL.getD j BoundVal.negInf) (BoundVal.val (x.getD j 0)) ∧
    BoundVal.le (BoundVal.val (x.getD j 0)) (s.XU.getD j BoundVal.posInf))

/-- Minimizers of the assembled problem: feasible points of least cost. -/
def qpMinimizer (s : QPSolver) (x : Vec) : Prop :=
  qpFeasible s x ∧ ∀ y, qpFeasible s y → qpObjective s x ≤ qpObjective s y

/-- World position of the point `p`, given in the frame of a body, for the body pose
`X = (E, r)`: `r + E^T p`. -/
def worldPoint (X : PTransformd) (p : Vector3d) : Vector3d :=
  X.translation.add (X.rotation.transposeMulVec p)

/-! ## Concrete configurations used to exercise the theorems -/

/-- Kinematics oracle that leaves the configuration as it is. -/
def exKin : Kinematics :=
  { eulerIntegration := fun _ c _ => c, forwardKinematics := fun _ c => c,
    forwardVelocity := fun _ c => c }

/-- Two-DoF planar arm on a fixed base. -/
def exArm2 : MultiBody := ⟨⟨JointType.Fixed⟩, [⟨JointType.RevZ⟩, ⟨JointType.RevZ⟩]⟩

/-- Configuration of the two-DoF arm, everything at zero. -/
def exArm2Config : MultiBodyConfig :=
  { q := [[], [0], [0]], alpha := [[], [0], [0]], alphaD := [[], [0], [0]],
    jointTorque := [[], [0], [0]] }

/-- Unilateral contact on body 1: one point, cone with four generators. -/
def exUni1 : UnilateralContact := ⟨1, [(0, 0, 0)], fun _ => 4⟩

/-- Bilateral contact on body 2: two points, three parameters each. -/
def exBi2 : BilateralContact := ⟨2, [(0, 0, 0), (1, 0, 0)], fun _ => 3⟩

/-- Fresh solver after the structure change for the two-DoF arm without contact. -/
def exSolverArm2 : QPSolver := (QPSolver.new true).nrVars exArm2 [] [] [] []

/-- Fresh solver after the structure change for the two-DoF arm with the two
contacts above. -/
def exSolverContacts : QPSolver := (QPSolver.new true).nrVars exArm2 [exUni1] [exBi2] [] []

/-- Back-end that rejects the tolerances 1e-8 and 1e-7 and accepts from 1e-6 on. -/
def exQld : QPSolver → ℚ → Bool × Vec :=
  fun _ tol => (decide (1 / 1000000 ≤ tol), [])

/-- Arm with eight revolute joints on a fixed base: 8 DoF, 8 torques. -/
def exArm8 : MultiBody := ⟨⟨JointType.Fixed⟩, List.replicate 8 ⟨JointType.RevZ⟩⟩

/-- Configuration shape of the eight-joint arm. -/
def exArm8Config : MultiBodyConfig :=
  { q := [] :: List.replicate 8 [0], alpha := [] :: List.replicate 8 [0],
    alphaD := [] :: List.replicate 8 [0], jointTorque := [] :: List.replicate 8 [0] }

/-- Floating-base robot: free-flyer root and two revolute joints, 8 DoF, 2 torques. -/
def exFloat : MultiBody := ⟨⟨JointType.Free⟩, [⟨JointType.RevZ⟩, ⟨JointType.RevZ⟩]⟩

/-- Configuration shape of the floating-base robot. -/
def exFloatConfig : MultiBodyConfig :=
  { q := [[1, 0, 0, 0, 0, 0, 0], [0], [0]], alpha := [[0, 0, 0, 0, 0, 0], [0], [0]],
    alphaD := [[0, 0, 0, 0, 0, 0], [0], [0]], jointTorque := [[0, 0, 0, 0, 0, 0], [0], [0]] }

/-- Unilateral contact on body 1: one point with six force parameters. -/
def exUni6 : UnilateralContact := ⟨1, [(0, 0, 0)], fun _ => 6⟩

/-- Back-end that succeeds with the solution whose sixteen entries are all 1. -/
def exLssolOnes : QPSolver → Bool × Vec := fun _ => (true, List.replicate 16 1)

/-- Arm with five revolute joints on a fixed base: 5 DoF, 10 variables. -/
def exArm5 : MultiBody := ⟨⟨JointType.Fixed⟩, List.replicate 5 ⟨JointType.RevZ⟩⟩

/-- Scenario: a fresh solver is structured for the eight-joint arm (16 variables) and
updated once with success; it is then structured for the floating-base robot with
the six-parameter contact (again 16 variables). -/
def exRestructured : QPSolver :=
  ((QPSolver.update exKin exLssolOnes ((QPSolver.new true).nrVars exArm8 [] [] [] [])
      exArm8 exArm8Config 0).2.1).nrVars exFloat [exUni6] [] [] []

/-- Scenario continued: a successful update on the floating-base robot. -/
def exAfterUpdate : Bool × QPSolver × MultiBodyConfig :=
  QPSolver.update exKin exLssolOnes exRestructured exFloat exFloatConfig 0

/-- Equality constraint advertising three rows. -/
def exEq3 : Equality := { maxEq := 3, nrEq := 3, AEq := ⟨3, 4, fun _ _ => 1⟩, BEq := [0, 0, 0] }

/-- Fresh solver with the equality constraint registered, then structured for the
two-DoF arm. -/
def exSolverEq : QPSolver :=
  ((QPSolver.new true).addEqualityConstraint exEq3).nrVars exArm2 [] [] [] []

/-- Bound constraint on the cells 0, 1, 2. -/
def exBoundA : Bound :=
  { Lower := [BoundVal.val 0, BoundVal.val 0, BoundVal.val 0],
    Upper := [BoundVal.val 1, BoundVal.val 1, BoundVal.val 1], beginVar := 0 }

/-- Bound constraint on the cells 2, 3, overlapping the previous one on cell 2. -/
def exBoundB : Bound :=
  { Lower := [BoundVal.val 5, BoundVal.val 5],
    Upper := [BoundVal.val 6, BoundVal.val 6], beginVar := 2 }

/-- Two-DoF arm (4 variables) with the two overlapping bound constraints, registered
in the order A then B. -/
def exSolverBounds : QPSolver :=
  (exSolverArm2.addBoundConstraint exBoundA).addBoundConstraint exBoundB

/-- Task with the 2 x 2 block of ones at origin (0,0), weight 2. -/
def exTaskA : Task :=
  { Q := ⟨2, 2, fun _ _ => 1⟩, C := [1, 1], begin := (0, 0), weight := 2 }

/-- Task with the 2 x 2 block of threes at origin (1,1), weight 1; it overlaps the
previous block on the cell (1,1). -/
def exTaskB : Task :=
  { Q := ⟨2, 2, fun _ _ => 3⟩, C := [5, 5], begin := (1, 1), weight := 1 }

/-- Two-DoF arm (4 variables) with the two overlapping tasks, registered A then B. -/
def exSolverTasks : QPSolver := (exSolverArm2.addTask exTaskA).addTask exTaskB

/-- Task with the 1 x 1 block holding the double 0.1 at origin (0,0), weight 1. -/
def exTaskTenth : Task :=
  { Q := ⟨1, 1, fun _ _ => roundDouble (1 / 10)⟩, C := [roundDouble (1 / 10)],
    begin := (0, 0), weight := 1 }

/-- Task with the 1 x 1 block holding the double 0.2 at origin (0,0), weight 1. -/
def exTaskFifth : Task :=
  { Q := ⟨1, 1, fun _ _ => roundDouble (1 / 5)⟩, C := [roundDouble (1 / 5)],
    begin := (0, 0), weight := 1 }

/-- Task with the 1 x 1 block holding the double 0.3 at origin (0,0), weight 1. -/
def exTaskThreeTenths : Task :=
  { Q := ⟨1, 1, fun _ _ => roundDouble (3 / 10)⟩, C := [roundDouble (3 / 10)],
    begin := (0, 0), weight := 1 }

/-- Two-DoF arm (4 variables) with the three tasks registered 0.1, 0.2, 0.3. -/
def exSolverAscending : QPSolver :=
  ((exSolverArm2.addTask exTaskTenth).addTask exTaskFifth).addTask exTaskThreeTenths

/-- Two-DoF arm (4 variables) with the same three tasks registered 0.3, 0.2, 0.1. -/
def exSolverDescending : QPSolver :=
  ((exSolverArm2.addTask exTaskThreeTenths).addTask exTaskFifth).addTask exTaskTenth

/-- Equality constraint advertising three rows and reporting two. -/
def exEqA : Equality :=
  { maxEq := 3, nrEq := 2, AEq := ⟨3, 4, fun _ _ => 1⟩, BEq := [1, 2, 3] }

/-- Equality constraint advertising two rows and reporting one. -/
def exEqB : Equality :=
  { maxEq := 2, nrEq := 1, AEq := ⟨2, 4, fun _ _ => 7⟩, BEq := [9, 9] }

/-- Two-DoF arm with the two equality constraints registered A then B and the
constraint storage sized (five rows). -/
def exSolverStack : QPSolver :=
  (((((QPSolver.new true).addEqualityConstraint exEqA).addEqualityConstraint exEqB).nrVars
    exArm2 [] [] [] []).updateEqConstrSize).updateInEqConstrSize

/-- Robot-to-manipulated-body contact on body 1 that has no contact point. -/
def exUniNoPoint : UnilateralContact := ⟨1, [], fun _ => 6⟩

/-- Manipulated body: a single free-flyer joint. -/
def exManipBody : MultiBody := ⟨⟨JointType.Free⟩, []⟩

/-- Configuration shape of the manipulated body. -/
def exManipConfig : MultiBodyConfig :=
  { q := [[1, 0, 0, 0, 0, 0, 0]], alpha := [[0, 0, 0, 0, 0, 0]],
    alphaD := [[0, 0, 0, 0, 0, 0]], jointTorque := [[0, 0, 0, 0, 0, 0]] }

/-- Floating-base robot structured with the point-less robot-to-manipulated-body
contact: 8 + 0 + 2 = 10 variables. -/
def exSolverNoPoint : QPSolver :=
  ((QPSolver.new true).manipBody exManipBody exManipConfig).nrVars exFloat [] []
    [exUniNoPoint] []

/-- Back-end that succeeds with the solution 10, 11, .., 19. -/
def exLssolRamp : QPSolver → Bool × Vec :=
  fun _ => (true, [10, 11, 12, 13, 14, 15, 16, 17, 18, 19])

/-- Successful update on the structure above. -/
def exNoPointUpdate : Bool × QPSolver × MultiBodyConfig :=
  QPSolver.update exKin exLssolRamp exSolverNoPoint exFloat exFloatConfig 0

/-- Robot whose root joint is revolute, followed by one revolute joint. -/
def exRevRoot : MultiBody := ⟨⟨JointType.RevZ⟩, [⟨JointType.RevZ⟩]⟩

/-- Fixed base followed by one revolute joint. -/
def exArm1 : MultiBody := ⟨⟨JointType.Fixed⟩, [⟨JointType.RevZ⟩]⟩

/-- Configuration of the one-joint arm with the joint at 0. -/
def exArm1Config : MultiBodyConfig :=
  { q := [[], [0]], alpha := [[], [0]], alphaD := [[], [0]], jointTorque := [[], [0]] }

/-- Posture task on the one-joint arm with desired coordinate 1. -/
def exPosture : PostureTask := PostureTask.new exArm1 [[], [1]]

/-- Orientation tracking task on the two-DoF arm: the path to body 2 is made of the
joints 0, 1, 2 and only the joint with id 2 is tracked. -/
def exTracking : OrientationTrackingTask :=
  OrientationTrackingTask.new exArm2 Int.toNat Int.toNat [0, 1, 2] 2 [2]

/-- Compact Jacobian given by the kinematics library: six rows, two columns, all 5. -/
def exJacobian : Matrix := ⟨6, 2, fun _ _ => 5⟩

/-- Body pose at the origin of the world with no rotation. -/
def exPose : PTransformd := ⟨Matrix3d.identity, ⟨0, 0, 0⟩⟩

/-- Position task on body 2 of the two-DoF arm, target at the origin, built with the
local point (0,0,0); the local point is then set to (1,0,0). -/
def exPosition : PositionTask :=
  (PositionTask.new exArm2 Int.toNat [0, 1, 2] 2 ⟨0, 0, 0⟩ ⟨0, 0, 0⟩).bodyPoint ⟨1, 0, 0⟩

/-- The task above after the next update, every body at the pose `exPose`. -/
def exPositionUpdated : PositionTask :=
  exPosition.update exArm2 [exPose, exPose, exPose] (fun _ => ⟨6, 2, fun _ _ => 0⟩)

end tasks

namespace tasks

/-! ## Counting loops -/

theorem foldl_add_nat (f : Nat → Nat) (l : List Nat) (acc : Nat) :
    l.foldl (fun a i => a + f i) acc = acc + (l.map f).sum := by
  induction l generalizing acc with
  | nil => simp
  | cons x xs ih => simp [List.foldl_cons, ih, Nat.add_assoc]

theorem foldl_add_int (f : Nat → Nat) (l : List Nat) (acc : Int) :
    l.foldl (fun a i => a + (f i : Int)) acc = acc + ((l.map f).sum : Nat) := by
  induction l generalizing acc with
  | nil => simp
  | cons x xs ih => simp [List.foldl_cons, ih, Int.add_assoc]

theorem countLambda_eq (n : Nat) (f : Nat → Nat) (acc : Nat) :
    QPSolver.countLambda n f acc = acc + sumLambda n f := by
  unfold QPSolver.countLambda sumLambda
  exact foldl_add_nat f _ acc

theorem foldl_uni_count (l : List UnilateralContact) (acc : Nat) :
    l.foldl (fun a c => QPSolver.countLambda c.points.length c.nrLambda a) acc
      = acc + uniTotal l := by
  induction l generalizing acc with
  | nil => simp [uniTotal]
  | cons c cs ih =>
    rw [List.foldl_cons, ih, countLambda_eq]
    simp [uniTotal, Nat.add_assoc]

theorem foldl_bi_count (l : List BilateralContact) (acc : Nat) :
    l.foldl (fun a c => QPSolver.countLambda c.points.length c.nrLambda a) acc
      = acc + biTotal l := by
  induction l generalizing acc with
  | nil => simp [biTotal]
  | cons c cs ih =>
    rw [List.foldl_cons, ih, countLambda_eq]
    simp [biTotal, Nat.add_assoc]

theorem root_dof_le_nrDof (mb : MultiBody) : mb.joint0.dof ≤ mb.nrDof := by
  unfold MultiBody.joint0 MultiBody.nrDof
  exact Nat.le_add_right _ _

/-- The registry written by the problem-structure change. -/
theorem nrVars_data (s : QPSolver) (mb : MultiBody) (uni : List UnilateralContact)
    (bi : List BilateralContact) (r2m m2r : List UnilateralContact) :
    (s.nrVars mb uni bi r2m m2r).data =
      { s.data with
          alphaD := if uniTotal r2m ≠ 0 then mb.nrDof + 6 else mb.nrDof,
          lambda := uniTotal uni + biTotal bi + uniTotal r2m,
          lambdaUni := uniTotal uni, lambdaBi := biTotal bi, lambdaManip := uniTotal r2m,
          torque := mb.nrDof - mb.joint0.dof,
          nrVars := (if uniTotal r2m ≠ 0 then mb.nrDof + 6 else mb.nrDof)
                      + (uniTotal uni + biTotal bi + uniTotal r2m)
                      + (mb.nrDof - mb.joint0.dof),
          uniCont := uni, biCont := bi,
          robotToManipBodyContacts := r2m, manipBodyToRobotContacts := m2r } := by
  unfold QPSolver.nrVars
  simp only [foldl_uni_count, foldl_bi_count, Nat.zero_add, QPSolver.updateSolverSize]
  split_ifs <;> rfl

/-- C1. After the problem-structure change the registry holds the three contact
lists, the three lambda counts are the sums of nrLambda(i) over all points of all
contacts of the respective list, lambda is their sum, alphaD is nDoF + 6 when
lambdaManip is positive and nDoF otherwise, torque is nDoF minus the root joint
DoF (an exact difference), and nrVars = alphaD + lambda + torque. -/
theorem nrVars_registry (s : QPSolver) (mb : MultiBody) (uni : List UnilateralContact)
    (bi : List BilateralContact) (r2m m2r : List UnilateralContact) :
    let d := (s.nrVars mb uni bi r2m m2r).data
    d.lambdaUni = uniTotal uni ∧ d.lambdaBi = biTotal bi ∧ d.lambdaManip = uniTotal r2m ∧
    d.lambda = d.lambdaUni + d.lambdaBi + d.lambdaManip ∧
    d.alphaD = (if 0 < d.lambdaManip then mb.nrDof + 6 else mb.nrDof) ∧
    d.torque = mb.nrDof - mb.joint0.dof ∧ d.torque + mb.joint0.dof = mb.nrDof ∧
    d.nrVars = d.alphaD + d.lambda + d.torque ∧
    (s.nrVars mb uni bi r2m m2r).nrVarsGet = d.nrVars := by
  intro d
  have hd : d = _ := nrVars_data s mb uni bi r2m m2r
  have hr := root_dof_le_nrDof mb
  rw [hd]
  refine ⟨rfl, rfl, rfl, rfl, ?_, rfl, ?_, rfl, ?_⟩
  · simp only [Nat.pos_iff_ne_zero]
  · simp only; omega
  · simp only [QPSolver.nrVarsGet]; rw [nrVars_data]

/-! ## Accessors of the cached result -/

theorem list_three_parts (l : List ℚ) (a b c : Nat) (h : l.length = a + b + c) :
    l = l.take a ++ (l.drop a).take b ++ l.drop (l.length - c) := by
  have h1 : l.length - c = a + b := by omega
  have h2 : l.drop (a + b) = (l.drop a).drop b := by
    rw [List.drop_drop, Nat.add_comm]
  rw [h1, h2, List.append_assoc, List.take_append_drop, List.take_append_drop]

/-- C2. Partition law: in any solver state whose registry sizes are those written
by a problem-structure change and whose cached result has length nrVars, result()
is alphaDVec() ++ lambdaVec() ++ torqueVec(), and the three vectors have lengths
alphaD, lambda and torque. -/
theorem partition_law (s0 : QPSolver) (mb : MultiBody) (uni : List UnilateralContact)
    (bi : List BilateralContact) (r2m m2r : List UnilateralContact) (s : QPSolver)
    (hsz : s.data.sizes = (s0.nrVars mb uni bi r2m m2r).data.sizes)
    (hres : s.res.length = s.data.nrVars) :
    s.result = s.alphaDVec ++ s.lambdaVec ++ s.torqueVec ∧
    s.alphaDVec.length = s.data.alphaD ∧
    s.lambdaVec.length = s.data.lambda ∧
    s.torqueVec.length = s.data.torque := by
  have hn : s.data.nrVars = s.data.alphaD + s.data.lambda + s.data.torque := by
    rw [nrVars_data] at hsz
    simp only [QPSolverData.sizes, Prod.mk.injEq] at hsz
    obtain ⟨h1, h2, h3, h4⟩ := hsz
    rw [h1, h2, h3, h4]
  have hl : s.res.length = s.data.alphaD + s.data.lambda + s.data.torque := by
    rw [hres, hn]
  refine ⟨?_, ?_, ?_, ?_⟩
  · exact list_three_parts s.res _ _ _ hl
  · simp only [QPSolver.alphaDVec, Vec.head, List.length_take]; omega
  · simp only [QPSolver.lambdaVec, Vec.segment, List.length_take, List.length_drop]; omega
  · simp only [QPSolver.torqueVec, Vec.tail, List.length_drop]; omega

/-- Witness for C2: the two-DoF arm right after the structure change. -/
theorem partition_law_witness :
    exSolverArm2.res.length = exSolverArm2.data.nrVars ∧
    exSolverArm2.result = exSolverArm2.alphaDVec ++ exSolverArm2.lambdaVec
      ++ exSolverArm2.torqueVec ∧
    exSolverArm2.alphaDVec.length = 2 ∧ exSolverArm2.lambdaVec.length = 0 ∧
    exSolverArm2.torqueVec.length = 2 :=
  ⟨by decide,
   partition_law (QPSolver.new true) exArm2 [] [] [] [] exSolverArm2 rfl (by decide)⟩

/-! ## Contact lookup -/

theorem uniLoop_spec (b : Int) (l : List UnilateralContact) (pos : Int) :
    QPSolver.uniLoop b l pos =
      if (∃ c ∈ l, c.bodyId = b) then
        Sum.inl (pos + (lambdaBefore b
          (l.map (fun c => (c.bodyId, sumLambda c.points.length c.nrLambda))) : Nat))
      else Sum.inr (pos + (uniTotal l : Nat)) := by
  induction l generalizing pos with
  | nil => simp [QPSolver.uniLoop, uniTotal]
  | cons c cs ih =>
    by_cases hc : c.bodyId = b
    · simp [QPSolver.uniLoop, hc, lambdaBefore]
    · rw [QPSolver.uniLoop, if_neg hc, ih, foldl_add_int]
      have hex : (∃ x ∈ c :: cs, x.bodyId = b) ↔ (∃ x ∈ cs, x.bodyId = b) := by
        simp [hc]
      by_cases hcs : ∃ x ∈ cs, x.bodyId = b
      · rw [if_pos hcs, if_pos (hex.mpr hcs)]
        simp [lambdaBefore, List.takeWhile_cons, hc, sumLambda, Int.add_assoc]
      · rw [if_neg hcs, if_neg (fun h => hcs (hex.mp h))]
        simp [uniTotal, sumLambda, Int.add_assoc]

theorem biLoop_spec (b : Int) (l : List BilateralContact) (pos : Int) :
    QPSolver.biLoop b l pos =
      if (∃ c ∈ l, c.bodyId = b) then
        Sum.inl (pos + (lambdaBefore b
          (l.map (fun c => (c.bodyId, sumLambda c.points.length c.nrLambda))) : Nat))
      else Sum.inr (pos + (biTotal l : Nat)) := by
  induction l generalizing pos with
  | nil => simp [QPSolver.biLoop, biTotal]
  | cons c cs ih =>
    by_cases hc : c.bodyId = b
    · simp [QPSolver.biLoop, hc, lambdaBefore]
    · rw [QPSolver.biLoop, if_neg hc, ih, foldl_add_int]
      have hex : (∃ x ∈ c :: cs, x.bodyId = b) ↔ (∃ x ∈ cs, x.bodyId = b) := by
        simp [hc]
      by_cases hcs : ∃ x ∈ cs, x.bodyId = b
      · rw [if_pos hcs, if_pos (hex.mpr hcs)]
        simp [lambdaBefore, List.takeWhile_cons, hc, sumLambda, Int.add_assoc]
      · rw [if_neg hcs, if_neg (fun h => hcs (hex.mp h))]
        simp [biTotal, sumLambda, Int.add_assoc]

/-- Closed form of the lookup: the three exits of the function. -/
theorem contactLambdaPosition_eq (s : QPSolver) (b : Int) :
    s.contactLambdaPosition b =
      if (∃ c ∈ s.data.uniCont, c.bodyId = b) then
        ((lambdaBefore b (s.data.uniCont.map
          (fun c => (c.bodyId, sumLambda c.points.length c.nrLambda))) : Nat) : Int)
      else if (∃ c ∈ s.data.biCont, c.bodyId = b) then
        ((uniTotal s.data.uniCont + lambdaBefore b (s.data.biCont.map
          (fun c => (c.bodyId, sumLambda c.points.length c.nrLambda))) : Nat) : Int)
      else -1 := by
  unfold QPSolver.contactLambdaPosition
  rw [uniLoop_spec]
  by_cases hu : ∃ c ∈ s.data.uniCont, c.bodyId = b
  · simp only [if_pos hu, Int.zero_add]
  · simp only [if_neg hu, Int.zero_add]
    rw [biLoop_spec]
    by_cases hb : ∃ c ∈ s.data.biCont, c.bodyId = b
    · simp only [if_pos hb]; push_cast; rfl
    · simp only [if_neg hb]

/-- C3. The lookup returns -1 exactly when no unilateral and no bilateral contact
carries the body id, and its value is never a negative number other than -1: it is
-1 or non-negative. -/
theorem contactLambdaPosition_miss (s : QPSolver) (b : Int) :
    (s.contactLambdaPosition b = -1 ↔
      ((∀ c ∈ s.data.uniCont, c.bodyId ≠ b) ∧ (∀ c ∈ s.data.biCont, c.bodyId ≠ b))) ∧
    (s.contactLambdaPosition b = -1 ∨ 0 ≤ s.contactLambdaPosition b) := by
  rw [contactLambdaPosition_eq]
  by_cases hu : ∃ c ∈ s.data.uniCont, c.bodyId = b
  · rw [if_pos hu]
    refine ⟨⟨fun h => ?_, fun h => ?_⟩, Or.inr (Int.ofNat_nonneg _)⟩
    · have := Int.ofNat_nonneg (lambdaBefore b (s.data.uniCont.map
        (fun c => (c.bodyId, sumLambda c.points.length c.nrLambda))))
      omega
    · obtain ⟨c, hc, hcb⟩ := hu
      exact absurd hcb (h.1 c hc)
  · rw [if_neg hu]
    by_cases hb : ∃ c ∈ s.data.biCont, c.bodyId = b
    · rw [if_pos hb]
      refine ⟨⟨fun h => ?_, fun h => ?_⟩, Or.inr (Int.ofNat_nonneg _)⟩
      · have := Int.ofNat_nonneg (uniTotal s.data.uniCont + lambdaBefore b (s.data.biCont.map
          (fun c => (c.bodyId, sumLambda c.points.length c.nrLambda))))
        omega
      · obtain ⟨c, hc, hcb⟩ := hb
        exact absurd hcb (h.2 c hc)
    · rw [if_neg hb]
      refine ⟨⟨fun _ => ⟨fun c hc hcb => hu ⟨c, hc, hcb⟩, fun c hc hcb => hb ⟨c, hc, hcb⟩⟩,
        fun _ => rfl⟩, Or.inl rfl⟩

theorem lambdaBefore_append_found (b : Int) (l1 l2 : List (Int × Nat))
    (h : ∃ p ∈ l1, p.1 = b) : lambdaBefore b (l1 ++ l2) = lambdaBefore b l1 := by
  induction l1 with
  | nil => simp at h
  | cons p ps ih =>
    by_cases hp : p.1 = b
    · simp [lambdaBefore, List.takeWhile_cons, hp]
    · have h2 : ∃ q ∈ ps, q.1 = b := by
        obtain ⟨q, hq, hqb⟩ := h
        rcases List.mem_cons.mp hq with rfl | hq
        · exact absurd hqb hp
        · exact ⟨q, hq, hqb⟩
      have := ih h2
      simp only [lambdaBefore] at this ⊢
      simp only [List.cons_append, List.takeWhile_cons, hp, ne_eq, not_false_eq_true,
        decide_True, if_true, List.map_cons, List.sum_cons, this]

theorem lambdaBefore_append_missing (b : Int) (l1 l2 : List (Int × Nat))
    (h : ∀ p ∈ l1, p.1 ≠ b) :
    lambdaBefore b (l1 ++ l2) = (l1.map Prod.snd).sum + lambdaBefore b l2 := by
  induction l1 with
  | nil => simp
  | cons p ps ih =>
    have hp : p.1 ≠ b := h p (List.mem_cons_self _ _)
    have := ih (fun q hq => h q (List.mem_cons_of_mem _ hq))
    simp only [lambdaBefore] at this ⊢
    simp only [List.cons_append, List.takeWhile_cons, hp, ne_eq, not_false_eq_true,
      decide_True, if_true, List.map_cons, List.sum_cons, this, Nat.add_assoc]

/-- C4. For a body id carried by some unilateral or bilateral contact, the lookup
returns the number of force parameters of all contacts that come before the first
contact with that id in the order unilateral list then bilateral list; when no
unilateral contact matches, this is the whole unilateral count plus the parameters
of the bilateral contacts before the match (and that unilateral count is lambdaUni
after a problem-structure change); when the first contact of the order carries the
id, the result is 0. -/
theorem contactLambdaPosition_offset (s : QPSolver) (b : Int)
    (h : (∃ c ∈ s.data.uniCont, c.bodyId = b) ∨ (∃ c ∈ s.data.biCont, c.bodyId = b)) :
    s.contactLambdaPosition b
      = (lambdaBefore b (contactOrder s.data.uniCont s.data.biCont) : Nat) ∧
    ((∀ c ∈ s.data.uniCont, c.bodyId ≠ b) →
      s.contactLambdaPosition b
        = ((uniTotal s.data.uniCont + lambdaBefore b (s.data.biCont.map
            (fun c => (c.bodyId, sumLambda c.points.length c.nrLambda))) : Nat) : Int)) ∧
    (∀ (mb : MultiBody) (r2m m2r : List UnilateralContact),
      (s.nrVars mb s.data.uniCont s.data.biCont r2m m2r).data.lambdaUni
        = uniTotal s.data.uniCont) ∧
    ((∃ p, (contactOrder s.data.uniCont s.data.biCont).head? = some p ∧ p.1 = b) →
      s.contactLambdaPosition b = 0) := by
  have main : s.contactLambdaPosition b
      = (lambdaBefore b (contactOrder s.data.uniCont s.data.biCont) : Nat) := by
    rw [contactLambdaPosition_eq]
    by_cases hu : ∃ c ∈ s.data.uniCont, c.bodyId = b
    · rw [if_pos hu, contactOrder, lambdaBefore_append_found]
      obtain ⟨c, hc, hcb⟩ := hu
      exact ⟨_, List.mem_map.mpr ⟨c, hc, rfl⟩, hcb⟩
    · have hb : ∃ c ∈ s.data.biCont, c.bodyId = b := h.resolve_left hu
      rw [if_neg hu, if_pos hb, contactOrder, lambdaBefore_append_missing]
      · simp [uniTotal, List.map_map, Function.comp_def]
      · intro p hp hpb
        obtain ⟨c, hc, rfl⟩ := List.mem_map.mp hp
        exact hu ⟨c, hc, hpb⟩
  refine ⟨main, ?_, ?_, ?_⟩
  · intro hu
    have hu2 : ¬ ∃ c ∈ s.data.uniCont, c.bodyId = b := fun ⟨c, hc, hcb⟩ => hu c hc hcb
    have hb : ∃ c ∈ s.data.biCont, c.bodyId = b := h.resolve_left hu2
    rw [contactLambdaPosition_eq, if_neg hu2, if_pos hb]
  · intro mb r2m m2r
    rw [nrVars_data]
  · rintro ⟨p, hp, hpb⟩
    rw [main]
    cases hl : contactOrder s.data.uniCont s.data.biCont with
    | nil => rw [hl] at hp; simp at hp
    | cons q qs =>
      rw [hl] at hp
      simp only [List.head?_cons, Option.some.injEq] at hp
      subst hp
      simp [lambdaBefore, List.takeWhile_cons, hpb]

/-- Witness for C4: body 2 is carried by the bilateral contact, which comes after
the unilateral contact with its four parameters. -/
theorem contactLambdaPosition_offset_witness :
    ((∃ c ∈ exSolverContacts.data.uniCont, c.bodyId = 2) ∨
      (∃ c ∈ exSolverContacts.data.biCont, c.bodyId = 2)) ∧
    exSolverContacts.contactLambdaPosition 2
      = (lambdaBefore 2 (contactOrder exSolverContacts.data.uniCont
          exSolverContacts.data.biCont) : Nat) :=
  ⟨Or.inr ⟨exBi2, List.mem_singleton.mpr rfl, rfl⟩,
   (contactLambdaPosition_offset exSolverContacts 2
      (Or.inr ⟨exBi2, List.mem_singleton.mpr rfl, rfl⟩)).1⟩

/-! ## Frame properties of the assembly -/

theorem foldl_keep {σ α β : Type} (f : σ → α → σ) (p : σ → β)
    (h : ∀ s a, p (f s a) = p s) (l : List α) (s : σ) : p (l.foldl f s) = p s := by
  induction l generalizing s with
  | nil => rfl
  | cons a as ih => rw [List.foldl_cons, ih, h]

theorem preUpdateFill_frame {β : Type} (p : QPSolver → β)
    (h0 : ∀ (s : QPSolver) nrEq A1 B1 nrInEq A2 B2 XL XU Q C,
      p { s with nrEq := nrEq, A1 := A1, B1 := B1, nrInEq := nrInEq, A2 := A2, B2 := B2,
                 XL := XL, XU := XU, Q := Q, C := C } = p s)
    (s : QPSolver) : p (QPSolver.preUpdateFill s) = p s := by
  unfold QPSolver.preUpdateFill
  simp only
  rw [foldl_keep QPSolver.taskStep p (fun s t => h0 s _ _ _ _ _ _ _ _ _ _),
      foldl_keep QPSolver.boundStep p (fun s t => h0 s _ _ _ _ _ _ _ _ _ _),
      foldl_keep QPSolver.inEqStep p (fun s t => h0 s _ _ _ _ _ _ _ _ _ _)]
  rw [h0 _ _ _ _ 0 _ _ _ _ _ _,
      foldl_keep QPSolver.eqStep p (fun s t => h0 s _ _ _ _ _ _ _ _ _ _)]
  exact h0 s 0 _ _ _ _ _ _ _ _ _

theorem preUpdate_frame {β : Type} (p : QPSolver → β)
    (h0 : ∀ (s : QPSolver) nrEq A1 B1 nrInEq A2 B2 XL XU Q C,
      p { s with nrEq := nrEq, A1 := A1, B1 := B1, nrInEq := nrInEq, A2 := A2, B2 := B2,
                 XL := XL, XU := XU, Q := Q, C := C } = p s)
    (s : QPSolver) : p (QPSolver.preUpdate s) = p s := by
  unfold QPSolver.preUpdate QPSolver.regularize
  rw [← preUpdateFill_frame p h0 s]
  exact h0 (QPSolver.preUpdateFill s) _ _ _ _ _ _ _ _ _ _

theorem preUpdate_res (s : QPSolver) : (QPSolver.preUpdate s).res = s.res :=
  preUpdate_frame (fun s => s.res) (fun _ _ _ _ _ _ _ _ _ _ _ => rfl) s

theorem preUpdate_torqueRes (s : QPSolver) : (QPSolver.preUpdate s).torqueRes = s.torqueRes :=
  preUpdate_frame (fun s => s.torqueRes) (fun _ _ _ _ _ _ _ _ _ _ _ => rfl) s

theorem preUpdate_data (s : QPSolver) : (QPSolver.preUpdate s).data = s.data :=
  preUpdate_frame (fun s => s.data) (fun _ _ _ _ _ _ _ _ _ _ _ => rfl) s

/-- An update keeps the sizes of the registry, and a successful one caches the
back-end result. -/
theorem update_sizes (kin : Kinematics) (lssol : QPSolver → Bool × Vec)
    (s : QPSolver) (mb : MultiBody) (mbc : MultiBodyConfig) (step : ℚ) :
    (QPSolver.update kin lssol s mb mbc step).2.1.data.sizes = s.data.sizes ∧
    ((QPSolver.update kin lssol s mb mbc step).1 = true →
      (QPSolver.update kin lssol s mb mbc step).2.1.result = (lssol (QPSolver.preUpdate s)).2) := by
  simp only [QPSolver.update, QPSolver.updateLSSOL, QPSolver.postUpdate, QPSolver.result]
  constructor
  · split_ifs <;> simp only [QPSolverData.sizes, preUpdate_data]
  · intro h
    rw [if_pos h]
    split_ifs <;> rfl

/-- C5. Non-mutation on failure: when update returns false, the robot configuration
(so its jointTorque and alphaD lists), the internal torque buffer, the cached result
and the registry with the manipulated-body configuration are those from before the
call; and postUpdate called with success = false returns its state and configuration
unchanged. -/
theorem update_failure_no_mutation (kin : Kinematics) (lssol : QPSolver → Bool × Vec)
    (s : QPSolver) (mb : MultiBody) (mbc : MultiBodyConfig) (step : ℚ)
    (h : (QPSolver.update kin lssol s mb mbc step).1 = false) :
    (QPSolver.update kin lssol s mb mbc step).2.2.jointTorque = mbc.jointTorque ∧
    (QPSolver.update kin lssol s mb mbc step).2.2.alphaD = mbc.alphaD ∧
    (QPSolver.update kin lssol s mb mbc step).2.2 = mbc ∧
    (QPSolver.update kin lssol s mb mbc step).2.1.data.manipBodyConfig
      = s.data.manipBodyConfig ∧
    (QPSolver.update kin lssol s mb mbc step).2.1.data = s.data ∧
    (QPSolver.update kin lssol s mb mbc step).2.1.torqueRes = s.torqueRes ∧
    (QPSolver.update kin lssol s mb mbc step).2.1.result = s.result ∧
    (∀ (t : QPSolver) (r : Vec), QPSolver.postUpdate kin t mb mbc false r step = (t, mbc)) := by
  have hpost : ∀ (t : QPSolver) (r : Vec),
      QPSolver.postUpdate kin t mb mbc false r step = (t, mbc) := by
    intro t r
    simp [QPSolver.postUpdate]
  have hs : (QPSolver.update kin lssol s mb mbc step).2 = (QPSolver.preUpdate s, mbc) := by
    simp only [QPSolver.update, QPSolver.updateLSSOL] at h ⊢
    rw [h, hpost]
  rw [hs]
  exact ⟨rfl, rfl, rfl, congrArg QPSolverData.manipBodyConfig (preUpdate_data s),
    preUpdate_data s, preUpdate_torqueRes s, preUpdate_res s, hpost⟩

/-- Witness for C5: a back-end that always reports failure, on the two-DoF arm. -/
theorem update_failure_no_mutation_witness :
    (QPSolver.update exKin (fun _ => (false, [])) exSolverArm2 exArm2 exArm2Config 0).1 = false ∧
    (QPSolver.update exKin (fun _ => (false, [])) exSolverArm2 exArm2 exArm2Config 0).2.2
      = exArm2Config :=
  ⟨rfl, (update_failure_no_mutation exKin (fun _ => (false, [])) exSolverArm2 exArm2
      exArm2Config 0 rfl).2.2.1⟩

/-! ## Tolerance ladder of updateQLD -/

theorem qldLoop_done (solve : ℚ → Bool × Vec) (fuel : Nat) (iter : ℚ) (calls : List ℚ)
    (res : Vec) : QPSolver.qldLoop solve fuel true iter calls res = some (true, calls, res) := by
  unfold QPSolver.qldLoop
  simp

theorem qldLoop_cap (solve : ℚ → Bool × Vec) (fuel : Nat) (b : Bool) (iter : ℚ)
    (calls : List ℚ) (res : Vec) (h : ¬ iter < 1 / 1000) :
    QPSolver.qldLoop solve fuel b iter calls res = some (b, calls, res) := by
  unfold QPSolver.qldLoop
  rw [decide_eq_false h, Bool.and_false]
  rfl

theorem qldLoop_step (solve : ℚ → Bool × Vec) (fuel : Nat) (iter : ℚ) (calls : List ℚ)
    (res : Vec) (h : iter < 1 / 1000) :
    QPSolver.qldLoop solve (fuel + 1) false iter calls res =
      QPSolver.qldLoop solve fuel (solve iter).1 (iter * 10) (calls ++ [iter]) (solve iter).2 := by
  rw [QPSolver.qldLoop, decide_eq_true h]
  rfl

/-- The loop of updateQLD started at 1e-8 with at least five units of fuel ends by
its own condition, having called the back-end on the ladder up to the first
success. -/
theorem qldLoop_ladder (solve : ℚ → Bool × Vec) (fuel : Nat) (hf : 5 ≤ fuel) (res0 : Vec) :
    ∃ res, QPSolver.qldLoop solve fuel false (1 / 100000000) [] res0 =
      some (toleranceLadder.any (fun t => (solve t).1),
            callsUntilSuccess (fun t => (solve t).1) toleranceLadder, res) := by
  obtain ⟨n, rfl⟩ : ∃ n, fuel = n + 5 := ⟨fuel - 5, by omega⟩
  have e1 : (1 / 100000000 : ℚ) * 10 = 1 / 10000000 := by norm_num
  have e2 : (1 / 10000000 : ℚ) * 10 = 1 / 1000000 := by norm_num
  have e3 : (1 / 1000000 : ℚ) * 10 = 1 / 100000 := by norm_num
  have e4 : (1 / 100000 : ℚ) * 10 = 1 / 10000 := by norm_num
  have e5 : (1 / 10000 : ℚ) * 10 = 1 / 1000 := by norm_num
  rw [qldLoop_step solve _ _ _ _ (by norm_num), e1]
  simp only [toleranceLadder, callsUntilSuccess, List.any_cons, List.any_nil, List.nil_append]
  cases h1 : (solve (1 / 100000000)).1
  case true => exact ⟨_, by rw [qldLoop_done]; rfl⟩
  rw [qldLoop_step solve _ _ _ _ (by norm_num), e2]
  cases h2 : (solve (1 / 10000000)).1
  case true => exact ⟨_, by rw [qldLoop_done]; rfl⟩
  rw [qldLoop_step solve _ _ _ _ (by norm_num), e3]
  cases h3 : (solve (1 / 1000000)).1
  case true => exact ⟨_, by rw [qldLoop_done]; rfl⟩
  rw [qldLoop_step solve _ _ _ _ (by norm_num), e4]
  cases h4 : (solve (1 / 100000)).1
  case true => exact ⟨_, by rw [qldLoop_done]; rfl⟩
  rw [qldLoop_step solve _ _ _ _ (by norm_num), e5]
  cases h5 : (solve (1 / 10000)).1
  case true => exact ⟨_, by rw [qldLoop_done]; rfl⟩
  exact ⟨_, by rw [qldLoop_cap _ _ _ _ _ _ (by norm_num)]; rfl⟩

theorem callsUntilSuccess_spec (ok : ℚ → Bool) (l : List ℚ) :
    (∃ rest, callsUntilSuccess ok l ++ rest = l) ∧
    (∀ t ∈ (callsUntilSuccess ok l).dropLast, ok t = false) ∧
    (l.any ok = true ↔ ∃ t ∈ callsUntilSuccess ok l, ok t = true) ∧
    (l.any ok = true ↔ ∃ t, (callsUntilSuccess ok l).getLast? = some t ∧ ok t = true) := by
  induction l with
  | nil => simp [callsUntilSuccess]
  | cons t ts ih =>
    obtain ⟨⟨rest, hrest⟩, hfail, hany, hlast⟩ := ih
    cases ht : ok t
    · have hc : callsUntilSuccess ok (t :: ts) = t :: callsUntilSuccess ok ts := by
        simp [callsUntilSuccess, ht]
      rw [hc]
      refine ⟨⟨rest, by simp [hrest]⟩, ?_, ?_, ?_⟩
      · intro u hu
        cases hcs : callsUntilSuccess ok ts with
        | nil => rw [hcs] at hu; simp at hu
        | cons a as =>
          rw [hcs, List.dropLast_cons₂] at hu
          rcases List.mem_cons.mp hu with rfl | hu
          · exact ht
          · exact hfail u (by rw [hcs]; exact hu)
      · simp only [List.any_cons, ht, Bool.false_or, hany, List.mem_cons, exists_eq_or_imp]
        simp [ht]
      · simp only [List.any_cons, ht, Bool.false_or, hlast]
        cases hcs : callsUntilSuccess ok ts with
        | nil => simp [ht]
        | cons a as => simp [List.getLast?_cons_cons]
    · have hc : callsUntilSuccess ok (t :: ts) = [t] := by
        simp [callsUntilSuccess, ht]
      rw [hc]
      refine ⟨⟨ts, rfl⟩, by simp, by simp [ht], by simp [ht]⟩

/-- C9. Regularization ladder with exact rational tolerances: with fuel for five
calls updateQLD returns; the tolerances passed to the back-end are an initial part
of 1e-8, 1e-7, 1e-6, 1e-5, 1e-4 (each ten times the previous, all below 1e-3, at
most five calls); every call but the last failed; the returned flag is true exactly
when one of these calls succeeded, and then it is the last one; a back-end failing
at 1e-8 and 1e-7 and succeeding at 1e-6 gives true after exactly three calls. -/
theorem updateQLD_ladder (kin : Kinematics) (qld : QPSolver → ℚ → Bool × Vec)
    (qldRes : Vec) (fuel : Nat) (s : QPSolver) (mb : MultiBody) (mbc : MultiBodyConfig)
    (step : ℚ) (hf : 5 ≤ fuel) :
    ∃ (ok : Bool) (t : QPSolver) (c : MultiBodyConfig) (calls : List ℚ),
      QPSolver.updateQLD kin qld qldRes fuel s mb mbc step = some (ok, t, c, calls) ∧
      calls = callsUntilSuccess (fun tol => (qld (QPSolver.preUpdate s) tol).1) toleranceLadder ∧
      (∃ rest, calls ++ rest = toleranceLadder) ∧
      calls.length ≤ 5 ∧
      (∀ tol ∈ calls, tol < 1 / 1000) ∧
      (∀ tol ∈ calls.dropLast, (qld (QPSolver.preUpdate s) tol).1 = false) ∧
      (ok = true ↔ ∃ tol ∈ calls, (qld (QPSolver.preUpdate s) tol).1 = true) ∧
      (ok = true ↔ ∃ tol, calls.getLast? = some tol ∧ (qld (QPSolver.preUpdate s) tol).1 = true) ∧
      ((qld (QPSolver.preUpdate s) (1 / 100000000)).1 = false →
        (qld (QPSolver.preUpdate s) (1 / 10000000)).1 = false →
        (qld (QPSolver.preUpdate s) (1 / 1000000)).1 = true →
        ok = true ∧ calls = [1 / 100000000, 1 / 10000000, 1 / 1000000]) := by
  obtain ⟨res, hres⟩ := qldLoop_ladder (qld (QPSolver.preUpdate s)) fuel hf qldRes
  obtain ⟨hpre, hfail, hany, hlast⟩ :=
    callsUntilSuccess_spec (fun tol => (qld (QPSolver.preUpdate s) tol).1) toleranceLadder
  obtain ⟨rest, hrest⟩ := hpre
  have hmem : ∀ tol ∈ callsUntilSuccess (fun tol => (qld (QPSolver.preUpdate s) tol).1)
      toleranceLadder, tol ∈ toleranceLadder := by
    intro tol htol
    rw [← hrest]
    exact List.mem_append_left _ htol
  refine ⟨toleranceLadder.any (fun tol => (qld (QPSolver.preUpdate s) tol).1),
    (QPSolver.postUpdate kin (QPSolver.preUpdate s) mb mbc
      (toleranceLadder.any (fun tol => (qld (QPSolver.preUpdate s) tol).1)) res step).1,
    (QPSolver.postUpdate kin (QPSolver.preUpdate s) mb mbc
      (toleranceLadder.any (fun tol => (qld (QPSolver.preUpdate s) tol).1)) res step).2,
    callsUntilSuccess (fun tol => (qld (QPSolver.preUpdate s) tol).1) toleranceLadder,
    ?_, rfl, ⟨rest, hrest⟩, ?_, ?_, hfail, hany, hlast, ?_⟩
  · simp only [QPSolver.updateQLD, hres]
  · have hlen := congrArg List.length hrest
    have h5 : toleranceLadder.length = 5 := rfl
    rw [List.length_append, h5] at hlen
    omega
  · intro tol htol
    have := hmem tol htol
    simp only [toleranceLadder, List.mem_cons, List.mem_singleton, List.not_mem_nil,
      or_false] at this
    rcases this with rfl | rfl | rfl | rfl | rfl <;> norm_num
  · intro h1 h2 h3
    simp only [toleranceLadder, callsUntilSuccess, List.any_cons, h1, h2, h3, Bool.false_or,
      Bool.true_or, Bool.false_eq_true, if_false, if_true, and_self]

/-- Witness for C9: the back-end that accepts from 1e-6 on, with fuel 5, gives true
after the three calls 1e-8, 1e-7, 1e-6. -/
theorem updateQLD_ladder_witness :
    (5 ≤ 5) ∧
    ∃ (t : QPSolver) (c : MultiBodyConfig),
      QPSolver.updateQLD exKin exQld [] 5 exSolverArm2 exArm2 exArm2Config 0
        = some (true, t, c, [1 / 100000000, 1 / 10000000, 1 / 1000000]) := by
  refine ⟨Nat.le_refl 5, ?_⟩
  obtain ⟨ok, t, c, calls, h, _, _, _, _, _, _, _, hscen⟩ :=
    updateQLD_ladder exKin exQld [] 5 exSolverArm2 exArm2 exArm2Config 0 (Nat.le_refl 5)
  have h1 : (exQld (QPSolver.preUpdate exSolverArm2) (1 / 100000000)).1 = false := by
    simp only [exQld, decide_eq_false_iff_not]; norm_num
  have h2 : (exQld (QPSolver.preUpdate exSolverArm2) (1 / 10000000)).1 = false := by
    simp only [exQld, decide_eq_false_iff_not]; norm_num
  have h3 : (exQld (QPSolver.preUpdate exSolverArm2) (1 / 1000000)).1 = true := by
    simp only [exQld, decide_eq_true_eq]; norm_num
  obtain ⟨hok, hcalls⟩ := hscen h1 h2 h3
  subst hok
  subst hcalls
  exact ⟨t, c, h⟩

/-! ## Torque buffer across structure changes -/

/-- C6. The code at the failing scenario: after a structure change that keeps nrVars
at 16, the successful update on the free-flyer robot deserializes ones, not zeros,
into the six root torques; and a structure change from the five-joint arm to the
floating-base robot (both 10 variables) leaves the torque buffer at length 5 instead
of nDoF = 8. -/
theorem root_torque_not_zeroed :
    exFloat.joint0.type = JointType.Free ∧
    exRestructured.data.nrVars = 16 ∧
    exAfterUpdate.1 = true ∧
    exAfterUpdate.2.1.torqueRes.take 6 = [1, 1, 1, 1, 1, 1] ∧
    exAfterUpdate.2.2.jointTorque = [[1, 1, 1, 1, 1, 1], [1], [1]] ∧
    exFloat.nrDof = 8 ∧
    (((QPSolver.new true).nrVars exArm5 [] [] [] []).nrVars exFloat [] [] [] []).torqueRes.length
      = 5 := by
  refine ⟨rfl, by decide, rfl, ?_, ?_, by decide, by decide⟩
  · decide
  · decide

/-! ## Diagonal regularization -/

theorem diagStep_coeff (M : Matrix) (n i j : Nat) :
    (QPSolver.diagStep M n).coeff i j =
      if i = n ∧ j = n ∧ |M.coeff n n| < DIAG_CONSTANT then M.coeff n n + DIAG_CONSTANT
      else M.coeff i j := by
  unfold QPSolver.diagStep
  by_cases h : |M.coeff n n| < DIAG_CONSTANT
  · rw [if_pos h]
    simp only [Matrix.set, h, and_true]
  · rw [if_neg h]
    simp only [h, and_false, if_false]

/-- Effect of the diagonal loop on every coefficient. -/
theorem diagLoop_coeff (Q : Matrix) (n i j : Nat) :
    ((List.range n).foldl QPSolver.diagStep Q).coeff i j =
      if i = j ∧ i < n ∧ |Q.coeff i i| < DIAG_CONSTANT then Q.coeff i i + DIAG_CONSTANT
      else Q.coeff i j := by
  induction n generalizing i j with
  | zero => simp
  | succ n ih =>
    rw [List.range_succ, List.foldl_append, List.foldl_cons, List.foldl_nil, diagStep_coeff]
    have hnn : ((List.range n).foldl QPSolver.diagStep Q).coeff n n = Q.coeff n n := by
      rw [ih, if_neg]
      intro h
      exact Nat.lt_irrefl n h.2.1
    rw [hnn]
    by_cases h1 : i = n ∧ j = n
    · rw [h1.1, h1.2]
      by_cases h : |Q.coeff n n| < DIAG_CONSTANT
      · rw [if_pos ⟨rfl, rfl, h⟩, if_pos ⟨rfl, Nat.lt_succ_self n, h⟩]
      · rw [if_neg (fun hh => h hh.2.2), if_neg (fun hh => h hh.2.2), hnn]
    · rw [if_neg (fun hh => h1 ⟨hh.1, hh.2.1⟩), ih]
      have hiff : (i = j ∧ i < n + 1 ∧ |Q.coeff i i| < DIAG_CONSTANT) ↔
          (i = j ∧ i < n ∧ |Q.coeff i i| < DIAG_CONSTANT) := by
        constructor
        · rintro ⟨hij, h2, h3⟩
          refine ⟨hij, ?_, h3⟩
          have hne : i ≠ n := fun hin => h1 ⟨hin, hij ▸ hin⟩
          omega
        · rintro ⟨hij, h2, h3⟩
          exact ⟨hij, Nat.lt_succ_of_lt h2, h3⟩
      simp only [hiff]

theorem preUpdateFill_data (s : QPSolver) : (QPSolver.preUpdateFill s).data = s.data :=
  preUpdateFill_frame (fun s => s.data) (fun _ _ _ _ _ _ _ _ _ _ _ => rfl) s

theorem foldl_taskStep_Q (ts : List Task) (s : QPSolver) :
    (ts.foldl QPSolver.taskStep s).Q =
      ts.foldl (fun Q t => Q.addBlock t.begin.1 t.begin.2 t.Q.rows t.Q.cols t.weight t.Q) s.Q := by
  induction ts generalizing s with
  | nil => rfl
  | cons t ts ih => rw [List.foldl_cons, ih, List.foldl_cons]; rfl

/-- The assembled Q is the zero matrix with the weighted task blocks added in
registration order. -/
theorem preUpdateFill_Q (s : QPSolver) :
    (QPSolver.preUpdateFill s).Q =
      s.tasks.foldl (fun Q t => Q.addBlock t.begin.1 t.begin.2 t.Q.rows t.Q.cols t.weight t.Q)
        s.Q.setZero := by
  unfold QPSolver.preUpdateFill
  simp only
  rw [foldl_taskStep_Q,
      foldl_keep QPSolver.boundStep (fun s => s.Q) (fun _ _ => rfl),
      foldl_keep QPSolver.inEqStep (fun s => s.Q) (fun _ _ => rfl)]
  simp only
  rw [foldl_keep QPSolver.eqStep (fun s => s.Q) (fun _ _ => rfl)]

theorem foldl_add_map {α : Type} (f : α → Nat) (l : List α) (acc : Nat) :
    l.foldl (fun a e => a + f e) acc = acc + (l.map f).sum := by
  induction l generalizing acc with
  | nil => simp
  | cons x xs ih => simp [List.foldl_cons, ih, Nat.add_assoc]

theorem Matrix_resize_dims (m : Matrix) (r c : Nat) :
    (m.resize r c).rows = r ∧ (m.resize r c).cols = c := by
  unfold Matrix.resize
  split_ifs with h
  · exact h
  · exact ⟨rfl, rfl⟩

theorem Vec_resize_length {α : Type} (v : List α) (n : Nat) (x : α) :
    (Vec.resize v n x).length = n := by
  unfold Vec.resize
  split_ifs with h
  · exact h
  · exact List.length_replicate _ _

/-- The structure change does not touch the constraint storage. -/
theorem nrVars_constraint_storage (s : QPSolver) (mb : MultiBody)
    (uni : List UnilateralContact) (bi : List BilateralContact)
    (r2m m2r : List UnilateralContact) :
    (s.nrVars mb uni bi r2m m2r).A1 = s.A1 ∧ (s.nrVars mb uni bi r2m m2r).B1 = s.B1 ∧
    (s.nrVars mb uni bi r2m m2r).A2 = s.A2 ∧ (s.nrVars mb uni bi r2m m2r).B2 = s.B2 ∧
    (s.nrVars mb uni bi r2m m2r).eqConstr = s.eqConstr ∧
    (s.nrVars mb uni bi r2m m2r).inEqConstr = s.inEqConstr := by
  unfold QPSolver.nrVars
  simp only [QPSolver.updateSolverSize]
  split_ifs <;> exact ⟨rfl, rfl, rfl, rfl, rfl, rfl⟩

/-- C8, amended. The structure change alone leaves A1, b1, A2, b2 as they were; once
updateEqConstrSize and updateInEqConstrSize have been called after it, A1 has (sum
of maxEq) rows and nrVars columns, b1 has the same number of rows, and A2, b2 have
(sum of maxInEq) rows with nrVars columns. -/
theorem constraint_storage_sizes (s : QPSolver) (mb : MultiBody)
    (uni : List UnilateralContact) (bi : List BilateralContact)
    (r2m m2r : List UnilateralContact) :
    ((s.nrVars mb uni bi r2m m2r).A1 = s.A1 ∧ (s.nrVars mb uni bi r2m m2r).B1 = s.B1 ∧
      (s.nrVars mb uni bi r2m m2r).A2 = s.A2 ∧ (s.nrVars mb uni bi r2m m2r).B2 = s.B2) ∧
    (((s.nrVars mb uni bi r2m m2r).updateEqConstrSize).updateInEqConstrSize).A1.rows
      = (s.eqConstr.map Equality.maxEq).sum ∧
    (((s.nrVars mb uni bi r2m m2r).updateEqConstrSize).updateInEqConstrSize).A1.cols
      = (s.nrVars mb uni bi r2m m2r).data.nrVars ∧
    (((s.nrVars mb uni bi r2m m2r).updateEqConstrSize).updateInEqConstrSize).B1.length
      = (s.eqConstr.map Equality.maxEq).sum ∧
    (((s.nrVars mb uni bi r2m m2r).updateEqConstrSize).updateInEqConstrSize).A2.rows
      = (s.inEqConstr.map Inequality.maxInEq).sum ∧
    (((s.nrVars mb uni bi r2m m2r).updateEqConstrSize).updateInEqConstrSize).A2.cols
      = (s.nrVars mb uni bi r2m m2r).data.nrVars ∧
    (((s.nrVars mb uni bi r2m m2r).updateEqConstrSize).updateInEqConstrSize).B2.length
      = (s.inEqConstr.map Inequality.maxInEq).sum ∧
    (((s.nrVars mb uni bi r2m m2r).updateEqConstrSize).updateInEqConstrSize).data
      = (s.nrVars mb uni bi r2m m2r).data := by
  obtain ⟨hA1, hB1, hA2, hB2, hE, hI⟩ := nrVars_constraint_storage s mb uni bi r2m m2r
  refine ⟨⟨hA1, hB1, hA2, hB2⟩, ?_⟩
  generalize s.nrVars mb uni bi r2m m2r = t at hE hI ⊢
  rw [← hE, ← hI]
  simp only [QPSolver.updateInEqConstrSize, QPSolver.updateEqConstrSize,
    QPSolver.updateSolverSize, foldl_add_map, Nat.zero_add]
  exact ⟨(Matrix_resize_dims _ _ _).1, (Matrix_resize_dims _ _ _).2, Vec_resize_length _ _ _,
    (Matrix_resize_dims _ _ _).1, (Matrix_resize_dims _ _ _).2, Vec_resize_length _ _ _, trivial⟩

/-- C8 as stated fails: with one equality constraint of maxEq = 3 registered on a
fresh solver, A1 and b1 still have no row after the structure change. -/
theorem constraint_storage_counterexample :
    (exSolverEq.eqConstr.map Equality.maxEq).sum = 3 ∧
    exSolverEq.data.nrVars = 4 ∧
    exSolverEq.A1.rows = 0 ∧ exSolverEq.A1.cols = 0 ∧ exSolverEq.B1.length = 0 ∧
    ¬ (exSolverEq.A1.rows = (exSolverEq.eqConstr.map Equality.maxEq).sum) := by
  decide

/-! ## Variable bounds -/

theorem setSegment_length {α : Type} (v : List α) (st n : Nat) (w : List α) :
    (Vec.setSegment v st n w).length = v.length := by
  simp [Vec.setSegment]

theorem setSegment_getElem? {α : Type} (v : List α) (st n : Nat) (w : List α) (j : Nat) :
    (Vec.setSegment v st n w)[j]? =
      if st ≤ j ∧ j < st + n then (v[j]?).map (fun x => w.getD (j - st) x) else v[j]? := by
  unfold Vec.setSegment
  rw [List.getElem?_zipWith]
  by_cases hj : j < v.length
  · rw [List.getElem?_range hj, List.getElem?_eq_getElem hj]
    by_cases hc : st ≤ j ∧ j < st + n
    · simp only [if_pos hc, Option.map_some']
    · simp only [if_neg hc]
  · have h1 : (List.range v.length)[j]? = none :=
      List.getElem?_eq_none (by rw [List.length_range]; omega)
    have h2 : v[j]? = none := List.getElem?_eq_none (by omega)
    rw [h1, h2]
    simp

/-- Cell `j` after writing the segments of a list of bound constraints in order:
the value of the last constraint covering `j`, or the initial cell. -/
theorem foldl_setSegment_getElem? (proj : Bound → List BoundVal) (d : BoundVal)
    (bs : List Bound) (v : List BoundVal) (j : Nat) (hj : j < v.length) :
    (bs.foldl (fun xl b => Vec.setSegment xl b.beginVar (proj b).length (proj b)) v)[j]? =
      match bs.reverse.find?
          (fun b => decide (b.beginVar ≤ j ∧ j < b.beginVar + (proj b).length)) with
      | some b => some ((proj b).getD (j - b.beginVar) d)
      | none => v[j]? := by
  induction bs generalizing v with
  | nil => rfl
  | cons b bs ih =>
    rw [List.foldl_cons, ih _ (by rw [setSegment_length]; exact hj), List.reverse_cons,
      List.find?_append]
    cases hf : bs.reverse.find?
        (fun b => decide (b.beginVar ≤ j ∧ j < b.beginVar + (proj b).length)) with
    | some c => rfl
    | none =>
      simp only [Option.none_or, List.find?_cons, List.find?_nil]
      rw [setSegment_getElem?]
      by_cases hc : b.beginVar ≤ j ∧ j < b.beginVar + (proj b).length
      · have hlt : j - b.beginVar < (proj b).length := by omega
        simp only [hc, and_self, decide_True, if_true, List.getElem?_eq_getElem hj,
          Option.map_some', List.getD_eq_getElem _ _ hlt]
      · simp only [hc, decide_False, if_false]

theorem foldl_boundStep_XL (bs : List Bound) (s : QPSolver) :
    (bs.foldl QPSolver.boundStep s).XL =
      bs.foldl (fun xl b => Vec.setSegment xl b.beginVar b.Lower.length b.Lower) s.XL := by
  induction bs generalizing s with
  | nil => rfl
  | cons b bs ih => rw [List.foldl_cons, ih, List.foldl_cons]; rfl

theorem foldl_boundStep_XU (bs : List Bound) (s : QPSolver) :
    (bs.foldl QPSolver.boundStep s).XU =
      bs.foldl (fun xu b => Vec.setSegment xu b.beginVar b.Upper.length b.Upper) s.XU := by
  induction bs generalizing s with
  | nil => rfl
  | cons b bs ih => rw [List.foldl_cons, ih, List.foldl_cons]; rfl

/-- The lower bounds after preUpdate: minus infinity everywhere, then the segments of
the bound constraints written in registration order. -/
theorem preUpdate_XL (s : QPSolver) :
    (QPSolver.preUpdate s).XL =
      s.boundConstr.foldl (fun xl b => Vec.setSegment xl b.beginVar b.Lower.length b.Lower)
        (Vec.fill s.XL BoundVal.negInf) := by
  unfold QPSolver.preUpdate QPSolver.regularize QPSolver.preUpdateFill
  simp only
  rw [foldl_keep QPSolver.taskStep (fun s => s.XL) (fun _ _ => rfl), foldl_boundStep_XL,
      foldl_keep QPSolver.inEqStep (fun s => s.XL) (fun _ _ => rfl)]
  simp only
  rw [foldl_keep QPSolver.eqStep (fun s => s.XL) (fun _ _ => rfl)]

/-- The upper bounds after preUpdate. -/
theorem preUpdate_XU (s : QPSolver) :
    (QPSolver.preUpdate s).XU =
      s.boundConstr.foldl (fun xu b => Vec.setSegment xu b.beginVar b.Upper.length b.Upper)
        (Vec.fill s.XU BoundVal.posInf) := by
  unfold QPSolver.preUpdate QPSolver.regularize QPSolver.preUpdateFill
  simp only
  rw [foldl_keep QPSolver.taskStep (fun s => s.XU) (fun _ _ => rfl), foldl_boundStep_XU,
      foldl_keep QPSolver.inEqStep (fun s => s.XU) (fun _ _ => rfl)]
  simp only
  rw [foldl_keep QPSolver.eqStep (fun s => s.XU) (fun _ _ => rfl)]

/-- C10. Bound conflict, last write wins: in a state whose bound vectors have nrVars
cells and whose registered bound constraints fit in [0, nrVars), after preUpdate cell
j of xl (resp. xu) is the Lower (resp. Upper) value at position j - beginVar of the
last-registered bound constraint whose range contains j, and minus infinity (resp.
plus infinity) when no registered bound covers j. The fit hypothesis delimits the
inputs on which the segment writes of the source are defined. -/
theorem bounds_last_write_wins (s : QPSolver)
    (hXL : s.XL.length = s.data.nrVars) (hXU : s.XU.length = s.data.nrVars)
    (_hfit : ∀ b ∈ s.boundConstr, b.beginVar + b.Lower.length ≤ s.data.nrVars ∧
      b.beginVar + b.Upper.length ≤ s.data.nrVars)
    (j : Nat) (hj : j < s.data.nrVars) :
    (QPSolver.preUpdate s).XL[j]? = some (lastLower s.boundConstr j) ∧
    (QPSolver.preUpdate s).XU[j]? = some (lastUpper s.boundConstr j) := by
  have hfill : ∀ (v : List BoundVal) (x : BoundVal), j < v.length → (Vec.fill v x)[j]? = some x := by
    intro v x hv
    unfold Vec.fill
    rw [List.getElem?_eq_getElem (by rw [List.length_replicate]; exact hv)]
    simp
  constructor
  · rw [preUpdate_XL, foldl_setSegment_getElem? Bound.Lower BoundVal.negInf _ _ j
      (by unfold Vec.fill; rw [List.length_replicate, hXL]; exact hj)]
    unfold lastLower
    cases s.boundConstr.reverse.find?
        (fun b => decide (b.beginVar ≤ j ∧ j < b.beginVar + b.Lower.length)) with
    | some c => rfl
    | none => exact hfill _ _ (by rw [hXL]; exact hj)
  · rw [preUpdate_XU, foldl_setSegment_getElem? Bound.Upper BoundVal.posInf _ _ j
      (by unfold Vec.fill; rw [List.length_replicate, hXU]; exact hj)]
    unfold lastUpper
    cases s.boundConstr.reverse.find?
        (fun b => decide (b.beginVar ≤ j ∧ j < b.beginVar + b.Upper.length)) with
    | some c => rfl
    | none => exact hfill _ _ (by rw [hXU]; exact hj)

/-- Witness for C10: cell 2 is covered by both constraints and takes the values of the
one registered last. -/
theorem bounds_last_write_wins_witness :
    (exSolverBounds.XL.length = exSolverBounds.data.nrVars ∧
      exSolverBounds.XU.length = exSolverBounds.data.nrVars ∧
      (∀ b ∈ exSolverBounds.boundConstr,
        b.beginVar + b.Lower.length ≤ exSolverBounds.data.nrVars ∧
        b.beginVar + b.Upper.length ≤ exSolverBounds.data.nrVars) ∧
      2 < exSolverBounds.data.nrVars) ∧
    (QPSolver.preUpdate exSolverBounds).XL[2]? = some (BoundVal.val 5) ∧
    (QPSolver.preUpdate exSolverBounds).XU[2]? = some (BoundVal.val 6) :=
  ⟨⟨by decide, by decide, by decide, by decide⟩,
   bounds_last_write_wins exSolverBounds (by decide) (by decide) (by decide) 2 (by decide)⟩

/-! ## Exactness of the diagonal step -/

/-- C18. The diagonal loop adds exactly 1e-5 to each diagonal entry Q[i,i], i < nrVars,
with |Q[i,i]| < 1e-5, and leaves every other diagonal entry and every off-diagonal
entry (and the dimensions) unchanged; hence a diagonal entry that is >= 0 before the
loop is >= 1e-5 after it, and a symmetric Q stays symmetric. -/
theorem regularize_exact (s : QPSolver) (i j : Nat) :
    (i < s.data.nrVars → |s.Q.coeff i i| < DIAG_CONSTANT →
      (QPSolver.regularize s).Q.coeff i i = s.Q.coeff i i + DIAG_CONSTANT) ∧
    (¬ (i < s.data.nrVars ∧ |s.Q.coeff i i| < DIAG_CONSTANT) →
      (QPSolver.regularize s).Q.coeff i i = s.Q.coeff i i) ∧
    (i ≠ j → (QPSolver.regularize s).Q.coeff i j = s.Q.coeff i j) ∧
    (i < s.data.nrVars → 0 ≤ s.Q.coeff i i →
      DIAG_CONSTANT ≤ (QPSolver.regularize s).Q.coeff i i) ∧
    ((∀ a b, s.Q.coeff a b = s.Q.coeff b a) →
      ∀ a b, (QPSolver.regularize s).Q.coeff a b = (QPSolver.regularize s).Q.coeff b a) ∧
    (QPSolver.preUpdate s).Q = (QPSolver.regularize (QPSolver.preUpdateFill s)).Q := by
  have hD : (0 : ℚ) < DIAG_CONSTANT := by norm_num [DIAG_CONSTANT]
  have hc : ∀ a b, (QPSolver.regularize s).Q.coeff a b =
      if a = b ∧ a < s.data.nrVars ∧ |s.Q.coeff a a| < DIAG_CONSTANT then
        s.Q.coeff a a + DIAG_CONSTANT
      else s.Q.coeff a b := by
    intro a b
    unfold QPSolver.regularize
    exact diagLoop_coeff s.Q s.data.nrVars a b
  refine ⟨?_, ?_, ?_, ?_, ?_, rfl⟩
  · intro hi hq
    rw [hc, if_pos ⟨rfl, hi, hq⟩]
  · intro hn
    rw [hc, if_neg (fun h => hn ⟨h.2.1, h.2.2⟩)]
  · intro hij
    rw [hc, if_neg (fun h => hij h.1)]
  · intro hi h0
    rw [hc]
    by_cases hq : |s.Q.coeff i i| < DIAG_CONSTANT
    · rw [if_pos ⟨rfl, hi, hq⟩]
      linarith
    · rw [if_neg (fun h => hq h.2.2)]
      have := not_lt.mp hq
      rwa [abs_of_nonneg h0] at this
  · intro hsym a b
    rw [hc, hc]
    by_cases hab : a = b
    · subst hab
      rfl
    · rw [if_neg (fun h => hab h.1), if_neg (fun h => hab h.1.symm)]
      exact hsym a b

/-- Witness for C18: the zero matrix of the two-DoF arm, first diagonal entry. -/
theorem regularize_exact_witness :
    0 < exSolverArm2.data.nrVars ∧ 0 ≤ exSolverArm2.Q.coeff 0 0 ∧
    DIAG_CONSTANT ≤ (QPSolver.regularize exSolverArm2).Q.coeff 0 0 :=
  ⟨by decide, le_of_eq rfl,
   (regularize_exact exSolverArm2 0 0).2.2.2.1 (by decide) (le_of_eq rfl)⟩

/-! ## Task accumulation -/

theorem foldl_addBlock_coeff (ts : List Task) (M : Matrix) (i j : Nat) :
    (ts.foldl (fun Q t => Q.addBlock t.begin.1 t.begin.2 t.Q.rows t.Q.cols t.weight t.Q)
      M).coeff i j = M.coeff i j + taskQSum ts i j := by
  induction ts generalizing M with
  | nil => simp [taskQSum]
  | cons t ts ih =>
    rw [List.foldl_cons, ih]
    simp only [taskQSum, List.map_cons, List.sum_cons, Matrix.addBlock, taskQTerm]
    split_ifs <;> ring

theorem addSegment_getElem? (v : Vec) (st n : Nat) (k : ℚ) (w : Vec) (j : Nat) :
    (Vec.addSegment v st n k w)[j]? =
      (v[j]?).map (fun x => if st ≤ j ∧ j < st + n then x + k * w.getD (j - st) 0 else x) := by
  unfold Vec.addSegment
  rw [List.getElem?_zipWith]
  by_cases hj : j < v.length
  · rw [List.getElem?_range hj, List.getElem?_eq_getElem hj]
    rfl
  · have h1 : (List.range v.length)[j]? = none :=
      List.getElem?_eq_none (by rw [List.length_range]; omega)
    have h2 : v[j]? = none := List.getElem?_eq_none (by omega)
    rw [h1, h2]
    rfl

theorem foldl_addSegment_getElem? (ts : List Task) (v : Vec) (i : Nat) :
    (ts.foldl (fun C t => Vec.addSegment C t.begin.1 t.Q.rows t.weight t.C) v)[i]? =
      (v[i]?).map (fun x => x + taskCSum ts i) := by
  induction ts generalizing v with
  | nil => simp [taskCSum]
  | cons t ts ih =>
    rw [List.foldl_cons, ih, addSegment_getElem?]
    cases v[i]? with
    | none => rfl
    | some x =>
      simp only [Option.map_some', taskCSum, List.map_cons, List.sum_cons, taskCTerm]
      congr 1
      split_ifs <;> ring

theorem foldl_taskStep_C (ts : List Task) (s : QPSolver) :
    (ts.foldl QPSolver.taskStep s).C =
      ts.foldl (fun C t => Vec.addSegment C t.begin.1 t.Q.rows t.weight t.C) s.C := by
  induction ts generalizing s with
  | nil => rfl
  | cons t ts ih => rw [List.foldl_cons, ih, List.foldl_cons]; rfl

/-- The assembled c is the zero vector with the weighted task vectors added in
registration order. -/
theorem preUpdateFill_C (s : QPSolver) :
    (QPSolver.preUpdateFill s).C =
      s.tasks.foldl (fun C t => Vec.addSegment C t.begin.1 t.Q.rows t.weight t.C)
        (Vec.fill s.C 0) := by
  unfold QPSolver.preUpdateFill
  simp only
  rw [foldl_taskStep_C,
      foldl_keep QPSolver.boundStep (fun s => s.C) (fun _ _ => rfl),
      foldl_keep QPSolver.inEqStep (fun s => s.C) (fun _ _ => rfl)]
  simp only
  rw [foldl_keep QPSolver.eqStep (fun s => s.C) (fun _ _ => rfl)]

/-- Cells of the assembled Q and c as sums over the registered tasks. -/
theorem preUpdateFill_sums (s : QPSolver) (i j : Nat) :
    (QPSolver.preUpdateFill s).Q.coeff i j = taskQSum s.tasks i j ∧
    (i < s.C.length → (QPSolver.preUpdateFill s).C[i]? = some (taskCSum s.tasks i)) := by
  constructor
  · rw [preUpdateFill_Q, foldl_addBlock_coeff]
    simp [Matrix.setZero]
  · intro hi
    rw [preUpdateFill_C, foldl_addSegment_getElem?]
    have : (Vec.fill s.C 0)[i]? = some 0 := by
      unfold Vec.fill
      rw [List.getElem?_eq_getElem (by rw [List.length_replicate]; exact hi)]
      simp
    rw [this]
    simp

/-- The double nearest to 0.1 is 3602879701896397 / 2^55. -/
theorem roundDouble_tenth : roundDouble (1 / 10) = 3602879701896397 / 2 ^ 55 := by decide!

/-- The double nearest to 0.2 is 3602879701896397 / 2^54. -/
theorem roundDouble_fifth : roundDouble (1 / 5) = 3602879701896397 / 2 ^ 54 := by decide!

/-- The double nearest to 0.3 is 5404319552844595 / 2^54. -/
theorem roundDouble_threeTenths : roundDouble (3 / 10) = 5404319552844595 / 2 ^ 54 := by
  decide!

/-- Small integers and a tie: 1 and 5 are doubles, 2^53 + 1 rounds to the even 2^53 and
2^53 + 3 to the even 2^53 + 4. -/
theorem roundDouble_samples :
    roundDouble 1 = 1 ∧ roundDouble 5 = 5 ∧ roundDouble (-(1 / 2)) = -(1 / 2) ∧
    roundDouble (2 ^ 53 + 1) = 2 ^ 53 ∧ roundDouble (2 ^ 53 + 3) = 2 ^ 53 + 4 := by
  decide!

/-- Sum of the doubles 0.1 and 0.2 is 0.30000000000000004, above the double 0.3; the sum of
the doubles 0.3 and 0.2 is 0.5. -/
theorem doubleAdd_samples :
    doubleAdd (roundDouble (1 / 10)) (roundDouble (1 / 5)) = 5404319552844596 / 2 ^ 54 ∧
    doubleAdd (roundDouble (3 / 10)) (roundDouble (1 / 5)) = 1 / 2 := by
  decide!

theorem doubleAdd_comm (a b : ℚ) : doubleAdd a b = doubleAdd b a := by
  unfold doubleAdd
  rw [add_comm]

/-- With the exact operations the task loop with explicit arithmetic is the assembly
`preUpdateFill`. -/
theorem preUpdateFillWith_exact (s : QPSolver) :
    QPSolver.preUpdateFillWith (fun a b => a + b) (fun a b => a * b) s
      = QPSolver.preUpdateFill s := rfl

theorem foldl_addBlockWith_coeff (plus times : ℚ → ℚ → ℚ) (ts : List Task) (M : Matrix)
    (i j : Nat) :
    (ts.foldl
      (fun Q t => Q.addBlockWith plus times t.begin.1 t.begin.2 t.Q.rows t.Q.cols t.weight t.Q)
      M).coeff i j = ts.foldl (taskQAcc plus times i j) (M.coeff i j) := by
  induction ts generalizing M with
  | nil => rfl
  | cons t ts ih =>
    rw [List.foldl_cons, ih, List.foldl_cons]
    rfl

theorem addSegmentWith_getElem? (plus times : ℚ → ℚ → ℚ) (v : Vec) (st n : Nat) (k : ℚ)
    (w : Vec) (j : Nat) :
    (Vec.addSegmentWith plus times v st n k w)[j]? =
      (v[j]?).map
        (fun x => if st ≤ j ∧ j < st + n then plus x (times k (w.getD (j - st) 0)) else x) := by
  unfold Vec.addSegmentWith
  rw [List.getElem?_zipWith]
  by_cases hj : j < v.length
  · rw [List.getElem?_range hj, List.getElem?_eq_getElem hj]
    rfl
  · have h1 : (List.range v.length)[j]? = none :=
      List.getElem?_eq_none (by rw [List.length_range]; omega)
    have h2 : v[j]? = none := List.getElem?_eq_none (by omega)
    rw [h1, h2]
    rfl

theorem foldl_addSegmentWith_getElem? (plus times : ℚ → ℚ → ℚ) (ts : List Task) (v : Vec)
    (i : Nat) :
    (ts.foldl (fun C t => Vec.addSegmentWith plus times C t.begin.1 t.Q.rows t.weight t.C)
      v)[i]? = (v[i]?).map (fun x => ts.foldl (taskCAcc plus times i) x) := by
  induction ts generalizing v with
  | nil => simp
  | cons t ts ih =>
    rw [List.foldl_cons, ih, addSegmentWith_getElem?]
    cases v[i]? with
    | none => rfl
    | some x => rfl

theorem foldl_taskStepWith_Q (plus times : ℚ → ℚ → ℚ) (ts : List Task) (s : QPSolver) :
    (ts.foldl (QPSolver.taskStepWith plus times) s).Q =
      ts.foldl
        (fun Q t => Q.addBlockWith plus times t.begin.1 t.begin.2 t.Q.rows t.Q.cols t.weight t.Q)
        s.Q := by
  induction ts generalizing s with
  | nil => rfl
  | cons t ts ih => rw [List.foldl_cons, ih, List.foldl_cons]; rfl

theorem foldl_taskStepWith_C (plus times : ℚ → ℚ → ℚ) (ts : List Task) (s : QPSolver) :
    (ts.foldl (QPSolver.taskStepWith plus times) s).C =
      ts.foldl (fun C t => Vec.addSegmentWith plus times C t.begin.1 t.Q.rows t.weight t.C)
        s.C := by
  induction ts generalizing s with
  | nil => rfl
  | cons t ts ih => rw [List.foldl_cons, ih, List.foldl_cons]; rfl

/-- The assembled Q is the zero matrix with the weighted task blocks added in
registration order, whatever the arithmetic. -/
theorem preUpdateFillWith_Q (plus times : ℚ → ℚ → ℚ) (s : QPSolver) :
    (QPSolver.preUpdateFillWith plus times s).Q =
      s.tasks.foldl
        (fun Q t => Q.addBlockWith plus times t.begin.1 t.begin.2 t.Q.rows t.Q.cols t.weight t.Q)
        s.Q.setZero := by
  unfold QPSolver.preUpdateFillWith
  simp only
  rw [foldl_taskStepWith_Q,
      foldl_keep QPSolver.boundStep (fun s => s.Q) (fun _ _ => rfl),
      foldl_keep QPSolver.inEqStep (fun s => s.Q) (fun _ _ => rfl)]
  simp only
  rw [foldl_keep QPSolver.eqStep (fun s => s.Q) (fun _ _ => rfl)]

/-- The assembled c is the zero vector with the weighted task vectors added in
registration order, whatever the arithmetic. -/
theorem preUpdateFillWith_C (plus times : ℚ → ℚ → ℚ) (s : QPSolver) :
    (QPSolver.preUpdateFillWith plus times s).C =
      s.tasks.foldl
        (fun C t => Vec.addSegmentWith plus times C t.begin.1 t.Q.rows t.weight t.C)
        (Vec.fill s.C 0) := by
  unfold QPSolver.preUpdateFillWith
  simp only
  rw [foldl_taskStepWith_C,
      foldl_keep QPSolver.boundStep (fun s => s.C) (fun _ _ => rfl),
      foldl_keep QPSolver.inEqStep (fun s => s.C) (fun _ _ => rfl)]
  simp only
  rw [foldl_keep QPSolver.eqStep (fun s => s.C) (fun _ _ => rfl)]

/-- Cells of the assembled Q and c as sums accumulated in registration order. -/
theorem preUpdateFillWith_sums (plus times : ℚ → ℚ → ℚ) (s : QPSolver) (i j : Nat) :
    (QPSolver.preUpdateFillWith plus times s).Q.coeff i j = orderedQSum plus times s.tasks i j ∧
    (i < s.C.length →
      (QPSolver.preUpdateFillWith plus times s).C[i]?
        = some (orderedCSum plus times s.tasks i)) := by
  constructor
  · rw [preUpdateFillWith_Q, foldl_addBlockWith_coeff]
    rfl
  · intro hi
    have hlen : i < (Vec.fill s.C 0).length := by
      simp only [Vec.fill, List.length_replicate]
      exact hi
    have h0 : (Vec.fill s.C 0)[i]? = some 0 := by
      rw [List.getElem?_eq_getElem hlen]
      simp [Vec.fill]
    rw [preUpdateFillWith_C, foldl_addSegmentWith_getElem?, h0]
    rfl

/-- C17, amended. Task accumulation in double arithmetic: for registered tasks whose
blocks fit inside Q, the cell (i,j) of Q before the diagonal loop is the sum, accumulated
from 0 in registration order with every product and every addition rounded to the
nearest double, of w_t * Q_t[i - row_t, j - col_t] over the tasks whose block covers
(i,j) (0 if none), and the cell i of c is the sum accumulated the same way of
w_t * c_t[i - row_t] over the tasks whose row range covers i; overlapping blocks add up
rather than overwrite. -/
theorem task_accumulation (s : QPSolver) (hC : s.C.length = s.data.nrVars)
    (_hfit : ∀ t ∈ s.tasks, t.begin.1 + t.Q.rows ≤ s.data.nrVars ∧
      t.begin.2 + t.Q.cols ≤ s.data.nrVars ∧ t.C.length = t.Q.rows)
    (i j : Nat) (hi : i < s.data.nrVars) (_hj : j < s.data.nrVars) :
    (QPSolver.preUpdateFillWith doubleAdd doubleMul s).Q.coeff i j
      = orderedQSum doubleAdd doubleMul s.tasks i j ∧
    (QPSolver.preUpdateFillWith doubleAdd doubleMul s).C[i]?
      = some (orderedCSum doubleAdd doubleMul s.tasks i) := by
  have hic : i < s.C.length := by rw [hC]; exact hi
  obtain ⟨hQ, hCs⟩ := preUpdateFillWith_sums doubleAdd doubleMul s i j
  exact ⟨hQ, hCs hic⟩

/-- Witness for C17 amended: the two overlapping tasks on the two-DoF arm; the cell
(1,1) gets 2 * 1 + 1 * 3 and the cell 1 of c gets 2 * 1 + 1 * 5, all of them doubles. -/
theorem task_accumulation_witness :
    (exSolverTasks.C.length = exSolverTasks.data.nrVars ∧
      (∀ t ∈ exSolverTasks.tasks, t.begin.1 + t.Q.rows ≤ exSolverTasks.data.nrVars ∧
        t.begin.2 + t.Q.cols ≤ exSolverTasks.data.nrVars ∧ t.C.length = t.Q.rows) ∧
      1 < exSolverTasks.data.nrVars) ∧
    ((QPSolver.preUpdateFillWith doubleAdd doubleMul exSolverTasks).Q.coeff 1 1
        = orderedQSum doubleAdd doubleMul exSolverTasks.tasks 1 1 ∧
      (QPSolver.preUpdateFillWith doubleAdd doubleMul exSolverTasks).C[1]?
        = some (orderedCSum doubleAdd doubleMul exSolverTasks.tasks 1)) ∧
    orderedQSum doubleAdd doubleMul exSolverTasks.tasks 1 1 = 5 ∧
    orderedCSum doubleAdd doubleMul exSolverTasks.tasks 1 = 7 :=
  ⟨⟨by decide, by decide, by decide⟩,
   task_accumulation exSolverTasks (by decide) (by decide) 1 1 (by decide) (by decide),
   by decide!, by decide!⟩

/-- C17 as stated fails: the three tasks holding the doubles 0.1, 0.2 and 0.3 on the
cell (0,0) fit inside Q and are the same tasks in both solvers, registered in opposite
orders; registered 0.1, 0.2, 0.3 the cell ends at 0.6000000000000001
(5404319552844596 / 2^53), registered 0.3, 0.2, 0.1 it ends at 0.6
(5404319552844595 / 2^53), and neither is the exact sum of the three blocks. -/
theorem task_order_counterexample :
    exSolverDescending = { exSolverAscending with tasks := exSolverAscending.tasks.reverse } ∧
    exSolverDescending.tasks.Perm exSolverAscending.tasks ∧
    (∀ t ∈ exSolverAscending.tasks, t.begin.1 + t.Q.rows ≤ exSolverAscending.data.nrVars ∧
      t.begin.2 + t.Q.cols ≤ exSolverAscending.data.nrVars ∧ t.C.length = t.Q.rows) ∧
    (QPSolver.preUpdateFillWith doubleAdd doubleMul exSolverAscending).Q.coeff 0 0
      = 5404319552844596 / 2 ^ 53 ∧
    (QPSolver.preUpdateFillWith doubleAdd doubleMul exSolverDescending).Q.coeff 0 0
      = 5404319552844595 / 2 ^ 53 ∧
    (QPSolver.preUpdateFillWith doubleAdd doubleMul exSolverAscending).Q.coeff 0 0
      ≠ (QPSolver.preUpdateFillWith doubleAdd doubleMul exSolverDescending).Q.coeff 0 0 ∧
    (QPSolver.preUpdateFillWith doubleAdd doubleMul exSolverAscending).Q.coeff 0 0
      ≠ taskQSum exSolverAscending.tasks 0 0 ∧
    (QPSolver.preUpdateFillWith doubleAdd doubleMul exSolverDescending).Q.coeff 0 0
      ≠ taskQSum exSolverDescending.tasks 0 0 := by
  have hA : (QPSolver.preUpdateFillWith doubleAdd doubleMul exSolverAscending).Q.coeff 0 0
      = 5404319552844596 / 2 ^ 53 := by
    rw [(preUpdateFillWith_sums doubleAdd doubleMul exSolverAscending 0 0).1]
    decide!
  have hD : (QPSolver.preUpdateFillWith doubleAdd doubleMul exSolverDescending).Q.coeff 0 0
      = 5404319552844595 / 2 ^ 53 := by
    rw [(preUpdateFillWith_sums doubleAdd doubleMul exSolverDescending 0 0).1]
    decide!
  have hperm : exSolverDescending.tasks.Perm exSolverAscending.tasks := by
    have h : exSolverDescending.tasks = exSolverAscending.tasks.reverse := rfl
    rw [h]
    exact List.reverse_perm _
  refine ⟨rfl, hperm, by decide, hA, hD, ?_, ?_, ?_⟩
  · rw [hA, hD]
    decide!
  · rw [hA]
    decide!
  · rw [hD]
    decide!

/-! ## Constraint stacking -/

theorem rowOffset_zero (ns : List Nat) : rowOffset ns 0 = 0 := by
  simp [rowOffset]

theorem rowOffset_succ (n : Nat) (ns : List Nat) (k : Nat) :
    rowOffset (n :: ns) (k + 1) = n + rowOffset ns k := by
  simp [rowOffset]

/-- Stacking of matrix blocks at a running row offset: the rows outside the written
range are untouched and the rows of block `k` hold the first rows of its source. -/
theorem foldl_stack_matrix {α : Type} (n : α → Nat) (A : α → Matrix) (nv : Nat)
    (es : List α) (off : Nat) (M : Matrix) :
    (es.foldl (fun (st : Nat × Matrix) e => (st.1 + n e, st.2.setBlock st.1 0 (n e) nv (A e)))
        (off, M)).1 = off + (es.map n).sum ∧
    (∀ row j, (row < off ∨ off + (es.map n).sum ≤ row) →
      (es.foldl (fun (st : Nat × Matrix) e => (st.1 + n e, st.2.setBlock st.1 0 (n e) nv (A e)))
        (off, M)).2.coeff row j = M.coeff row j) ∧
    (∀ k e, es[k]? = some e → ∀ r j, r < n e → j < nv →
      (es.foldl (fun (st : Nat × Matrix) e => (st.1 + n e, st.2.setBlock st.1 0 (n e) nv (A e)))
        (off, M)).2.coeff (off + rowOffset (es.map n) k + r) j = (A e).coeff r j) := by
  induction es generalizing off M with
  | nil =>
    refine ⟨by simp, fun _ _ _ => rfl, ?_⟩
    intro k e hk
    simp at hk
  | cons a as ih =>
    obtain ⟨h1, h2, h3⟩ := ih (off + n a) (M.setBlock off 0 (n a) nv (A a))
    simp only [List.foldl_cons, List.map_cons, List.sum_cons]
    refine ⟨by rw [h1]; omega, ?_, ?_⟩
    · intro row j hrow
      rw [h2 row j (by omega)]
      simp only [Matrix.setBlock]
      rw [if_neg]
      omega
    · intro k e hk r j hr hj
      cases k with
      | zero =>
        simp only [List.getElem?_cons_zero, Option.some.injEq] at hk
        subst hk
        rw [rowOffset_zero, h2 _ j (Or.inl (by omega))]
        simp only [Matrix.setBlock]
        rw [if_pos (by omega)]
        congr 1
        omega
      | succ k =>
        simp only [List.getElem?_cons_succ] at hk
        rw [rowOffset_succ]
        have := h3 k e hk r j hr hj
        rw [← this]
        congr 1
        omega

/-- Stacking of vector segments at a running offset. -/
theorem foldl_stack_vec {α : Type} (n : α → Nat) (b : α → Vec)
    (es : List α) (off : Nat) (v : Vec) :
    (∀ row, (row < off ∨ off + (es.map n).sum ≤ row) →
      (es.foldl (fun (st : Nat × Vec) e =>
          (st.1 + n e, Vec.setSegment st.2 st.1 (n e) (Vec.head (b e) (n e))))
        (off, v)).2[row]? = v[row]?) ∧
    (∀ k e, es[k]? = some e → ∀ r, r < n e → r < (b e).length →
      off + rowOffset (es.map n) k + r < v.length →
      (es.foldl (fun (st : Nat × Vec) e =>
          (st.1 + n e, Vec.setSegment st.2 st.1 (n e) (Vec.head (b e) (n e))))
        (off, v)).2[off + rowOffset (es.map n) k + r]? = some ((b e).getD r 0)) := by
  induction es generalizing off v with
  | nil =>
    refine ⟨fun _ _ => rfl, ?_⟩
    intro k e hk
    simp at hk
  | cons a as ih =>
    obtain ⟨h2, h3⟩ := ih (off + n a) (Vec.setSegment v off (n a) (Vec.head (b a) (n a)))
    simp only [List.foldl_cons, List.map_cons, List.sum_cons]
    refine ⟨?_, ?_⟩
    · intro row hrow
      rw [h2 row (by omega), setSegment_getElem?, if_neg]
      omega
    · intro k e hk r hr hrb hlen
      cases k with
      | zero =>
        simp only [List.getElem?_cons_zero, Option.some.injEq] at hk
        subst hk
        rw [rowOffset_zero] at hlen ⊢
        rw [h2 _ (Or.inl (by omega)), setSegment_getElem?, if_pos (by omega),
          List.getElem?_eq_getElem hlen, Option.map_some']
        have hidx : off + 0 + r - off = r := by omega
        have hlt : r < (Vec.head (b a) (n a)).length := by
          simp only [Vec.head, List.length_take]
          omega
        rw [hidx, List.getD_eq_getElem _ _ hlt, List.getD_eq_getElem _ _ hrb]
        simp only [Vec.head, List.getElem_take]
      | succ k =>
        simp only [List.getElem?_cons_succ] at hk
        rw [rowOffset_succ] at hlen ⊢
        have hlen2 : off + n a + rowOffset (as.map n) k + r
            < (Vec.setSegment v off (n a) (Vec.head (b a) (n a))).length := by
          rw [setSegment_length]
          omega
        have := h3 k e hk r hr hrb hlen2
        rw [← this]
        congr 1
        omega

theorem rowOffset_add_le {α : Type} (n : α → Nat) (es : List α) (k : Nat) (e : α)
    (hk : es[k]? = some e) : rowOffset (es.map n) k + n e ≤ (es.map n).sum := by
  induction es generalizing k with
  | nil => simp at hk
  | cons a as ih =>
    cases k with
    | zero =>
      simp only [List.getElem?_cons_zero, Option.some.injEq] at hk
      subst hk
      simp [rowOffset_zero]
    | succ k =>
      simp only [List.getElem?_cons_succ] at hk
      have := ih k hk
      simp only [List.map_cons, rowOffset_succ, List.sum_cons]
      omega

theorem sum_map_le_sum_map {α : Type} (f g : α → Nat) (es : List α)
    (h : ∀ e ∈ es, f e ≤ g e) : (es.map f).sum ≤ (es.map g).sum := by
  induction es with
  | nil => simp
  | cons a as ih =>
    have h1 := h a (List.mem_cons_self _ _)
    have h2 := ih (fun e he => h e (List.mem_cons_of_mem _ he))
    simp only [List.map_cons, List.sum_cons]
    omega

theorem foldl_eqStep_stack (es : List Equality) (s : QPSolver) :
    (es.foldl QPSolver.eqStep s).nrEq =
      (es.foldl (fun (st : Nat × Matrix) e =>
        (st.1 + e.nrEq, st.2.setBlock st.1 0 e.nrEq s.data.nrVars e.AEq)) (s.nrEq, s.A1)).1 ∧
    (es.foldl QPSolver.eqStep s).A1 =
      (es.foldl (fun (st : Nat × Matrix) e =>
        (st.1 + e.nrEq, st.2.setBlock st.1 0 e.nrEq s.data.nrVars e.AEq)) (s.nrEq, s.A1)).2 ∧
    (es.foldl QPSolver.eqStep s).B1 =
      (es.foldl (fun (st : Nat × Vec) e =>
        (st.1 + e.nrEq, Vec.setSegment st.2 st.1 e.nrEq (Vec.head e.BEq e.nrEq)))
        (s.nrEq, s.B1)).2 := by
  induction es generalizing s with
  | nil => exact ⟨rfl, rfl, rfl⟩
  | cons a as ih =>
    simp only [List.foldl_cons]
    exact ih (QPSolver.eqStep s a)

theorem foldl_inEqStep_stack (es : List Inequality) (s : QPSolver) :
    (es.foldl QPSolver.inEqStep s).nrInEq =
      (es.foldl (fun (st : Nat × Matrix) e =>
        (st.1 + e.nrInEq, st.2.setBlock st.1 0 e.nrInEq s.data.nrVars e.AInEq))
        (s.nrInEq, s.A2)).1 ∧
    (es.foldl QPSolver.inEqStep s).A2 =
      (es.foldl (fun (st : Nat × Matrix) e =>
        (st.1 + e.nrInEq, st.2.setBlock st.1 0 e.nrInEq s.data.nrVars e.AInEq))
        (s.nrInEq, s.A2)).2 ∧
    (es.foldl QPSolver.inEqStep s).B2 =
      (es.foldl (fun (st : Nat × Vec) e =>
        (st.1 + e.nrInEq, Vec.setSegment st.2 st.1 e.nrInEq (Vec.head e.BInEq e.nrInEq)))
        (s.nrInEq, s.B2)).2 := by
  induction es generalizing s with
  | nil => exact ⟨rfl, rfl, rfl⟩
  | cons a as ih =>
    simp only [List.foldl_cons]
    exact ih (QPSolver.inEqStep s a)

theorem foldl_inEqStep_stack_from (es : List Inequality) (s : QPSolver) (nv : Nat)
    (M : Matrix) (v : Vec) (hnv : s.data.nrVars = nv) (hn : s.nrInEq = 0) (hM : s.A2 = M)
    (hv : s.B2 = v) :
    (es.foldl QPSolver.inEqStep s).nrInEq =
      (es.foldl (fun (st : Nat × Matrix) e =>
        (st.1 + e.nrInEq, st.2.setBlock st.1 0 e.nrInEq nv e.AInEq)) (0, M)).1 ∧
    (es.foldl QPSolver.inEqStep s).A2 =
      (es.foldl (fun (st : Nat × Matrix) e =>
        (st.1 + e.nrInEq, st.2.setBlock st.1 0 e.nrInEq nv e.AInEq)) (0, M)).2 ∧
    (es.foldl QPSolver.inEqStep s).B2 =
      (es.foldl (fun (st : Nat × Vec) e =>
        (st.1 + e.nrInEq, Vec.setSegment st.2 st.1 e.nrInEq (Vec.head e.BInEq e.nrInEq)))
        (0, v)).2 := by
  subst hnv hM hv
  have h := foldl_inEqStep_stack es s
  rw [hn] at h
  exact h

/-- Equality storage after preUpdate, as the stacking started from zeroed storage. -/
theorem preUpdate_eq_storage (s : QPSolver) :
    (QPSolver.preUpdate s).nrEq =
      (s.eqConstr.foldl (fun (st : Nat × Matrix) e =>
        (st.1 + e.nrEq, st.2.setBlock st.1 0 e.nrEq s.data.nrVars e.AEq))
        (0, s.A1.setZero)).1 ∧
    (QPSolver.preUpdate s).A1 =
      (s.eqConstr.foldl (fun (st : Nat × Matrix) e =>
        (st.1 + e.nrEq, st.2.setBlock st.1 0 e.nrEq s.data.nrVars e.AEq))
        (0, s.A1.setZero)).2 ∧
    (QPSolver.preUpdate s).B1 =
      (s.eqConstr.foldl (fun (st : Nat × Vec) e =>
        (st.1 + e.nrEq, Vec.setSegment st.2 st.1 e.nrEq (Vec.head e.BEq e.nrEq)))
        (0, Vec.fill s.B1 0)).2 := by
  unfold QPSolver.preUpdate QPSolver.regularize QPSolver.preUpdateFill
  simp only
  rw [foldl_keep QPSolver.taskStep (fun s => s.nrEq) (fun _ _ => rfl),
      foldl_keep QPSolver.taskStep (fun s => s.A1) (fun _ _ => rfl),
      foldl_keep QPSolver.taskStep (fun s => s.B1) (fun _ _ => rfl),
      foldl_keep QPSolver.boundStep (fun s => s.nrEq) (fun _ _ => rfl),
      foldl_keep QPSolver.boundStep (fun s => s.A1) (fun _ _ => rfl),
      foldl_keep QPSolver.boundStep (fun s => s.B1) (fun _ _ => rfl),
      foldl_keep QPSolver.inEqStep (fun s => s.nrEq) (fun _ _ => rfl),
      foldl_keep QPSolver.inEqStep (fun s => s.A1) (fun _ _ => rfl),
      foldl_keep QPSolver.inEqStep (fun s => s.B1) (fun _ _ => rfl)]
  exact foldl_eqStep_stack s.eqConstr _

/-- Inequality storage after preUpdate, as the stacking started from zeroed storage. -/
theorem preUpdate_inEq_storage (s : QPSolver) :
    (QPSolver.preUpdate s).nrInEq =
      (s.inEqConstr.foldl (fun (st : Nat × Matrix) e =>
        (st.1 + e.nrInEq, st.2.setBlock st.1 0 e.nrInEq s.data.nrVars e.AInEq))
        (0, s.A2.setZero)).1 ∧
    (QPSolver.preUpdate s).A2 =
      (s.inEqConstr.foldl (fun (st : Nat × Matrix) e =>
        (st.1 + e.nrInEq, st.2.setBlock st.1 0 e.nrInEq s.data.nrVars e.AInEq))
        (0, s.A2.setZero)).2 ∧
    (QPSolver.preUpdate s).B2 =
      (s.inEqConstr.foldl (fun (st : Nat × Vec) e =>
        (st.1 + e.nrInEq, Vec.setSegment st.2 st.1 e.nrInEq (Vec.head e.BInEq e.nrInEq)))
        (0, Vec.fill s.B2 0)).2 := by
  unfold QPSolver.preUpdate QPSolver.regularize QPSolver.preUpdateFill
  simp only
  rw [foldl_keep QPSolver.taskStep (fun s => s.nrInEq) (fun _ _ => rfl),
      foldl_keep QPSolver.taskStep (fun s => s.A2) (fun _ _ => rfl),
      foldl_keep QPSolver.taskStep (fun s => s.B2) (fun _ _ => rfl),
      foldl_keep QPSolver.boundStep (fun s => s.nrInEq) (fun _ _ => rfl),
      foldl_keep QPSolver.boundStep (fun s => s.A2) (fun _ _ => rfl),
      foldl_keep QPSolver.boundStep (fun s => s.B2) (fun _ _ => rfl)]
  exact foldl_inEqStep_stack_from s.inEqConstr _ s.data.nrVars s.A2.setZero (Vec.fill s.B2 0)
    (congrArg QPSolverData.nrVars
      (foldl_keep QPSolver.eqStep (fun s => s.data) (fun _ _ => rfl) s.eqConstr _))
    rfl
    (foldl_keep QPSolver.eqStep (fun s => s.A2) (fun _ _ => rfl) s.eqConstr _)
    (foldl_keep QPSolver.eqStep (fun s => s.B2) (fun _ _ => rfl) s.eqConstr _)

/-- C16. Constraint stacking: with storage b1 (A1) of (sum of maxEq) rows and equality
constraints reporting nrEq_i <= maxEq_i rows with nrVars columns, after preUpdate nrEq is
the sum of the nrEq_i, the rows [off_i, off_i + nrEq_i) of A1 and b1 are the first
nrEq_i rows of AEq_i and BEq_i, off_i being the sum of the nrEq_j of the constraints
registered before i, and every row of A1 and b1 at index >= nrEq is zero; likewise for
the inequality constraints with A2, b2, nrInEq, AInEq, BInEq. -/
theorem constraint_stacking (s : QPSolver)
    (hB1 : s.B1.length = (s.eqConstr.map Equality.maxEq).sum)
    (_hA1 : s.A1.rows = (s.eqConstr.map Equality.maxEq).sum ∧ s.A1.cols = s.data.nrVars)
    (hB2 : s.B2.length = (s.inEqConstr.map Inequality.maxInEq).sum)
    (_hA2 : s.A2.rows = (s.inEqConstr.map Inequality.maxInEq).sum ∧ s.A2.cols = s.data.nrVars)
    (heq : ∀ e ∈ s.eqConstr, e.nrEq ≤ e.maxEq ∧ e.nrEq ≤ e.BEq.length ∧
      e.nrEq ≤ e.AEq.rows ∧ e.AEq.cols = s.data.nrVars)
    (hin : ∀ e ∈ s.inEqConstr, e.nrInEq ≤ e.maxInEq ∧ e.nrInEq ≤ e.BInEq.length ∧
      e.nrInEq ≤ e.AInEq.rows ∧ e.AInEq.cols = s.data.nrVars) :
    ((QPSolver.preUpdate s).nrEq = (s.eqConstr.map Equality.nrEq).sum ∧
      (∀ k e, s.eqConstr[k]? = some e → ∀ r, r < e.nrEq →
        (∀ j, j < s.data.nrVars →
          (QPSolver.preUpdate s).A1.coeff (rowOffset (s.eqConstr.map Equality.nrEq) k + r) j
            = e.AEq.coeff r j) ∧
        (QPSolver.preUpdate s).B1[rowOffset (s.eqConstr.map Equality.nrEq) k + r]?
          = some (e.BEq.getD r 0)) ∧
      (∀ r, (QPSolver.preUpdate s).nrEq ≤ r →
        (∀ j, (QPSolver.preUpdate s).A1.coeff r j = 0) ∧
        (r < s.B1.length → (QPSolver.preUpdate s).B1[r]? = some 0))) ∧
    ((QPSolver.preUpdate s).nrInEq = (s.inEqConstr.map Inequality.nrInEq).sum ∧
      (∀ k e, s.inEqConstr[k]? = some e → ∀ r, r < e.nrInEq →
        (∀ j, j < s.data.nrVars →
          (QPSolver.preUpdate s).A2.coeff (rowOffset (s.inEqConstr.map Inequality.nrInEq) k + r) j
            = e.AInEq.coeff r j) ∧
        (QPSolver.preUpdate s).B2[rowOffset (s.inEqConstr.map Inequality.nrInEq) k + r]?
          = some (e.BInEq.getD r 0)) ∧
      (∀ r, (QPSolver.preUpdate s).nrInEq ≤ r →
        (∀ j, (QPSolver.preUpdate s).A2.coeff r j = 0) ∧
        (r < s.B2.length → (QPSolver.preUpdate s).B2[r]? = some 0))) := by
  have hfill : ∀ (v : Vec) (r : Nat), r < v.length → (Vec.fill v 0)[r]? = some 0 := by
    intro v r hr
    unfold Vec.fill
    rw [List.getElem?_eq_getElem (by rw [List.length_replicate]; exact hr)]
    simp
  constructor
  · obtain ⟨hn, hA, hB⟩ := preUpdate_eq_storage s
    obtain ⟨m1, m2, m3⟩ := foldl_stack_matrix Equality.nrEq Equality.AEq s.data.nrVars
      s.eqConstr 0 s.A1.setZero
    obtain ⟨v2, v3⟩ := foldl_stack_vec Equality.nrEq Equality.BEq s.eqConstr 0 (Vec.fill s.B1 0)
    have hle : (s.eqConstr.map Equality.nrEq).sum ≤ (s.eqConstr.map Equality.maxEq).sum :=
      sum_map_le_sum_map _ _ _ (fun e he => (heq e he).1)
    rw [hn, hA, hB, m1, Nat.zero_add]
    refine ⟨rfl, ?_, ?_⟩
    · intro k e hk r hr
      constructor
      · intro j hj
        have := m3 k e hk r j hr hj
        rwa [Nat.zero_add] at this
      · have hoff := rowOffset_add_le Equality.nrEq s.eqConstr k e hk
        have := v3 k e hk r hr (by have := (heq e (List.getElem?_mem hk)).2.1; omega)
          (by unfold Vec.fill; rw [List.length_replicate, hB1]; omega)
        rwa [Nat.zero_add] at this
    · intro r hr
      constructor
      · intro j
        rw [m2 r j (Or.inr (by omega))]
        rfl
      · intro hlt
        rw [v2 r (Or.inr (by omega))]
        exact hfill _ _ hlt
  · obtain ⟨hn, hA, hB⟩ := preUpdate_inEq_storage s
    obtain ⟨m1, m2, m3⟩ := foldl_stack_matrix Inequality.nrInEq Inequality.AInEq s.data.nrVars
      s.inEqConstr 0 s.A2.setZero
    obtain ⟨v2, v3⟩ := foldl_stack_vec Inequality.nrInEq Inequality.BInEq s.inEqConstr 0
      (Vec.fill s.B2 0)
    have hle : (s.inEqConstr.map Inequality.nrInEq).sum
        ≤ (s.inEqConstr.map Inequality.maxInEq).sum :=
      sum_map_le_sum_map _ _ _ (fun e he => (hin e he).1)
    rw [hn, hA, hB, m1, Nat.zero_add]
    refine ⟨rfl, ?_, ?_⟩
    · intro k e hk r hr
      constructor
      · intro j hj
        have := m3 k e hk r j hr hj
        rwa [Nat.zero_add] at this
      · have hoff := rowOffset_add_le Inequality.nrInEq s.inEqConstr k e hk
        have := v3 k e hk r hr (by have := (hin e (List.getElem?_mem hk)).2.1; omega)
          (by unfold Vec.fill; rw [List.length_replicate, hB2]; omega)
        rwa [Nat.zero_add] at this
    · intro r hr
      constructor
      · intro j
        rw [m2 r j (Or.inr (by omega))]
        rfl
      · intro hlt
        rw [v2 r (Or.inr (by omega))]
        exact hfill _ _ hlt

/-- Witness for C16: constraint A reports two of its three rows, constraint B one of
its two; the row of B lands at offset 2 and the total is three rows. -/
theorem constraint_stacking_witness :
    (exSolverStack.B1.length = (exSolverStack.eqConstr.map Equality.maxEq).sum ∧
      exSolverStack.eqConstr[1]? = some exEqB ∧ 0 < exEqB.nrEq) ∧
    (QPSolver.preUpdate exSolverStack).nrEq = 3 ∧
    (QPSolver.preUpdate exSolverStack).B1[2]? = some 9 := by
  have h := constraint_stacking exSolverStack (by decide) (by decide) (by decide) (by decide)
    (by decide) (by decide)
  exact ⟨⟨by decide, rfl, by decide⟩, h.1.1, (h.1.2.1 1 exEqB rfl 0 (by decide)).2⟩

/-! ## The empty problem -/

theorem diagLoop_dims (Q : Matrix) (n : Nat) :
    ((List.range n).foldl QPSolver.diagStep Q).rows = Q.rows ∧
    ((List.range n).foldl QPSolver.diagStep Q).cols = Q.cols := by
  induction n with
  | zero => exact ⟨rfl, rfl⟩
  | succ n ih =>
    rw [List.range_succ, List.foldl_append, List.foldl_cons, List.foldl_nil]
    unfold QPSolver.diagStep
    split_ifs
    · exact ih
    · exact ih

theorem quad_diag_sum (n : Nat) (D : ℚ) (x : Nat → ℚ) :
    (∑ i ∈ Finset.range n, ∑ j ∈ Finset.range n, x i * (if i = j then D else 0) * x j)
      = D * ∑ i ∈ Finset.range n, x i ^ 2 := by
  rw [Finset.mul_sum]
  apply Finset.sum_congr rfl
  intro i hi
  rw [Finset.sum_eq_single i]
  · rw [if_pos rfl]
    ring
  · intro j _ hji
    rw [if_neg (fun h => hji h.symm)]
    ring
  · intro h
    exact absurd hi h

theorem sum_sq_eq_zero (n : Nat) (x : Nat → ℚ)
    (h : (∑ i ∈ Finset.range n, x i ^ 2) ≤ 0) : ∀ i, i < n → x i = 0 := by
  have hnn : ∀ i ∈ Finset.range n, 0 ≤ x i ^ 2 := fun i _ => sq_nonneg (x i)
  have h0 : (∑ i ∈ Finset.range n, x i ^ 2) = 0 :=
    le_antisymm h (Finset.sum_nonneg hnn)
  intro i hi
  have := (Finset.sum_eq_zero_iff_of_nonneg hnn).mp h0 i (Finset.mem_range.mpr hi)
  exact pow_eq_zero_iff (two_ne_zero) |>.mp this

theorem eq_replicate_zero (x : Vec) (n : Nat) (hlen : x.length = n)
    (h : ∀ i, i < n → x.getD i 0 = 0) : x = List.replicate n 0 := by
  apply List.ext_getElem
  · rw [hlen, List.length_replicate]
  · intro i h1 h2
    have := h i (by omega)
    rw [List.getD_eq_getElem _ _ h1] at this
    rw [this]
    simp

/-- Assembled problem when nothing is registered. -/
theorem empty_assembled (s : QPSolver) (hT : s.tasks = []) (hE : s.eqConstr = [])
    (hI : s.inEqConstr = []) (hB : s.boundConstr = []) :
    ((QPSolver.preUpdate s).Q.rows = s.Q.rows ∧ (QPSolver.preUpdate s).Q.cols = s.Q.cols) ∧
    (∀ i j, i < s.data.nrVars →
      (QPSolver.preUpdate s).Q.coeff i j = if i = j then DIAG_CONSTANT else 0) ∧
    (QPSolver.preUpdate s).C = List.replicate s.C.length 0 ∧
    (QPSolver.preUpdate s).nrEq = 0 ∧ (QPSolver.preUpdate s).nrInEq = 0 ∧
    (QPSolver.preUpdate s).XL = List.replicate s.XL.length BoundVal.negInf ∧
    (QPSolver.preUpdate s).XU = List.replicate s.XU.length BoundVal.posInf := by
  have hD : |(0 : ℚ)| < DIAG_CONSTANT := by norm_num [DIAG_CONSTANT]
  have hQ : (QPSolver.preUpdateFill s).Q = s.Q.setZero := by
    rw [preUpdateFill_Q, hT]
    rfl
  have hC : (QPSolver.preUpdate s).C = (QPSolver.preUpdateFill s).C := rfl
  refine ⟨?_, ?_, ?_, ?_, ?_, ?_, ?_⟩
  · have := diagLoop_dims (QPSolver.preUpdateFill s).Q (QPSolver.preUpdateFill s).data.nrVars
    rw [hQ] at this
    unfold QPSolver.preUpdate QPSolver.regularize
    rw [hQ]
    exact this
  · intro i j hi
    unfold QPSolver.preUpdate QPSolver.regularize
    simp only
    rw [diagLoop_coeff, preUpdateFill_data, hQ]
    simp only [Matrix.setZero, zero_add]
    by_cases hij : i = j
    · rw [if_pos ⟨hij, hi, hD⟩, if_pos hij]
    · rw [if_neg (fun h => hij h.1), if_neg hij]
  · rw [hC, preUpdateFill_C, hT]
    rfl
  · rw [(preUpdate_eq_storage s).1, hE]
    rfl
  · rw [(preUpdate_inEq_storage s).1, hI]
    rfl
  · rw [preUpdate_XL, hB]
    rfl
  · rw [preUpdate_XU, hB]
    rfl

theorem BoundVal_le_free (q : ℚ) :
    BoundVal.le BoundVal.negInf (BoundVal.val q) ∧ BoundVal.le (BoundVal.val q) BoundVal.posInf := by
  constructor <;> simp [BoundVal.le]

/-- In the empty problem every vector of nrVars entries is feasible and the cost is
1e-5 / 2 times the sum of the squared entries. -/
theorem empty_problem_cost (s : QPSolver) (hT : s.tasks = []) (hE : s.eqConstr = [])
    (hI : s.inEqConstr = []) (hB : s.boundConstr = []) (x : Vec) :
    (qpFeasible (QPSolver.preUpdate s) x ↔ x.length = s.data.nrVars) ∧
    qpObjective (QPSolver.preUpdate s) x =
      DIAG_CONSTANT / 2 * ∑ i ∈ Finset.range s.data.nrVars, (x.getD i 0) ^ 2 := by
  obtain ⟨_, hQ, hC, hn1, hn2, hXL, hXU⟩ := empty_assembled s hT hE hI hB
  constructor
  · unfold qpFeasible
    rw [preUpdate_data, hn1, hn2, hXL, hXU]
    constructor
    · exact fun h => h.1
    · intro h
      refine ⟨h, fun r hr => absurd hr (Nat.not_lt_zero r),
        fun r hr => absurd hr (Nat.not_lt_zero r), ?_⟩
      intro j _
      have h1 : (List.replicate s.XL.length BoundVal.negInf).getD j BoundVal.negInf
          = BoundVal.negInf := by
        simp only [List.getD_eq_getElem?_getD, List.getElem?_replicate]
        split_ifs <;> rfl
      have h2 : (List.replicate s.XU.length BoundVal.posInf).getD j BoundVal.posInf
          = BoundVal.posInf := by
        simp only [List.getD_eq_getElem?_getD, List.getElem?_replicate]
        split_ifs <;> rfl
      rw [h1, h2]
      exact BoundVal_le_free _
  · unfold qpObjective
    rw [preUpdate_data, hC]
    have hq : (∑ i ∈ Finset.range s.data.nrVars, ∑ j ∈ Finset.range s.data.nrVars,
        x.getD i 0 * (QPSolver.preUpdate s).Q.coeff i j * x.getD j 0)
        = ∑ i ∈ Finset.range s.data.nrVars, ∑ j ∈ Finset.range s.data.nrVars,
            x.getD i 0 * (if i = j then DIAG_CONSTANT else 0) * x.getD j 0 := by
      apply Finset.sum_congr rfl
      intro i hi
      apply Finset.sum_congr rfl
      intro j _
      rw [hQ i j (Finset.mem_range.mp hi)]
    have hc : (∑ i ∈ Finset.range s.data.nrVars,
        (List.replicate s.C.length (0 : ℚ)).getD i 0 * x.getD i 0) = 0 := by
      apply Finset.sum_eq_zero
      intro i _
      have : (List.replicate s.C.length (0 : ℚ)).getD i 0 = 0 := by
        simp only [List.getD_eq_getElem?_getD, List.getElem?_replicate]
        split_ifs <;> rfl
      rw [this, zero_mul]
    rw [hq, hc, quad_diag_sum]
    ring

theorem empty_problem_minimizer (s : QPSolver) (hT : s.tasks = []) (hE : s.eqConstr = [])
    (hI : s.inEqConstr = []) (hB : s.boundConstr = []) (x : Vec) :
    qpMinimizer (QPSolver.preUpdate s) x ↔ x = List.replicate s.data.nrVars 0 := by
  have hD : (0 : ℚ) < DIAG_CONSTANT / 2 := by norm_num [DIAG_CONSTANT]
  have hzero : (∑ i ∈ Finset.range s.data.nrVars,
      ((List.replicate s.data.nrVars (0 : ℚ)).getD i 0) ^ 2) = 0 := by
    apply Finset.sum_eq_zero
    intro i _
    have : (List.replicate s.data.nrVars (0 : ℚ)).getD i 0 = 0 := by
      simp only [List.getD_eq_getElem?_getD, List.getElem?_replicate]
      split_ifs <;> rfl
    rw [this]
    norm_num
  constructor
  · rintro ⟨hf, hmin⟩
    have hlen := (empty_problem_cost s hT hE hI hB x).1.mp hf
    have hz : qpFeasible (QPSolver.preUpdate s) (List.replicate s.data.nrVars 0) :=
      (empty_problem_cost s hT hE hI hB _).1.mpr (List.length_replicate _ _)
    have hle := hmin _ hz
    rw [(empty_problem_cost s hT hE hI hB x).2, (empty_problem_cost s hT hE hI hB _).2,
      hzero, mul_zero] at hle
    have hsum : (∑ i ∈ Finset.range s.data.nrVars, (x.getD i 0) ^ 2) ≤ 0 := by
      by_contra hpos
      have := mul_pos hD (not_le.mp hpos)
      linarith
    exact eq_replicate_zero x _ hlen
      (sum_sq_eq_zero s.data.nrVars (fun i => x.getD i 0) hsum)
  · intro hx
    subst hx
    refine ⟨(empty_problem_cost s hT hE hI hB _).1.mpr (List.length_replicate _ _), ?_⟩
    intro y _
    rw [(empty_problem_cost s hT hE hI hB y).2, (empty_problem_cost s hT hE hI hB _).2,
      hzero, mul_zero]
    exact mul_nonneg (le_of_lt hD) (Finset.sum_nonneg (fun i _ => sq_nonneg _))

/-- C11. Empty problem: with no task and no equality, inequality or bound constraint
registered, and storage sized for the problem structure, preUpdate yields Q = 1e-5 *
Identity (nrVars x nrVars), c = 0, nrEq = nrInEq = 0, every lower bound minus infinity
and every upper bound plus infinity; x = 0 is the unique minimizer of 1/2 x^T Q x +
c^T x over the feasible set; and when the back-end reports success with a minimizer of
the problem it was given, the result cached by update is x = 0. -/
theorem empty_problem (s : QPSolver) (hT : s.tasks = []) (hE : s.eqConstr = [])
    (hI : s.inEqConstr = []) (hB : s.boundConstr = [])
    (hQ : s.Q.rows = s.data.nrVars ∧ s.Q.cols = s.data.nrVars)
    (hC : s.C.length = s.data.nrVars)
    (hXL : s.XL.length = s.data.nrVars) (hXU : s.XU.length = s.data.nrVars) :
    ((QPSolver.preUpdate s).Q.rows = s.data.nrVars ∧
      (QPSolver.preUpdate s).Q.cols = s.data.nrVars ∧
      ∀ i j, i < s.data.nrVars → j < s.data.nrVars →
        (QPSolver.preUpdate s).Q.coeff i j = DIAG_CONSTANT * (if i = j then 1 else 0)) ∧
    (QPSolver.preUpdate s).C = List.replicate s.data.nrVars 0 ∧
    (QPSolver.preUpdate s).nrEq = 0 ∧ (QPSolver.preUpdate s).nrInEq = 0 ∧
    (QPSolver.preUpdate s).XL = List.replicate s.data.nrVars BoundVal.negInf ∧
    (QPSolver.preUpdate s).XU = List.replicate s.data.nrVars BoundVal.posInf ∧
    (∀ x, qpMinimizer (QPSolver.preUpdate s) x ↔ x = List.replicate s.data.nrVars 0) ∧
    (∀ (kin : Kinematics) (lssol : QPSolver → Bool × Vec) (mb : MultiBody)
        (mbc : MultiBodyConfig) (step : ℚ),
      (lssol (QPSolver.preUpdate s)).1 = true →
      qpMinimizer (QPSolver.preUpdate s) (lssol (QPSolver.preUpdate s)).2 →
      (QPSolver.update kin lssol s mb mbc step).1 = true ∧
      (QPSolver.update kin lssol s mb mbc step).2.1.result
        = List.replicate s.data.nrVars 0) := by
  obtain ⟨hdims, hcoef, hc, hn1, hn2, hxl, hxu⟩ := empty_assembled s hT hE hI hB
  refine ⟨⟨hdims.1.trans hQ.1, hdims.2.trans hQ.2, ?_⟩, by rw [hc, hC], hn1, hn2,
    by rw [hxl, hXL], by rw [hxu, hXU], empty_problem_minimizer s hT hE hI hB, ?_⟩
  · intro i j hi _
    rw [hcoef i j hi]
    split_ifs <;> ring
  · intro kin lssol mb mbc step hok hmin
    have hres := (update_sizes kin lssol s mb mbc step).2
    have hflag : (QPSolver.update kin lssol s mb mbc step).1
        = (lssol (QPSolver.preUpdate s)).1 := rfl
    rw [hflag] at hres ⊢
    refine ⟨hok, ?_⟩
    rw [hres hok]
    exact (empty_problem_minimizer s hT hE hI hB _).mp hmin

/-- Witness for C11: the two-DoF arm with nothing registered. -/
theorem empty_problem_witness :
    (exSolverArm2.tasks = [] ∧ exSolverArm2.eqConstr = [] ∧ exSolverArm2.inEqConstr = [] ∧
      exSolverArm2.boundConstr = [] ∧
      (exSolverArm2.Q.rows = exSolverArm2.data.nrVars ∧
        exSolverArm2.Q.cols = exSolverArm2.data.nrVars) ∧
      exSolverArm2.C.length = exSolverArm2.data.nrVars ∧
      exSolverArm2.XL.length = exSolverArm2.data.nrVars ∧
      exSolverArm2.XU.length = exSolverArm2.data.nrVars) ∧
    (QPSolver.preUpdate exSolverArm2).C = [0, 0, 0, 0] ∧
    (QPSolver.preUpdate exSolverArm2).nrEq = 0 ∧
    (QPSolver.preUpdate exSolverArm2).XL
      = [BoundVal.negInf, BoundVal.negInf, BoundVal.negInf, BoundVal.negInf] := by
  have h := empty_problem exSolverArm2 rfl rfl rfl rfl (by decide) (by decide) (by decide)
    (by decide)
  exact ⟨⟨rfl, rfl, rfl, rfl, by decide, by decide, by decide, by decide⟩,
    h.2.1, h.2.2.1, h.2.2.2.2.1⟩

/-! ## Manipulated-body split -/

/-- C15. The code at the failing input: a robot-to-manipulated-body contact without
contact point gives lambdaManip = 0, so alphaD stays at nDoF = 8, yet postUpdate takes
the manipulated-body branch because the contact list is not empty: the robot receives
the head of length alphaD - 6 = 2 instead of 8 entries, and the entries 2..7 of the
solution, which are robot accelerations, go to the manipulated body. -/
theorem manip_split_mismatch :
    exSolverNoPoint.data.lambdaManip = 0 ∧
    exSolverNoPoint.data.alphaD = exFloat.nrDof ∧ exFloat.nrDof = 8 ∧
    exSolverNoPoint.data.robotToManipBodyContacts.length = 1 ∧
    exNoPointUpdate.1 = true ∧
    (Vec.head exNoPointUpdate.2.1.res (exNoPointUpdate.2.1.data.alphaD - 6)).length = 2 ∧
    exNoPointUpdate.2.1.manipBodyConfig.alphaD = [[12, 13, 14, 15, 16, 17]] := by
  refine ⟨by decide, by decide, by decide, by decide, rfl, by decide, by decide⟩

/-! ## Posture task -/

theorem zeroDiag_fold (M : Matrix) (n a b : Nat) :
    (((List.range n).foldl (fun M i => M.set i i 0) M).rows = M.rows ∧
      ((List.range n).foldl (fun M i => M.set i i 0) M).cols = M.cols) ∧
    ((List.range n).foldl (fun M i => M.set i i 0) M).coeff a b =
      if a = b ∧ a < n then 0 else M.coeff a b := by
  induction n with
  | zero => simp
  | succ n ih =>
    rw [List.range_succ, List.foldl_append, List.foldl_cons, List.foldl_nil]
    refine ⟨ih.1, ?_⟩
    have hs : ∀ (X : Matrix), (X.set n n 0).coeff a b =
        if a = n ∧ b = n then 0 else X.coeff a b := fun _ => rfl
    rw [hs, ih.2]
    by_cases h1 : a = n ∧ b = n
    · rw [if_pos h1, if_pos ⟨h1.1.trans h1.2.symm, by omega⟩]
    · rw [if_neg h1]
      by_cases h2 : a = b ∧ a < n
      · rw [if_pos h2, if_pos ⟨h2.1, by omega⟩]
      · rw [if_neg h2, if_neg]
        rintro ⟨hab, hlt⟩
        have : a ≠ n := fun han => h1 ⟨han, hab ▸ han⟩
        exact h2 ⟨hab, by omega⟩

/-- Jacobian built by the constructor of the posture task, for every robot. -/
theorem PostureTask_new_jac (mb : MultiBody) (q : List (List ℚ)) :
    ((PostureTask.new mb q).jacMat.rows = mb.nrDof ∧
      (PostureTask.new mb q).jacMat.cols = mb.nrDof) ∧
    ∀ i j, (PostureTask.new mb q).jacMat.coeff i j =
      if i = j ∧ ¬ (0 < mb.nrDof ∧ mb.joint0.type = JointType.Free ∧ i < 6) then 1 else 0 := by
  unfold PostureTask.new
  simp only
  by_cases h : 0 < mb.nrDof ∧ mb.joint0.type = JointType.Free
  · rw [if_pos h]
    refine ⟨(zeroDiag_fold _ 6 0 0).1, ?_⟩
    intro i j
    rw [(zeroDiag_fold _ 6 i j).2]
    simp only [Matrix.setIdentity]
    by_cases hij : i = j
    · by_cases h6 : i < 6
      · rw [if_pos ⟨hij, h6⟩, if_neg (fun hh => hh.2 ⟨h.1, h.2, h6⟩)]
      · rw [if_neg (fun hh => h6 hh.2), if_pos hij, if_pos ⟨hij, fun hh => h6 hh.2.2⟩]
    · rw [if_neg (fun hh => hij hh.1), if_neg hij, if_neg (fun hh => hij hh.1)]
  · rw [if_neg h]
    refine ⟨⟨rfl, rfl⟩, ?_⟩
    intro i j
    simp only [Matrix.setIdentity]
    by_cases hij : i = j
    · rw [if_pos hij, if_pos ⟨hij, fun hh => h ⟨hh.1, hh.2.1⟩⟩]
    · rw [if_neg hij, if_neg (fun hh => hij hh.1)]

/-- C14, amended. The Jacobian of the posture task is nDoF x nDoF; for a robot whose
root joint is a free-flyer or has no DoF (fixed base) it is the identity on the block of
the non-root joints with every row and column of the root DoF zero; for a root joint of
any other type it is the full identity. -/
theorem posture_jacobian (mb : MultiBody) (q : List (List ℚ)) :
    ((PostureTask.new mb q).jacMat.rows = mb.nrDof ∧
      (PostureTask.new mb q).jacMat.cols = mb.nrDof) ∧
    ((mb.joint0.type = JointType.Free ∨ mb.joint0.dof = 0) →
      ∀ i j, (PostureTask.new mb q).jacMat.coeff i j =
        if i = j ∧ mb.joint0.dof ≤ i then 1 else 0) ∧
    (mb.joint0.type ≠ JointType.Free →
      ∀ i j, (PostureTask.new mb q).jacMat.coeff i j = if i = j then 1 else 0) := by
  obtain ⟨hdims, hc⟩ := PostureTask_new_jac mb q
  refine ⟨hdims, ?_, ?_⟩
  · intro hroot i j
    rw [hc]
    rcases hroot with hfree | hfix
    · have hdof : mb.joint0.dof = 6 := by
        unfold Joint.dof
        rw [hfree]
      have hpos : 0 < mb.nrDof := by
        have := root_dof_le_nrDof mb
        omega
      rw [hdof]
      by_cases hij : i = j
      · by_cases h6 : i < 6
        · rw [if_neg (fun hh => hh.2 ⟨hpos, hfree, h6⟩), if_neg (fun hh => by omega)]
        · rw [if_pos ⟨hij, fun hh => h6 hh.2.2⟩, if_pos ⟨hij, by omega⟩]
      · rw [if_neg (fun hh => hij hh.1), if_neg (fun hh => hij hh.1)]
    · have hnf : mb.joint0.type ≠ JointType.Free := by
        intro hfree
        unfold Joint.dof at hfix
        rw [hfree] at hfix
        exact absurd hfix (by decide)
      rw [hfix]
      by_cases hij : i = j
      · rw [if_pos ⟨hij, fun hh => hnf hh.2.1⟩, if_pos ⟨hij, Nat.zero_le i⟩]
      · rw [if_neg (fun hh => hij hh.1), if_neg (fun hh => hij hh.1)]
  · intro hnf i j
    rw [hc]
    by_cases hij : i = j
    · rw [if_pos ⟨hij, fun hh => hnf hh.2.1⟩, if_pos hij]
    · rw [if_neg (fun hh => hij hh.1), if_neg hij]

/-- Witness for C14 amended: on the floating-base robot the entry (0,0) of the root
block is 0 and the entry (6,6) of the first actuated joint is 1. -/
theorem posture_jacobian_witness :
    (exFloat.joint0.type = JointType.Free ∨ exFloat.joint0.dof = 0) ∧
    (PostureTask.new exFloat []).jacMat.coeff 0 0 = 0 ∧
    (PostureTask.new exFloat []).jacMat.coeff 6 6 = 1 :=
  ⟨Or.inl rfl, (posture_jacobian exFloat []).2.1 (Or.inl rfl) 0 0,
   (posture_jacobian exFloat []).2.1 (Or.inl rfl) 6 6⟩

/-- C14 as stated fails: with a revolute root joint (1 DoF) the row and column 0 of the
Jacobian belong to the root joint, and the entry (0,0) is 1, not 0. -/
theorem posture_jacobian_counterexample :
    exRevRoot.joint0.dof = 1 ∧
    (PostureTask.new exRevRoot [[0], [0]]).jacMat.coeff 0 0 = 1 ∧
    ¬ ((PostureTask.new exRevRoot [[0], [0]]).jacMat.coeff 0 0 = 0) := by
  have h : (PostureTask.new exRevRoot [[0], [0]]).jacMat.coeff 0 0 = 1 := by
    rw [(PostureTask_new_jac exRevRoot [[0], [0]]).2]
    rw [if_pos]
    exact ⟨rfl, by decide⟩
  refine ⟨rfl, h, ?_⟩
  rw [h]
  norm_num

theorem updateLoop_frame (mb : MultiBody) (qDes q : List (List ℚ)) (rotErr : Nat → Vec)
    (is : List Nat) (pos : Nat) (ev : Vec) :
    (PostureTask.updateLoop mb qDes q rotErr is pos ev).length = ev.length ∧
    ∀ p, p < pos → (PostureTask.updateLoop mb qDes q rotErr is pos ev)[p]? = ev[p]? := by
  induction is generalizing pos ev with
  | nil => exact ⟨rfl, fun _ _ => rfl⟩
  | cons k rest ih =>
    unfold PostureTask.updateLoop
    split_ifs with h1 h4
    · obtain ⟨hl, hp⟩ := ih (pos + 1)
        (ev.set pos ((qDes.getD k []).getD 0 0 - (q.getD k []).getD 0 0))
      refine ⟨by rw [hl, List.length_set], ?_⟩
      intro p hpp
      rw [hp p (by omega), List.getElem?_set_ne (by omega)]
    · obtain ⟨hl, hp⟩ := ih (pos + 3) (Vec.setSegment ev pos 3 (rotErr k))
      refine ⟨by rw [hl, setSegment_length], ?_⟩
      intro p hpp
      rw [hp p (by omega), setSegment_getElem?, if_neg (by omega)]
    · exact ih pos ev

/-- Entry written for a 1-DoF joint when the joints visited before it have at most
one DoF: it sits at the start position plus the DoF of those joints. -/
theorem updateLoop_entry (mb : MultiBody) (qDes q : List (List ℚ)) (rotErr : Nat → Vec)
    (is : List Nat) (pos : Nat) (ev : Vec) (m i : Nat) (hm : is[m]? = some i)
    (hi : (mb.joint i).dof = 1) (hbefore : ∀ k ∈ is.take m, (mb.joint k).dof ≤ 1)
    (hlen : pos + ((is.take m).map (fun k => (mb.joint k).dof)).sum < ev.length) :
    (PostureTask.updateLoop mb qDes q rotErr is pos ev)[pos
        + ((is.take m).map (fun k => (mb.joint k).dof)).sum]?
      = some ((qDes.getD i []).getD 0 0 - (q.getD i []).getD 0 0) := by
  induction is generalizing pos ev m with
  | nil => simp at hm
  | cons k rest ih =>
    cases m with
    | zero =>
      simp only [List.getElem?_cons_zero, Option.some.injEq] at hm
      subst hm
      simp only [List.take_zero, List.map_nil, List.sum_nil, Nat.add_zero] at hlen ⊢
      unfold PostureTask.updateLoop
      rw [if_pos hi, (updateLoop_frame mb qDes q rotErr rest (pos + 1) _).2 pos (by omega),
        List.getElem?_set_self hlen]
    | succ m =>
      simp only [List.getElem?_cons_succ] at hm
      simp only [List.take_succ_cons, List.map_cons, List.sum_cons] at hlen ⊢
      have hk : (mb.joint k).dof ≤ 1 := hbefore k (by simp)
      have hrest : ∀ x ∈ rest.take m, (mb.joint x).dof ≤ 1 :=
        fun x hx => hbefore x (by simp [hx])
      unfold PostureTask.updateLoop
      by_cases h1 : (mb.joint k).dof = 1
      · rw [if_pos h1]
        have := ih (pos + 1) (ev.set pos ((qDes.getD k []).getD 0 0 - (q.getD k []).getD 0 0))
          m hm hrest (by rw [List.length_set]; omega)
        rw [← this]
        congr 1
        omega
      · have h0 : (mb.joint k).dof = 0 := by omega
        rw [if_neg h1, if_neg (by omega)]
        have := ih pos ev m hm hrest (by omega)
        rw [← this]
        congr 1
        omega

theorem take_range'_le (s n m : Nat) (h : m ≤ n) :
    (List.range' s n).take m = List.range' s m := by
  induction m generalizing s n with
  | zero => simp
  | succ m ih =>
    obtain ⟨n', rfl⟩ : ∃ n', n = n' + 1 := ⟨n - 1, by omega⟩
    rw [List.range'_succ, List.range'_succ, List.take_succ_cons, ih (s + 1) n' (by omega)]

theorem sum_dof_range (L : List Joint) (m : Nat) (h : m ≤ L.length) :
    ((List.range m).map (fun k => (L.getD k ⟨JointType.Fixed⟩).dof)).sum
      = ((L.take m).map Joint.dof).sum := by
  induction m with
  | zero => simp
  | succ m ih =>
    have hlt : m < L.length := by omega
    rw [List.range_succ, List.map_append, List.sum_append, ih (by omega), List.take_succ,
      List.map_append, List.sum_append, List.getElem?_eq_getElem hlt]
    simp only [List.map_cons, List.map_nil, List.getD_eq_getElem _ _ hlt, Option.toList_some]

/-- Position reached by the loop of the posture task after the joints 1 .. m. -/
theorem jointPosInDof_loop (mb : MultiBody) (m : Nat) (h : m ≤ mb.joints.length) :
    mb.jointPosInDof 1 + ((List.range' 1 m).map (fun k => (mb.joint k).dof)).sum
      = mb.jointPosInDof (m + 1) := by
  have h1 : mb.jointPosInDof 1 = mb.root.dof := by
    simp [MultiBody.jointPosInDof]
  have h2 : mb.jointPosInDof (m + 1) = mb.root.dof + ((mb.joints.take m).map Joint.dof).sum := by
    simp [MultiBody.jointPosInDof]
  have h3 : ((List.range' 1 m).map (fun k => (mb.joint k).dof)).sum
      = ((List.range m).map (fun k => (mb.joints.getD k ⟨JointType.Fixed⟩).dof)).sum := by
    rw [List.range'_eq_map_range, List.map_map]
    apply congrArg List.sum
    apply List.map_congr_left
    intro k _
    simp only [Function.comp, MultiBody.joint]
    rw [Nat.add_comm 1 k, List.getD_cons_succ]
  rw [h1, h2, h3, sum_dof_range mb.joints m h]

theorem jointPosInDof_lt (mb : MultiBody) (i : Nat) (hi : i < mb.nrJoints) :
    mb.jointPosInDof i + (mb.joint i).dof ≤ mb.nrDof := by
  have hlt : i < (mb.root :: mb.joints).length := by
    simp only [List.length_cons]
    exact hi
  have hk : (mb.root :: mb.joints)[i]? = some (mb.joint i) := by
    rw [List.getElem?_eq_getElem hlt]
    simp only [MultiBody.joint, List.getD_eq_getElem _ _ hlt]
  have := rowOffset_add_le Joint.dof (mb.root :: mb.joints) i (mb.joint i) hk
  simp only [rowOffset, ← List.map_take, List.map_cons, List.sum_cons] at this
  simpa [MultiBody.jointPosInDof, MultiBody.nrDof] using this

/-- Residual entry of a 1-DoF joint after the update of the posture task. -/
theorem PostureTask_update_entry (t : PostureTask) (mb : MultiBody) (mbc : MultiBodyConfig)
    (rotErr : Nat → Vec) (ht : t.eval.length = mb.nrDof) (i : Nat) (hi1 : 1 ≤ i)
    (hi2 : i < mb.nrJoints) (hdof : (mb.joint i).dof = 1)
    (hbefore : ∀ k, 1 ≤ k → k < i → (mb.joint k).dof ≤ 1) :
    (t.update mb mbc rotErr).eval[mb.jointPosInDof i]?
      = some ((t.q.getD i []).getD 0 0 - (mbc.q.getD i []).getD 0 0) := by
  obtain ⟨m, rfl⟩ : ∃ m, i = m + 1 := ⟨i - 1, by omega⟩
  have hmlt : m < mb.nrJoints - 1 := by omega
  have hmj : m ≤ mb.joints.length := by
    unfold MultiBody.nrJoints at hi2
    omega
  have hidx : (List.range' 1 (mb.nrJoints - 1))[m]? = some (m + 1) := by
    rw [List.getElem?_range' 1 1 hmlt]
    congr 1
    omega
  have htake : (List.range' 1 (mb.nrJoints - 1)).take m = List.range' 1 m :=
    take_range'_le 1 _ m (by omega)
  have hpos := jointPosInDof_loop mb m hmj
  have hin := jointPosInDof_lt mb (m + 1) hi2
  have h := updateLoop_entry mb t.q mbc.q rotErr (List.range' 1 (mb.nrJoints - 1))
    (mb.jointPosInDof 1) t.eval m (m + 1) hidx hdof
    (by
      rw [htake]
      intro k hk
      have := List.mem_range'_1.mp hk
      exact hbefore k this.1 (by omega))
    (by rw [htake, hpos, ht]; omega)
  rw [htake, hpos] at h
  exact h

/-- C13, amended. After PostureTask::update the residual keeps its nDoF entries; the
entry of a non-root 1-DoF joint i, at that joint's position in the DoF vector, is
q_des,i - q_i (desired coordinate minus current coordinate) whenever the non-root
joints before i have at most one DoF; a fixed (0-DoF) joint occupies no entry; and the
entries at the root joint's DoF positions are untouched, so they remain zero from the
constructor on. -/
theorem posture_residual (t : PostureTask) (mb : MultiBody) (mbc : MultiBodyConfig)
    (rotErr : Nat → Vec) (ht : t.eval.length = mb.nrDof) (i : Nat) (hi1 : 1 ≤ i)
    (hi2 : i < mb.nrJoints) :
    (t.update mb mbc rotErr).eval.length = mb.nrDof ∧
    ((mb.joint i).dof = 1 → (∀ k, 1 ≤ k → k < i → (mb.joint k).dof ≤ 1) →
      (t.update mb mbc rotErr).eval[mb.jointPosInDof i]?
        = some ((t.q.getD i []).getD 0 0 - (mbc.q.getD i []).getD 0 0)) ∧
    ((mb.joint i).dof = 0 → mb.jointPosInDof (i + 1) = mb.jointPosInDof i) ∧
    (∀ p, p < mb.joint0.dof → (t.update mb mbc rotErr).eval[p]? = t.eval[p]?) ∧
    (∀ (qd : List (List ℚ)) (p : Nat), p < mb.joint0.dof →
      ((PostureTask.new mb qd).update mb mbc rotErr).eval[p]? = some 0) := by
  have hroot : mb.jointPosInDof 1 = mb.joint0.dof := by
    simp [MultiBody.jointPosInDof, MultiBody.joint0]
  have hframe : ∀ (u : PostureTask) (p : Nat), p < mb.joint0.dof →
      (u.update mb mbc rotErr).eval[p]? = u.eval[p]? := by
    intro u p hp
    unfold PostureTask.update
    exact (updateLoop_frame mb u.q mbc.q rotErr _ _ u.eval).2 p (by rw [hroot]; exact hp)
  refine ⟨?_, ?_, ?_, hframe t, ?_⟩
  · unfold PostureTask.update
    simp only
    rw [(updateLoop_frame mb t.q mbc.q rotErr _ _ t.eval).1, ht]
  · intro hdof hbefore
    exact PostureTask_update_entry t mb mbc rotErr ht i hi1 hi2 hdof hbefore
  · intro h0
    have hlt : i < (mb.root :: mb.joints).length := by
      simp only [List.length_cons]
      exact hi2
    unfold MultiBody.jointPosInDof
    rw [List.take_succ, List.map_append, List.sum_append, List.getElem?_eq_getElem hlt]
    have : (mb.root :: mb.joints)[i] = mb.joint i := by
      simp only [MultiBody.joint, List.getD_eq_getElem _ _ hlt]
    simp only [Option.toList_some, List.map_cons, List.map_nil, List.sum_cons, List.sum_nil,
      this, h0, Nat.add_zero]
  · intro qd p hp
    rw [hframe (PostureTask.new mb qd) p hp]
    have hle := root_dof_le_nrDof mb
    have : (PostureTask.new mb qd).eval = List.replicate mb.nrDof 0 := rfl
    rw [this, List.getElem?_eq_getElem (by rw [List.length_replicate]; omega)]
    simp

/-- Witness for C13 amended: one-joint arm, desired coordinate 1, current coordinate 0;
the entry of the joint is 1 - 0. -/
theorem posture_residual_witness :
    (exPosture.eval.length = exArm1.nrDof ∧ 1 < exArm1.nrJoints ∧
      (exArm1.joint 1).dof = 1) ∧
    (exPosture.update exArm1 exArm1Config (fun _ => [])).eval[exArm1.jointPosInDof 1]?
      = some ((exPosture.q.getD 1 []).getD 0 0 - (exArm1Config.q.getD 1 []).getD 0 0) :=
  ⟨⟨by decide, by decide, by decide⟩,
   (posture_residual exPosture exArm1 exArm1Config (fun _ => []) (by decide) 1
      (Nat.le_refl 1) (by decide)).2.1 (by decide) (fun k h1 h2 => absurd h1 (by omega))⟩

/-- C13 as stated fails: on the one-joint arm with desired coordinate 1 and current
coordinate 0 the residual entry is 1 = q_des - q, not q - q_des = -1. -/
theorem posture_residual_counterexample :
    (exArm1.joint 1).dof = 1 ∧ exArm1.jointPosInDof 1 = 0 ∧
    (exPosture.q.getD 1 []).getD 0 0 = 1 ∧ (exArm1Config.q.getD 1 []).getD 0 0 = 0 ∧
    (exPosture.update exArm1 exArm1Config (fun _ => [])).eval[0]? = some 1 ∧
    ¬ ((exPosture.update exArm1 exArm1Config (fun _ => [])).eval[0]?
        = some ((exArm1Config.q.getD 1 []).getD 0 0 - (exPosture.q.getD 1 []).getD 0 0)) := by
  have hq : (exPosture.q.getD 1 []).getD 0 0 = 1 := rfl
  have hc : (exArm1Config.q.getD 1 []).getD 0 0 = 0 := rfl
  have h := PostureTask_update_entry exPosture exArm1 exArm1Config (fun _ => []) (by decide) 1
    (Nat.le_refl 1) (by decide) (by decide) (fun k h1 h2 => absurd h1 (by omega))
  have hpos : exArm1.jointPosInDof 1 = 0 := by decide
  rw [hpos, hq, hc] at h
  have h1 : (exPosture.update exArm1 exArm1Config (fun _ => [])).eval[0]? = some 1 := by
    rw [h]
    norm_num
  refine ⟨by decide, hpos, hq, hc, h1, ?_⟩
  rw [h1, hq, hc]
  norm_num

/-! ## Orientation tracking task -/

theorem foldl_push_range (n p : Nat) (acc : List Nat) :
    (List.range n).foldl (fun a j => a ++ [p + j]) acc
      = acc ++ (List.range n).map (fun j => p + j) := by
  induction n with
  | zero => simp
  | succ n ih =>
    rw [List.range_succ, List.foldl_append, ih]
    simp

theorem mem_push_range (n p : Nat) (acc : List Nat) (c : Nat) :
    c ∈ (List.range n).foldl (fun a j => a ++ [p + j]) acc ↔
      c ∈ acc ∨ (p ≤ c ∧ c < p + n) := by
  rw [foldl_push_range, List.mem_append, List.mem_map]
  constructor
  · rintro (h | ⟨j, hj, rfl⟩)
    · exact Or.inl h
    · have := List.mem_range.mp hj
      exact Or.inr ⟨by omega, by omega⟩
  · rintro (h | ⟨h1, h2⟩)
    · exact Or.inl h
    · exact Or.inr ⟨c - p, List.mem_range.mpr (by omega), by omega⟩

/-- Content of the list built by the constructor loop: the accumulated indices and,
for each path position whose joint is not tracked, the compact columns of that joint. -/
theorem mem_zeroIndexLoop (mb : MultiBody) (tr : List Nat) (path : List Nat)
    (jacPos : Nat) (acc : List Nat) (c : Nat) :
    c ∈ OrientationTrackingTask.zeroIndexLoop mb tr path jacPos acc ↔
      c ∈ acc ∨ ∃ m i, path[m]? = some i ∧ i ∉ tr ∧
        jacPos + rowOffset (path.map (fun k => (mb.joint k).dof)) m ≤ c ∧
        c < jacPos + rowOffset (path.map (fun k => (mb.joint k).dof)) m + (mb.joint i).dof := by
  induction path generalizing jacPos acc with
  | nil =>
    simp [OrientationTrackingTask.zeroIndexLoop]
  | cons k rest ih =>
    unfold OrientationTrackingTask.zeroIndexLoop
    rw [ih]
    constructor
    · rintro (h | ⟨m, i, hm, hi, h1, h2⟩)
      · by_cases hk : k ∈ tr
        · rw [if_pos hk] at h
          exact Or.inl h
        · rw [if_neg hk, mem_push_range] at h
          rcases h with h | ⟨h1, h2⟩
          · exact Or.inl h
          · refine Or.inr ⟨0, k, List.getElem?_cons_zero, hk, ?_, ?_⟩
            · rw [rowOffset_zero]; omega
            · rw [rowOffset_zero]; omega
      · refine Or.inr ⟨m + 1, i, by simpa using hm, hi, ?_, ?_⟩
        · rw [List.map_cons, rowOffset_succ]; omega
        · rw [List.map_cons, rowOffset_succ]; omega
    · rintro (h | ⟨m, i, hm, hi, h1, h2⟩)
      · left
        by_cases hk : k ∈ tr
        · rw [if_pos hk]; exact h
        · rw [if_neg hk, mem_push_range]; exact Or.inl h
      · cases m with
        | zero =>
          simp only [List.getElem?_cons_zero, Option.some.injEq] at hm
          subst hm
          rw [rowOffset_zero] at h1 h2
          left
          rw [if_neg hi, mem_push_range]
          exact Or.inr ⟨by omega, by omega⟩
        | succ m =>
          simp only [List.getElem?_cons_succ] at hm
          rw [List.map_cons, rowOffset_succ] at h1 h2
          exact Or.inr ⟨m, i, hm, hi, by omega, by omega⟩

theorem foldl_setColZero (l : List Nat) (M : Matrix) (a b : Nat) :
    ((l.foldl (fun m i => m.setColZero i) M).rows = M.rows ∧
      (l.foldl (fun m i => m.setColZero i) M).cols = M.cols) ∧
    (l.foldl (fun m i => m.setColZero i) M).coeff a b = if b ∈ l then 0 else M.coeff a b := by
  induction l generalizing M with
  | nil => simp
  | cons c cs ih =>
    rw [List.foldl_cons]
    obtain ⟨hd, hc⟩ := ih (M.setColZero c)
    refine ⟨hd, ?_⟩
    rw [hc]
    by_cases hb : b ∈ cs
    · rw [if_pos hb, if_pos (List.mem_cons_of_mem _ hb)]
    · rw [if_neg hb]
      simp only [Matrix.setColZero]
      by_cases hbc : b = c
      · rw [if_pos hbc, if_pos (by rw [hbc]; exact List.mem_cons_self _ _)]
      · rw [if_neg hbc, if_neg]
        intro h
        rcases List.mem_cons.mp h with h | h
        · exact hbc h
        · exact hb h

theorem rowOffset_step (ns : List Nat) (m x : Nat) (h : ns[m]? = some x) :
    rowOffset ns (m + 1) = rowOffset ns m + x := by
  unfold rowOffset
  rw [List.take_succ, h]
  simp

theorem rowOffset_mono (ns : List Nat) (a b : Nat) (h : a ≤ b) :
    rowOffset ns a ≤ rowOffset ns b := by
  obtain ⟨n, rfl⟩ : ∃ n, b = a + n := ⟨b - a, by omega⟩
  unfold rowOffset
  rw [List.take_add, List.sum_append]
  omega

/-- Two positions of a list of sizes whose ranges share an index are equal. -/
theorem rowOffset_range_unique (ns : List Nat) (m m2 x x2 c : Nat)
    (h : ns[m]? = some x) (h2 : ns[m2]? = some x2)
    (hc : rowOffset ns m ≤ c ∧ c < rowOffset ns m + x)
    (hc2 : rowOffset ns m2 ≤ c ∧ c < rowOffset ns m2 + x2) : m = m2 := by
  rcases Nat.lt_trichotomy m m2 with hlt | heq | hgt
  · have := rowOffset_mono ns (m + 1) m2 hlt
    rw [rowOffset_step ns m x h] at this
    omega
  · exact heq
  · have := rowOffset_mono ns (m2 + 1) m hgt
    rw [rowOffset_step ns m2 x2 h2] at this
    omega

theorem jointPosInDof_eq_rowOffset (mb : MultiBody) (i : Nat) :
    mb.jointPosInDof i = rowOffset ((mb.root :: mb.joints).map Joint.dof) i := by
  unfold MultiBody.jointPosInDof rowOffset
  rw [List.map_take]

theorem joint_dof_lookup (mb : MultiBody) (i : Nat) (h : 0 < (mb.joint i).dof) :
    ((mb.root :: mb.joints).map Joint.dof)[i]? = some (mb.joint i).dof := by
  by_cases hlt : i < (mb.root :: mb.joints).length
  · rw [List.getElem?_map, List.getElem?_eq_getElem hlt]
    simp only [MultiBody.joint, List.getD_eq_getElem _ _ hlt, Option.map_some']
  · exfalso
    have hnone : (mb.root :: mb.joints)[i]? = none := List.getElem?_eq_none (by omega)
    have : mb.joint i = ⟨JointType.Fixed⟩ := by
      simp only [MultiBody.joint, List.getD_eq_getElem?_getD, hnone, Option.getD_none]
    rw [this] at h
    exact absurd h (by decide)

/-- The DoF ranges of two different joints share no column. -/
theorem joint_range_unique (mb : MultiBody) (i k c : Nat)
    (hi : mb.jointPosInDof i ≤ c ∧ c < mb.jointPosInDof i + (mb.joint i).dof)
    (hk : mb.jointPosInDof k ≤ c ∧ c < mb.jointPosInDof k + (mb.joint k).dof) : i = k := by
  rw [jointPosInDof_eq_rowOffset] at hi hk
  exact rowOffset_range_unique _ i k _ _ c (joint_dof_lookup mb i (by omega))
    (joint_dof_lookup mb k (by omega)) hi hk

theorem fullJacobianLoop_untouched (mb : MultiBody) (jac : Matrix) (path : List Nat)
    (jacPos : Nat) (res : Matrix) (r c : Nat)
    (h : ∀ k ∈ path, ¬ (mb.jointPosInDof k ≤ c ∧ c < mb.jointPosInDof k + (mb.joint k).dof)) :
    (fullJacobianLoop mb jac path jacPos res).coeff r c = res.coeff r c := by
  induction path generalizing jacPos res with
  | nil => rfl
  | cons k rest ih =>
    unfold fullJacobianLoop
    rw [ih _ _ (fun x hx => h x (List.mem_cons_of_mem _ hx))]
    simp only [Matrix.setBlock]
    rw [if_neg]
    intro hh
    exact h k (List.mem_cons_self _ _) ⟨hh.2.2.1, hh.2.2.2⟩

/-- Column of a path joint in the full Jacobian: the matching column of the compact
Jacobian. -/
theorem fullJacobianLoop_entry (mb : MultiBody) (jac : Matrix) (path : List Nat)
    (hnodup : path.Nodup) (jacPos : Nat) (res : Matrix) (m i d r : Nat)
    (hm : path[m]? = some i) (hd : d < (mb.joint i).dof) (hr : r < jac.rows) :
    (fullJacobianLoop mb jac path jacPos res).coeff r (mb.jointPosInDof i + d)
      = jac.coeff r (jacPos + rowOffset (path.map (fun k => (mb.joint k).dof)) m + d) := by
  induction path generalizing jacPos res m with
  | nil => simp at hm
  | cons k rest ih =>
    have hnd := List.nodup_cons.mp hnodup
    unfold fullJacobianLoop
    cases m with
    | zero =>
      simp only [List.getElem?_cons_zero, Option.some.injEq] at hm
      subst hm
      rw [fullJacobianLoop_untouched]
      · simp only [Matrix.setBlock, Matrix.block, rowOffset_zero]
        rw [if_pos (by omega)]
        congr 1 <;> omega
      · intro x hx hrange
        have := joint_range_unique mb k x (mb.jointPosInDof k + d) ⟨by omega, by omega⟩ hrange
        rw [← this] at hx
        exact hnd.1 hx
    | succ m =>
      simp only [List.getElem?_cons_succ] at hm
      rw [ih hnd.2 _ _ m hm, List.map_cons, rowOffset_succ]
      congr 1
      omega

/-- Columns of a path joint after zeroing the listed compact columns and expanding
to the full Jacobian: the values of the kinematics library for a tracked joint, zero
for a joint that is not tracked. -/
theorem tracking_columns (mb : MultiBody) (tr path : List Nat) (hnodup : path.Nodup)
    (J res : Matrix) (cols : Nat) (m i d r : Nat) (hm : path[m]? = some i)
    (hd : d < (mb.joint i).dof) (hr : r < 3) :
    ((OrientationTrackingTask.zeroIndexLoop mb tr path 0 []).foldl
        (fun M c => M.setColZero c) (J.block 0 0 3 cols)).coeff r
        (rowOffset (path.map (fun k => (mb.joint k).dof)) m + d)
      = (if i ∈ tr then J.coeff r (rowOffset (path.map (fun k => (mb.joint k).dof)) m + d)
         else 0) ∧
    (fullJacobian mb path
        ((OrientationTrackingTask.zeroIndexLoop mb tr path 0 []).foldl
          (fun M c => M.setColZero c) (J.block 0 0 3 cols)) res).coeff r
        (mb.jointPosInDof i + d)
      = (if i ∈ tr then J.coeff r (rowOffset (path.map (fun k => (mb.joint k).dof)) m + d)
         else 0) := by
  obtain ⟨hdims, hcoef⟩ := foldl_setColZero (OrientationTrackingTask.zeroIndexLoop mb tr path 0 [])
    (J.block 0 0 3 cols) r (rowOffset (path.map (fun k => (mb.joint k).dof)) m + d)
  have hshort : ((OrientationTrackingTask.zeroIndexLoop mb tr path 0 []).foldl
        (fun M c => M.setColZero c) (J.block 0 0 3 cols)).coeff r
        (rowOffset (path.map (fun k => (mb.joint k).dof)) m + d)
      = (if i ∈ tr then J.coeff r (rowOffset (path.map (fun k => (mb.joint k).dof)) m + d)
         else 0) := by
    rw [hcoef]
    have hlook : (path.map (fun k => (mb.joint k).dof))[m]? = some (mb.joint i).dof := by
      rw [List.getElem?_map, hm]
      rfl
    by_cases hi : i ∈ tr
    · rw [if_pos hi, if_neg]
      · simp only [Matrix.block, Nat.zero_add]
      · intro hmem
        rw [mem_zeroIndexLoop] at hmem
        rcases hmem with hmem | ⟨m2, i2, hm2, hi2, h1, h2⟩
        · simp at hmem
        · have hlook2 : (path.map (fun k => (mb.joint k).dof))[m2]? = some (mb.joint i2).dof := by
            rw [List.getElem?_map, hm2]
            rfl
          have := rowOffset_range_unique _ m m2 _ _ _ hlook hlook2
            ⟨Nat.le_add_right _ d, by omega⟩ ⟨by omega, by omega⟩
          subst this
          rw [hm] at hm2
          exact hi2 (Option.some.inj hm2 ▸ hi)
    · rw [if_neg hi, if_pos]
      rw [mem_zeroIndexLoop]
      exact Or.inr ⟨m, i, hm, hi, by omega, by omega⟩
  refine ⟨hshort, ?_⟩
  unfold fullJacobian
  rw [fullJacobianLoop_entry mb _ path hnodup 0 res m i d r hm hd
    (by rw [hdims.1]; exact hr), Nat.zero_add]
  exact hshort

/-- C12. Tracking zero-columns: the list zeroJacIndex built by the constructor holds
exactly the compact column indices jacPos(j) .. jacPos(j) + dof(j) - 1 of the path
joints j that are not tracked, jacPos(j) being the sum of the DoF of the path joints
before j; and after update (likewise updateDot) every column of the compact and of the
full Jacobian of the task that belongs to an untracked path joint is zero, while the
columns of a tracked path joint hold the values given by the kinematics library. -/
theorem tracking_zero_columns (mb : MultiBody) (bodyIndexById jointIndexById : Int → Nat)
    (path : List Nat) (bodyId : Int) (trackingJointsId : List Int) (hnodup : path.Nodup)
    (u : OrientationTrackingTask)
    (hz : u.zeroJacIndex = (OrientationTrackingTask.new mb bodyIndexById jointIndexById path
      bodyId trackingJointsId).zeroJacIndex)
    (hp : u.jointsPath = path) :
    (∀ c, c ∈ (OrientationTrackingTask.new mb bodyIndexById jointIndexById path bodyId
        trackingJointsId).zeroJacIndex ↔
      ∃ m i, path[m]? = some i ∧ i ∉ trackingJointsId.map jointIndexById ∧
        rowOffset (path.map (fun k => (mb.joint k).dof)) m ≤ c ∧
        c < rowOffset (path.map (fun k => (mb.joint k).dof)) m + (mb.joint i).dof) ∧
    (∀ (J : Matrix) (err : Vec) (m i d r : Nat), path[m]? = some i →
      d < (mb.joint i).dof → r < 3 →
      (u.update mb J err).shortJacMat.coeff r
          (rowOffset (path.map (fun k => (mb.joint k).dof)) m + d)
        = (if i ∈ trackingJointsId.map jointIndexById then
            J.coeff r (rowOffset (path.map (fun k => (mb.joint k).dof)) m + d) else 0) ∧
      (u.update mb J err).jacMat.coeff r (mb.jointPosInDof i + d)
        = (if i ∈ trackingJointsId.map jointIndexById then
            J.coeff r (rowOffset (path.map (fun k => (mb.joint k).dof)) m + d) else 0) ∧
      (u.updateDot mb J).jacDotMat.coeff r (mb.jointPosInDof i + d)
        = (if i ∈ trackingJointsId.map jointIndexById then
            J.coeff r (rowOffset (path.map (fun k => (mb.joint k).dof)) m + d) else 0)) := by
  constructor
  · intro c
    have h := mem_zeroIndexLoop mb (trackingJointsId.map jointIndexById) path 0 [] c
    simp only [List.not_mem_nil, false_or, Nat.zero_add] at h
    exact h
  · intro J err m i d r hm hd hr
    have hzl : u.zeroJacIndex = OrientationTrackingTask.zeroIndexLoop mb
        (trackingJointsId.map jointIndexById) path 0 [] := hz
    have h1 := tracking_columns mb (trackingJointsId.map jointIndexById) path hnodup J
      u.jacMat u.shortJacMat.cols m i d r hm hd hr
    have h2 := tracking_columns mb (trackingJointsId.map jointIndexById) path hnodup J
      u.jacDotMat u.shortJacMat.cols m i d r hm hd hr
    simp only [OrientationTrackingTask.update, OrientationTrackingTask.updateDot,
      OrientationTrackingTask.zeroJacobian, hzl, hp]
    exact ⟨h1.1, h1.2, h2.2⟩

/-- Witness for C12: on the two-DoF arm with only joint 2 tracked, the column of joint
1 is zero and the column of joint 2 holds the value 5 of the library. -/
theorem tracking_zero_columns_witness :
    ([0, 1, 2] : List Nat).Nodup ∧
    (exTracking.update exArm2 exJacobian [0, 0, 0]).jacMat.coeff 0 (exArm2.jointPosInDof 1 + 0)
      = 0 ∧
    (exTracking.update exArm2 exJacobian [0, 0, 0]).jacMat.coeff 0 (exArm2.jointPosInDof 2 + 0)
      = 5 := by
  have h := tracking_zero_columns exArm2 Int.toNat Int.toNat [0, 1, 2] 2 [2] (by decide)
    exTracking rfl rfl
  have h1 := (h.2 exJacobian [0, 0, 0] 1 1 0 0 rfl (by decide) (by decide)).2.1
  have h2 := (h.2 exJacobian [0, 0, 0] 2 2 0 0 rfl (by decide) (by decide)).2.1
  refine ⟨by decide, ?_, ?_⟩
  · rw [h1, if_neg (by decide)]
  · rw [h2, if_pos (by decide)]
    rfl

/-! ## Position task -/

/-- C19. The code at the failing input: after the setter bodyPoint((1,0,0)) the getter
reports (1,0,0), yet the next update computes the residual with the point (0,0,0) given
at construction: eval is (0,0,0) where p_des minus the world position of the point
(1,0,0) is (-1,0,0). -/
theorem position_residual_stale_point :
    exPosition.bodyPointGet = ⟨1, 0, 0⟩ ∧
    exPosition.point = PTransformd.ofTranslation ⟨0, 0, 0⟩ ∧
    exPositionUpdated.evalGet = [0, 0, 0] ∧
    (exPosition.pos.sub (worldPoint exPose exPosition.bodyPointGet)).toVec = [-1, 0, 0] ∧
    exPositionUpdated.evalGet
      ≠ (exPosition.pos.sub (worldPoint exPose exPosition.bodyPointGet)).toVec := by
  have h1 : exPositionUpdated.evalGet = [0, 0, 0] := by
    simp [exPositionUpdated, exPosition, PositionTask.update, PositionTask.evalGet,
      PositionTask.bodyPoint, PositionTask.new, PTransformd.mul, PTransformd.ofTranslation,
      Vector3d.sub, Vector3d.add, Vector3d.toVec, Matrix3d.transposeMulVec, Matrix3d.identity,
      exPose, Int.toNat]
  have h2 : (exPosition.pos.sub (worldPoint exPose exPosition.bodyPointGet)).toVec
      = [-1, 0, 0] := by
    simp [exPosition, PositionTask.bodyPointGet, PositionTask.bodyPoint, PositionTask.new,
      worldPoint, Vector3d.sub, Vector3d.add, Vector3d.toVec, Matrix3d.transposeMulVec,
      Matrix3d.identity, exPose]
  refine ⟨rfl, rfl, h1, h2, ?_⟩
  rw [h1, h2]
  norm_num

end tasks
